import Mathlib

/-!
# Alternating disks (`disks.hpp`)

A shallow embedding of `disk_state`, `sorted_disks`, `sort_alternate` and
`sort_lawnmower`, followed by theorems about them.

Conventions of the embedding:

* a `std::vector<disk_color>` is a `List disk_color`;
* `size_t` values are natural numbers and every `size_t` operation of the source is
  reduced modulo `SIZE_MOD = 2 ^ 64`;
* a failed `assert` is the result `.error .assertion`, and the `std::length_error` thrown
  by the constructor of a vector longer than `max_size()` is `.error .length_error`; the
  allocation of a vector of at most `max_size()` elements is taken to succeed;
* loops are recursive functions over a step budget; a loop that used up its budget
  returns `.error .out_of_fuel`, which is different from a failed assertion;
* the swap counter `int swap` is an integer kept in the range of a 32-bit `int` (an
  increment of `INT_MAX` wraps to `INT_MIN`), and it is converted to `unsigned`, modulo
  `2 ^ 32`, when the result is built.

The definitions whose names end in `_nat` are the same loops with the swaps counted in a
natural number; they are compared with the loops of the source in the theorems.
-/

/-- Colour of a disk: `enum disk_color { DISK_LIGHT, DISK_DARK }`. -/
inductive disk_color where
  | DISK_LIGHT
  | DISK_DARK
deriving DecidableEq, Repr

open disk_color

/-- Modulus of `size_t` arithmetic (a 64-bit `size_t`). -/
def SIZE_MOD : Nat := 2 ^ 64

/-- Addition of `size_t` values. -/
def size_add (a b : Nat) : Nat := (a + b) % SIZE_MOD

/-- Subtraction of `size_t` values. -/
def size_sub (a b : Nat) : Nat := (a + SIZE_MOD - b % SIZE_MOD) % SIZE_MOD

/-- Multiplication of `size_t` values. -/
def size_mul (a b : Nat) : Nat := (a * b) % SIZE_MOD

/-- Largest length of a `std::vector<disk_color>`: `max_size()` is
`PTRDIFF_MAX / sizeof(disk_color)` with a 4-byte `disk_color`. -/
def MAX_SIZE : Nat := 2 ^ 61 - 1

/-- Modulus of `unsigned` arithmetic (a 32-bit `unsigned`). -/
def UINT_MOD : Nat := 2 ^ 32

/-- The increment `swap++` of the 32-bit `int` counter in two's complement: the value
after `INT_MAX = 2 ^ 31 - 1` is `INT_MIN = - 2 ^ 31`, as in the compiled code (the overflow
of an `int` is undefined in C++). -/
def int_incr (v : Int) : Int := (v + 1 + 2147483648) % 4294967296 - 2147483648

/-- The conversion of an `int` to `unsigned`: the value modulo `2 ^ 32`. -/
def int_to_unsigned (v : Int) : Nat := (v % 4294967296).toNat

/-- Ways in which a run of the embedding stops without a value. -/
inductive Failure where
  | assertion
  | length_error
  | out_of_fuel
deriving DecidableEq, Repr

/-- Decidable equality of results, so that closed runs can be evaluated. -/
instance instDecEqRun {α : Type} [DecidableEq α] : DecidableEq (Except Failure α)
  | .ok a, .ok b => if h : a = b then isTrue (by rw [h]) else isFalse (fun h2 => h (by cases h2; rfl))
  | .error a, .error b =>
    if h : a = b then isTrue (by rw [h]) else isFalse (fun h2 => h (by cases h2; rfl))
  | .ok _, .error _ => isFalse (fun h => by cases h)
  | .error _, .ok _ => isFalse (fun h => by cases h)

/-- The class `disk_state`: a row of disks. -/
structure disk_state where
  _colors : List disk_color
deriving DecidableEq, Repr

namespace disk_state

/-- The constructor's loop `for (size_t i = 1; i < _colors.size(); i += 2) _colors[i] = DISK_DARK;`. -/
def ctor_loop : Nat → Nat → List disk_color → Except Failure (List disk_color)
  | 0, _, _ => .error .out_of_fuel
  | fuel + 1, i, colors =>
    if i < colors.length then
      ctor_loop fuel (size_add i 2) (colors.set i DISK_DARK)
    else
      .ok colors

/-- The constructor `disk_state(size_t light_count)`: the member initialiser
`_colors(light_count * 2, DISK_LIGHT)` comes first and throws `std::length_error` when the
length `light_count * 2` (computed in `size_t`) is greater than `max_size()`; then
`assert(light_count > 0)`, then the loop over the odd indices. -/
def ctor (light_count : Nat) : Except Failure disk_state :=
  if size_mul light_count 2 > MAX_SIZE then
    .error .length_error
  else
    let colors := List.replicate (size_mul light_count 2) DISK_LIGHT
    if light_count > 0 then
      match ctor_loop (colors.length + 1) 1 colors with
      | .ok colors => .ok ⟨colors⟩
      | .error e => .error e
    else
      .error .assertion

/-- The method `total_count()`. -/
def total_count (d : disk_state) : Nat := d._colors.length

/-- The method `light_count()`. -/
def light_count (d : disk_state) : Nat := d.total_count / 2

/-- The method `dark_count()`. -/
def dark_count (d : disk_state) : Nat := d.light_count

/-- The method `is_index(i)`. -/
def is_index (d : disk_state) (i : Nat) : Bool := decide (i < d.total_count)

/-- The method `get(index)`: `assert(is_index(index)); return _colors[index];`. -/
def get (d : disk_state) (index : Nat) : Except Failure disk_color :=
  if d.is_index index then
    match d._colors[index]? with
    | some c => .ok c
    | none => .error .assertion
  else
    .error .assertion

/-- The method `swap(left_index)`: both indices are asserted, then the two elements are
exchanged. -/
def swap (d : disk_state) (left_index : Nat) : Except Failure disk_state :=
  if d.is_index left_index then
    let right_index := size_add left_index 1
    if d.is_index right_index then
      match d._colors[left_index]?, d._colors[right_index]? with
      | some a, some b => .ok ⟨(d._colors.set left_index b).set right_index a⟩
      | _, _ => .error .assertion
    else
      .error .assertion
  else
    .error .assertion

/-- The comparison `operator==`: `std::equal(_colors.begin(), _colors.end(), rhs._colors.begin())`.
It reads `rhs` over the length of the left operand; a shorter `rhs` is outside the
contract of `std::equal` and given as a failure. -/
def op_eq (d rhs : disk_state) : Except Failure Bool :=
  if d.total_count ≤ rhs.total_count then
    .ok (decide (d._colors = rhs._colors.take d.total_count))
  else
    .error .assertion

/-- The loop of `to_string()`: `first` is the flag of the source, `ss` the stream so far. -/
def to_string_loop : List disk_color → Bool → String → String
  | [], _, ss => ss
  | color :: rest, first, ss =>
    let ss1 := if !first then ss ++ " " else ss
    let ss2 := if color = DISK_LIGHT then ss1 ++ "L" else ss1 ++ "D"
    to_string_loop rest false ss2

/-- The method `to_string()`. -/
def to_string (d : disk_state) : String := to_string_loop d._colors true ""

/-- A loop `for (size_t i = start; i < bound; i += step) { if (get(i) != want) return false; }`
as it occurs twice in `is_initialized()` and twice in `is_sorted()`; the value is `true`
when the loop runs to its end. -/
def scan_loop (d : disk_state) (want : disk_color) (step bound : Nat) :
    Nat → Nat → Except Failure Bool
  | 0, _ => .error .out_of_fuel
  | fuel + 1, i =>
    if i < bound then
      match d.get i with
      | .ok c =>
        if c ≠ want then .ok false
        else scan_loop d want step bound fuel (size_add i step)
      | .error e => .error e
    else
      .ok true

/-- The method `is_initialized()`: every even index light, every odd index dark. -/
def is_initialized (d : disk_state) : Except Failure Bool :=
  match scan_loop d DISK_LIGHT 2 d.total_count (d.total_count + 1) 0 with
  | .ok true => scan_loop d DISK_DARK 2 d.total_count (d.total_count + 1) 1
  | .ok false => .ok false
  | .error e => .error e

/-- The method `is_sorted()`: the first `light_count()` disks light, the disks from
`dark_count()` on dark. -/
def is_sorted (d : disk_state) : Except Failure Bool :=
  match scan_loop d DISK_LIGHT 1 d.light_count (d.total_count + 1) 0 with
  | .ok true => scan_loop d DISK_DARK 1 d.total_count (d.total_count + 1) d.dark_count
  | .ok false => .ok false
  | .error e => .error e

end disk_state

/-- The class `sorted_disks`: the final row and the swap count. The field
`unsigned _swap_count` holds a value below `2 ^ 32`; it is filled by the sorts with the
`int` counter converted to `unsigned`. -/
structure sorted_disks where
  _after : disk_state
  _swap_count : Nat
deriving DecidableEq, Repr

namespace sorted_disks

/-- The accessor `after()`. -/
def after (s : sorted_disks) : disk_state := s._after

/-- The accessor `swap_count()`. -/
def swap_count (s : sorted_disks) : Nat := s._swap_count

end sorted_disks

/-- The body shared by the inner loop of `sort_alternate` and the first inner loop of
`sort_lawnmower`:
`if (disk.get(j) == DISK_DARK && disk.get(j+1) == DISK_LIGHT) { disk.swap(j); swap++; }`.
The second `get` is evaluated only when the first comparison holds; `swap` is the `int`
counter of the source. -/
def swap_right_step (j : Nat) (disk : disk_state) (swap : Int) :
    Except Failure (disk_state × Int) :=
  match disk.get j with
  | .error e => .error e
  | .ok DISK_LIGHT => .ok (disk, swap)
  | .ok DISK_DARK =>
    match disk.get (size_add j 1) with
    | .error e => .error e
    | .ok DISK_DARK => .ok (disk, swap)
    | .ok DISK_LIGHT =>
      match disk.swap j with
      | .error e => .error e
      | .ok disk1 => .ok (disk1, int_incr swap)

/-- The body of the second inner loop of `sort_lawnmower`:
`if (disk.get(j) == DISK_LIGHT && disk.get(j-1) == DISK_DARK) { disk.swap(j-1); swap++; }`. -/
def swap_left_step (j : Nat) (disk : disk_state) (swap : Int) :
    Except Failure (disk_state × Int) :=
  match disk.get j with
  | .error e => .error e
  | .ok DISK_DARK => .ok (disk, swap)
  | .ok DISK_LIGHT =>
    match disk.get (size_sub j 1) with
    | .error e => .error e
    | .ok DISK_LIGHT => .ok (disk, swap)
    | .ok DISK_DARK =>
      match disk.swap (size_sub j 1) with
      | .error e => .error e
      | .ok disk1 => .ok (disk1, int_incr swap)

/-- The inner loop of `sort_alternate`, `for (size_t j = i % 2; j < 2*n - 1; j += 2)`, from
the current `j` on; `bound` is the value of `2*n - 1`. -/
def alternate_inner (bound : Nat) : Nat → Nat → disk_state → Int →
    Except Failure (disk_state × Int)
  | 0, _, _, _ => .error .out_of_fuel
  | fuel + 1, j, disk, swap =>
    if j < bound then
      match swap_right_step j disk swap with
      | .error e => .error e
      | .ok (disk1, swap1) => alternate_inner bound fuel (size_add j 2) disk1 swap1
    else
      .ok (disk, swap)

/-- The outer loop of `sort_alternate`, `for (size_t i = 0; i < n + 1; i++)`, from the
current `i` on. -/
def alternate_outer (n : Nat) (inner_fuel : Nat) : Nat → Nat → disk_state → Int →
    Except Failure (disk_state × Int)
  | 0, _, _, _ => .error .out_of_fuel
  | fuel + 1, i, disk, swap =>
    if i < size_add n 1 then
      match alternate_inner (size_sub (size_mul 2 n) 1) inner_fuel (i % 2) disk swap with
      | .error e => .error e
      | .ok (disk1, swap1) => alternate_outer n inner_fuel fuel (size_add i 1) disk1 swap1
    else
      .ok (disk, swap)

/-- The function `sort_alternate`: `int swap = 0`, the loops, and
`return sorted_disks(disk, swap)`, which converts the counter to `unsigned`. The budgets
cover every iteration of a run on a row of `total_count()` disks. -/
def sort_alternate (before : disk_state) : Except Failure sorted_disks :=
  let disk := before
  let n := disk.light_count
  match alternate_outer n (disk.total_count + 2) (n + 2) 0 disk 0 with
  | .error e => .error e
  | .ok (disk1, swap) => .ok ⟨disk1, int_to_unsigned swap⟩

/-- The first inner loop of `sort_lawnmower`, `for (size_t j = 0; j < 2*n - 1; j++)`. -/
def lawnmower_right (bound : Nat) : Nat → Nat → disk_state → Int →
    Except Failure (disk_state × Int)
  | 0, _, _, _ => .error .out_of_fuel
  | fuel + 1, j, disk, swap =>
    if j < bound then
      match swap_right_step j disk swap with
      | .error e => .error e
      | .ok (disk1, swap1) => lawnmower_right bound fuel (size_add j 1) disk1 swap1
    else
      .ok (disk, swap)

/-- The second inner loop of `sort_lawnmower`, `for (size_t j = 2*n - 1; j > 0; j--)`. -/
def lawnmower_left : Nat → Nat → disk_state → Int → Except Failure (disk_state × Int)
  | 0, _, _, _ => .error .out_of_fuel
  | fuel + 1, j, disk, swap =>
    if j > 0 then
      match swap_left_step j disk swap with
      | .error e => .error e
      | .ok (disk1, swap1) => lawnmower_left fuel (size_sub j 1) disk1 swap1
    else
      .ok (disk, swap)

/-- The outer loop of `sort_lawnmower`, `for (size_t i = 0; i < (n+1)/2; i++)`. -/
def lawnmower_outer (n : Nat) (inner_fuel : Nat) : Nat → Nat → disk_state → Int →
    Except Failure (disk_state × Int)
  | 0, _, _, _ => .error .out_of_fuel
  | fuel + 1, i, disk, swap =>
    if i < size_add n 1 / 2 then
      match lawnmower_right (size_sub (size_mul 2 n) 1) inner_fuel 0 disk swap with
      | .error e => .error e
      | .ok (disk1, swap1) =>
        match lawnmower_left inner_fuel (size_sub (size_mul 2 n) 1) disk1 swap1 with
        | .error e => .error e
        | .ok (disk2, swap2) => lawnmower_outer n inner_fuel fuel (size_add i 1) disk2 swap2
    else
      .ok (disk, swap)

/-- The function `sort_lawnmower`: `int swap = 0`, the loops, and
`return sorted_disks(disk, swap)`, which converts the counter to `unsigned`. -/
def sort_lawnmower (before : disk_state) : Except Failure sorted_disks :=
  let disk := before
  let n := disk.light_count
  match lawnmower_outer n (disk.total_count + 2) (n + 2) 0 disk 0 with
  | .error e => .error e
  | .ok (disk1, swap) => .ok ⟨disk1, int_to_unsigned swap⟩

/-! ## The loops with the swaps counted in a natural number -/

/-- The body `swap_right_step` with the swap counted in a natural number. -/
def swap_right_step_nat (j : Nat) (disk : disk_state) (swap : Nat) :
    Except Failure (disk_state × Nat) :=
  match disk.get j with
  | .error e => .error e
  | .ok DISK_LIGHT => .ok (disk, swap)
  | .ok DISK_DARK =>
    match disk.get (size_add j 1) with
    | .error e => .error e
    | .ok DISK_DARK => .ok (disk, swap)
    | .ok DISK_LIGHT =>
      match disk.swap j with
      | .error e => .error e
      | .ok disk1 => .ok (disk1, swap + 1)

/-- The body `swap_left_step` with the swap counted in a natural number. -/
def swap_left_step_nat (j : Nat) (disk : disk_state) (swap : Nat) :
    Except Failure (disk_state × Nat) :=
  match disk.get j with
  | .error e => .error e
  | .ok DISK_DARK => .ok (disk, swap)
  | .ok DISK_LIGHT =>
    match disk.get (size_sub j 1) with
    | .error e => .error e
    | .ok DISK_LIGHT => .ok (disk, swap)
    | .ok DISK_DARK =>
      match disk.swap (size_sub j 1) with
      | .error e => .error e
      | .ok disk1 => .ok (disk1, swap + 1)

/-- The loop `alternate_inner` with the swaps counted in a natural number. -/
def alternate_inner_nat (bound : Nat) : Nat → Nat → disk_state → Nat →
    Except Failure (disk_state × Nat)
  | 0, _, _, _ => .error .out_of_fuel
  | fuel + 1, j, disk, swap =>
    if j < bound then
      match swap_right_step_nat j disk swap with
      | .error e => .error e
      | .ok (disk1, swap1) => alternate_inner_nat bound fuel (size_add j 2) disk1 swap1
    else
      .ok (disk, swap)

/-- The loop `alternate_outer` with the swaps counted in a natural number. -/
def alternate_outer_nat (n : Nat) (inner_fuel : Nat) : Nat → Nat → disk_state → Nat →
    Except Failure (disk_state × Nat)
  | 0, _, _, _ => .error .out_of_fuel
  | fuel + 1, i, disk, swap =>
    if i < size_add n 1 then
      match alternate_inner_nat (size_sub (size_mul 2 n) 1) inner_fuel (i % 2) disk swap with
      | .error e => .error e
      | .ok (disk1, swap1) => alternate_outer_nat n inner_fuel fuel (size_add i 1) disk1 swap1
    else
      .ok (disk, swap)

/-- The run of `sort_alternate` with the swaps counted in a natural number: the final row
and the number of swaps performed. -/
def sort_alternate_nat (before : disk_state) : Except Failure (disk_state × Nat) :=
  let disk := before
  let n := disk.light_count
  match alternate_outer_nat n (disk.total_count + 2) (n + 2) 0 disk 0 with
  | .error e => .error e
  | .ok (disk1, swap) => .ok (disk1, swap)

/-- The loop `lawnmower_right` with the swaps counted in a natural number. -/
def lawnmower_right_nat (bound : Nat) : Nat → Nat → disk_state → Nat →
    Except Failure (disk_state × Nat)
  | 0, _, _, _ => .error .out_of_fuel
  | fuel + 1, j, disk, swap =>
    if j < bound then
      match swap_right_step_nat j disk swap with
      | .error e => .error e
      | .ok (disk1, swap1) => lawnmower_right_nat bound fuel (size_add j 1) disk1 swap1
    else
      .ok (disk, swap)

/-- The loop `lawnmower_left` with the swaps counted in a natural number. -/
def lawnmower_left_nat : Nat → Nat → disk_state → Nat → Except Failure (disk_state × Nat)
  | 0, _, _, _ => .error .out_of_fuel
  | fuel + 1, j, disk, swap =>
    if j > 0 then
      match swap_left_step_nat j disk swap with
      | .error e => .error e
      | .ok (disk1, swap1) => lawnmower_left_nat fuel (size_sub j 1) disk1 swap1
    else
      .ok (disk, swap)

/-- The loop `lawnmower_outer` with the swaps counted in a natural number. -/
def lawnmower_outer_nat (n : Nat) (inner_fuel : Nat) : Nat → Nat → disk_state → Nat →
    Except Failure (disk_state × Nat)
  | 0, _, _, _ => .error .out_of_fuel
  | fuel + 1, i, disk, swap =>
    if i < size_add n 1 / 2 then
      match lawnmower_right_nat (size_sub (size_mul 2 n) 1) inner_fuel 0 disk swap with
      | .error e => .error e
      | .ok (disk1, swap1) =>
        match lawnmower_left_nat inner_fuel (size_sub (size_mul 2 n) 1) disk1 swap1 with
        | .error e => .error e
        | .ok (disk2, swap2) => lawnmower_outer_nat n inner_fuel fuel (size_add i 1) disk2 swap2
    else
      .ok (disk, swap)

/-- The run of `sort_lawnmower` with the swaps counted in a natural number: the final row
and the number of swaps performed. -/
def sort_lawnmower_nat (before : disk_state) : Except Failure (disk_state × Nat) :=
  let disk := before
  let n := disk.light_count
  match lawnmower_outer_nat n (disk.total_count + 2) (n + 2) 0 disk 0 with
  | .error e => .error e
  | .ok (disk1, swap) => .ok (disk1, swap)

/-! ## Rows given by a colouring of the indices -/

/-- The row of `len` disks whose disk at index `p` has colour `f p`. -/
def row_of (len : Nat) (f : Nat → disk_color) : disk_state := ⟨(List.range len).map f⟩

/-- The colouring `f` with the colours at `j` and `j + 1` exchanged. -/
def exch (f : Nat → disk_color) (j : Nat) : Nat → disk_color :=
  fun p => if p = j then f (j + 1) else if p = j + 1 then f j else f p

/-- The colouring of a row: the colour at each index of the row, light beyond its end. -/
def coloring (d : disk_state) : Nat → disk_color := fun p => d._colors.getD p DISK_LIGHT

/-- The colouring of the row `L^c (L D)^(n-c) D^c` of `2 * n` disks (with `c` cut at
`n`): `c` light disks, then light and dark disks in turn, then `c` dark disks. For
`c = 0` it is the alternating row, for `c ≥ n` the sorted row. -/
def stage (n c : Nat) : Nat → disk_color := fun p =>
  if p < min c n then DISK_LIGHT
  else if 2 * n ≤ p + min c n then DISK_DARK
  else if (p + min c n) % 2 = 0 then DISK_LIGHT
  else DISK_DARK

/-- The row `L^c (L D)^(n-c) D^c`. -/
def stage_row (n c : Nat) : disk_state := row_of (2 * n) (stage n c)

/-- The sum `0 + 1 + ... + (m - 1)`. -/
def triangle : Nat → Nat
  | 0 => 0
  | m + 1 => triangle m + m

/-- The colouring met by the left-to-right sweep of `sort_lawnmower` on `stage n c` when
its index is `j`: the sweep has finished the indices below `j` and carries a dark disk at
`j` once it has passed index `c`. -/
def right_mix (n c j : Nat) : Nat → disk_color := fun p =>
  if p < j then stage n (c + 1) p
  else if p = j then (if c < j then DISK_DARK else stage n c j)
  else stage n c p

/-- The colouring met by the right-to-left sweep of `sort_lawnmower` on `stage n c` when
its index is `j`: the sweep has finished the indices above `j` and carries a light disk at
`j` once it has reached index `2 * n - c - 2`. -/
def left_mix (n c j : Nat) : Nat → disk_color := fun p =>
  if j < p then stage n (c + 1) p
  else if p = j then (if j + c + 2 ≤ 2 * n then DISK_LIGHT else stage n c j)
  else stage n c p

/-! ## The effect of `swap`, renderings, reachable rows, inversions and rounds -/

namespace disk_state

/-- The method `swap(left_index)` as a change of the object: the row as it is when the
call ends, also when it ends at a failed assertion, and the outcome of the call. Both
assertions come before `std::swap`, so a failed call has not written to the row. -/
def swap_effect (d : disk_state) (left_index : Nat) : disk_state × Except Failure Unit :=
  if d.is_index left_index then
    let right_index := size_add left_index 1
    if d.is_index right_index then
      match d._colors[left_index]?, d._colors[right_index]? with
      | some a, some b => (⟨(d._colors.set left_index b).set right_index a⟩, .ok ())
      | _, _ => (d, .error .assertion)
    else
      (d, .error .assertion)
  else
    (d, .error .assertion)

end disk_state

/-- The token of a disk in a rendering: `"L"` for a light disk, `"D"` for a dark one. -/
def disk_token (c : disk_color) : String := if c = DISK_LIGHT then "L" else "D"

/-- The character of a disk in a rendering. -/
def disk_char (c : disk_color) : Char := if c = DISK_LIGHT then 'L' else 'D'

/-- The rendering of a row in the words of the specification: the tokens of the disks in
index order, joined by one space. -/
def render_joined (d : disk_state) : String := " ".intercalate (d._colors.map disk_token)

/-- The rows obtained from `disk_state(k)` by a sequence of `swap` calls that pass their
assertions. -/
inductive reachable (k : Nat) : disk_state → Prop where
  | fresh (d : disk_state) : disk_state.ctor k = .ok d → reachable k d
  | swapped (d d1 : disk_state) (left : Nat) :
      reachable k d → d.swap left = .ok d1 → reachable k d1

/-- The count invariant of a row for the light count `k`: `2 * k` disks, `k` of them
light and `k` dark, and `light_count()` and `dark_count()` both `k`. -/
def count_invariant (k : Nat) (d : disk_state) : Prop :=
  d.total_count = 2 * k ∧ d._colors.count DISK_LIGHT = k ∧ d._colors.count DISK_DARK = k ∧
    d.light_count = k ∧ d.dark_count = k

/-- The number of inversions of a list of colours: the pairs of positions `i < j` with a
dark disk at `i` and a light disk at `j`, counted by the dark disk: each dark disk counts
the light disks right of it. -/
def inversions_list : List disk_color → Nat
  | [] => 0
  | c :: rest => (if c = DISK_DARK then rest.count DISK_LIGHT else 0) + inversions_list rest

/-- The number of inversions of a row. -/
def inversions (d : disk_state) : Nat := inversions_list d._colors

/-- The number of inversions of a row in the words of the claim: the number of pairs of
indices `i < j` of the row with `DISK_DARK` at `i` and `DISK_LIGHT` at `j`. -/
def inversion_pairs (d : disk_state) : Nat :=
  ((List.range d.total_count).map (fun i =>
    ((List.range d.total_count).filter (fun j =>
      decide (i < j ∧ d._colors[i]? = some DISK_DARK ∧ d._colors[j]? = some DISK_LIGHT))).length)).sum

/-- A property `Q` of the row and the swap counter is kept by every swap of a dark disk
with the light disk right of it, in rows of `N` disks. -/
def swap_inv (N : Nat) (Q : disk_state → Nat → Prop) : Prop :=
  ∀ (d : disk_state) (s p : Nat) (d1 : disk_state), d.total_count = N → Q d s →
    coloring d p = DISK_DARK → coloring d (p + 1) = DISK_LIGHT → d.swap p = .ok d1 →
    Q d1 (s + 1)

/-- One visit of a sweep at the position `j`, in the words of the specification: a dark
disk at `j` followed by a light disk at `j + 1` are swapped, and the swap is counted. -/
def visit_spec (st : disk_state × Nat) (j : Nat) : disk_state × Nat :=
  if coloring st.1 j = DISK_DARK ∧ coloring st.1 (j + 1) = DISK_LIGHT then
    (⟨(st.1._colors.set j DISK_LIGHT).set (j + 1) DISK_DARK⟩, st.2 + 1)
  else
    st

/-- One round in the words of the specification, for `n` light disks: a left-to-right
sweep over the positions `0 .. 2n-2`, followed by a right-to-left sweep over the same
positions. -/
def round_spec (n : Nat) (st : disk_state × Nat) : disk_state × Nat :=
  (List.range (2 * n - 1)).reverse.foldl visit_spec
    ((List.range (2 * n - 1)).foldl visit_spec st)

/-- The result of `rounds` rounds on a copy of the row `r`: the final row and the number
of swaps, every swap counted. -/
def lawnmower_spec (rounds : Nat) (r : disk_state) : disk_state × Nat :=
  (round_spec r.light_count)^[rounds] (r, 0)

/-! ## The `int` counter and the number of swaps -/

/-- The value held by the `int` counter after `s` increments from `0`. -/
def wrap_int (s : Nat) : Int := ((s : Int) + 2147483648) % 4294967296 - 2147483648

/-- A state of a loop with the number of swaps as the `int` counter holds it. -/
def wrap_state : Except Failure (disk_state × Nat) → Except Failure (disk_state × Int)
  | .ok (d, s) => .ok (d, wrap_int s)
  | .error e => .error e

/-- The result object built from a final row and a number of swaps: the number is
reduced modulo `2 ^ 32`, as the `int` counter converted to `unsigned` is. -/
def unsigned_result : Except Failure (disk_state × Nat) → Except Failure sorted_disks
  | .ok (d, s) => .ok ⟨d, s % UINT_MOD⟩
  | .error e => .error e

/-! ## Light disks in the prefixes of a row -/

/-- The number of light disks among the first `m` positions of a colouring. -/
def lights_before (f : Nat → disk_color) : Nat → Nat
  | 0 => 0
  | m + 1 => lights_before f m + (if f m = DISK_LIGHT then 1 else 0)

/-- Every prefix of even length of the row holds at least as many light as dark disks:
the first `2 * j` disks hold at least `j` light ones, for every `j` up to `light_count()`. -/
def light_prefixes (d : disk_state) : Prop :=
  ∀ j, j ≤ d.light_count → j ≤ (d._colors.take (2 * j)).count DISK_LIGHT

/-- The prefix condition can be evaluated. -/
instance instDecLightPrefixes (d : disk_state) : Decidable (light_prefixes d) := by
  unfold light_prefixes
  infer_instance

/-- The colouring after one pass of the inner loop of `sort_alternate` over a row of `len`
disks coloured by `f`, the pass starting at `parity % 2`: the pairs `(p, p + 1)` with `p`
of that parity and `p + 1 < len` are visited, and a dark disk left of a light one is
exchanged with it. -/
def alt_pass (len parity : Nat) (f : Nat → disk_color) : Nat → disk_color := fun p =>
  if p % 2 = parity % 2 then
    (if p + 1 < len ∧ f p = DISK_DARK ∧ f (p + 1) = DISK_LIGHT then DISK_LIGHT else f p)
  else
    (if 1 ≤ p ∧ p < len ∧ f (p - 1) = DISK_DARK ∧ f p = DISK_LIGHT then DISK_DARK else f p)

/-- The colouring during a pass of `sort_alternate`, when the inner loop is at index `j`:
the pairs below `j` are done. -/
def alt_mix (len parity : Nat) (f : Nat → disk_color) (j : Nat) : Nat → disk_color := fun p =>
  if p < j then alt_pass len parity f p else f p

/-- The colouring after the first `t` passes of `sort_alternate`. -/
def alt_iter (len : Nat) (f : Nat → disk_color) : Nat → Nat → disk_color
  | 0 => f
  | t + 1 => alt_pass len t (alt_iter len f t)

/-- The first index below `len` that holds a dark disk, or `len` when there is none: the
number of light disks at the start of the row. -/
def first_dark (f : Nat → disk_color) : Nat → Nat
  | 0 => 0
  | len + 1 =>
    if first_dark f len < len then first_dark f len
    else if f len = DISK_DARK then len else len + 1

/-- The index after the last light disk below `len`, or `0` when there is none. -/
def light_end (f : Nat → disk_color) : Nat → Nat
  | 0 => 0
  | len + 1 => if f len = DISK_LIGHT then len + 1 else light_end f len

/-- The colouring after the left-to-right sweep of `sort_lawnmower` over a row of `len`
disks coloured by `f`, whose first dark disk is at `a`: the disks right of `a` have moved
one place left and the dark disk is at the end. -/
def right_sweep (len a : Nat) (f : Nat → disk_color) : Nat → disk_color := fun p =>
  if p < a then f p
  else if p + 1 < len then f (p + 1)
  else if p < len then DISK_DARK
  else f p

/-- The colouring during the left-to-right sweep, when the loop is at index `j`: the
indices below `j` are done and the sweep carries a dark disk at `j` once it has met one. -/
def right_carry (len a : Nat) (f : Nat → disk_color) (j : Nat) : Nat → disk_color := fun p =>
  if p < j then right_sweep len a f p
  else if p = j then (if a ≤ j then DISK_DARK else f j)
  else f p

/-- The colouring after the right-to-left sweep of `sort_lawnmower` over a row coloured by
`g`, whose last light disk is at `e - 1`: the disks left of it have moved one place right
and the light disk is at the start. -/
def left_sweep (e : Nat) (g : Nat → disk_color) : Nat → disk_color := fun p =>
  if e ≤ p then g p
  else if p = 0 then DISK_LIGHT
  else g (p - 1)

/-- The colouring during the right-to-left sweep, when the loop is at index `j`: the
indices above `j` are done and the sweep carries a light disk at `j` once it has met
one. -/
def left_carry (e : Nat) (g : Nat → disk_color) (j : Nat) : Nat → disk_color := fun p =>
  if j < p then left_sweep e g p
  else if p = j then (if j < e then DISK_LIGHT else g j)
  else g p

/-- The colouring after one round of `sort_lawnmower` over a row of `len` disks. -/
def lawn_round (len : Nat) (f : Nat → disk_color) : Nat → disk_color :=
  left_sweep (light_end (right_sweep len (first_dark f len) f) len)
    (right_sweep len (first_dark f len) f)

/-- The colouring after the first `t` rounds of `sort_lawnmower`. -/
def lawn_iter (len : Nat) (f : Nat → disk_color) : Nat → Nat → disk_color
  | 0 => f
  | t + 1 => lawn_round len (lawn_iter len f t)

/-! ## Arithmetic of `size_t` -/

theorem MAX_SIZE_eq : MAX_SIZE = 2305843009213693951 := by
  unfold MAX_SIZE
  norm_num

theorem UINT_MOD_eq : UINT_MOD = 4294967296 := by
  unfold UINT_MOD
  norm_num

theorem SIZE_MOD_eq : SIZE_MOD = 18446744073709551616 := by
  norm_num [SIZE_MOD]

theorem size_add_eq {a b : Nat} (h : a + b < SIZE_MOD) : size_add a b = a + b := by
  unfold size_add
  exact Nat.mod_eq_of_lt h

theorem size_sub_eq {a b : Nat} (hb : b ≤ a) (ha : a < SIZE_MOD) : size_sub a b = a - b := by
  unfold size_sub SIZE_MOD at *
  have hb2 : b % 2 ^ 64 = b := Nat.mod_eq_of_lt (by omega)
  rw [hb2]
  omega

theorem size_mul_two_eq {n : Nat} (h : 2 * n < SIZE_MOD) : size_mul 2 n = 2 * n := by
  unfold size_mul
  exact Nat.mod_eq_of_lt h

/-! ## Reading and swapping in a row given by a colouring -/

theorem total_count_row_of (len : Nat) (f : Nat → disk_color) :
    (row_of len f).total_count = len := by
  simp [row_of, disk_state.total_count]

theorem row_of_congr {len : Nat} {f g : Nat → disk_color} (h : ∀ p, p < len → f p = g p) :
    row_of len f = row_of len g := by
  unfold row_of
  congr 1
  apply List.map_congr_left
  intro p hp
  exact h p (List.mem_range.mp hp)

theorem row_of_coloring (d : disk_state) : row_of d.total_count (coloring d) = d := by
  cases d with
  | mk l =>
    simp only [row_of, disk_state.total_count, coloring]
    congr 1
    apply List.ext_getElem
    · simp
    · intro i h1 h2
      simp only [List.getElem_map, List.getElem_range]
      show l.getD i DISK_LIGHT = l[i]
      simp [List.getD_eq_getElem?_getD, List.getElem?_eq_getElem h2]

theorem get_row_of {len : Nat} (f : Nat → disk_color) {j : Nat} (h : j < len) :
    (row_of len f).get j = .ok (f j) := by
  simp [disk_state.get, disk_state.is_index, disk_state.total_count, row_of, h,
    List.getElem?_range]

theorem get_row_of_fail {len : Nat} (f : Nat → disk_color) {j : Nat} (h : len ≤ j) :
    (row_of len f).get j = .error .assertion := by
  simp [disk_state.get, disk_state.is_index, disk_state.total_count, row_of, Nat.not_lt.mpr h]

theorem swap_row_of {len : Nat} (f : Nat → disk_color) {j : Nat} (h : j + 1 < len)
    (hlen : len < SIZE_MOD) : (row_of len f).swap j = .ok (row_of len (exch f j)) := by
  have hj : j < len := by omega
  have hs : size_add j 1 = j + 1 := size_add_eq (by omega)
  simp only [disk_state.swap, disk_state.is_index, disk_state.total_count, row_of, hs]
  simp only [List.length_map, List.length_range, hj, h, decide_True, if_true,
    List.getElem?_map, List.getElem?_range, Option.map_some']
  congr 2
  apply List.ext_getElem
  · simp
  · intro i h1 h2
    simp only [List.length_map, List.length_range] at h2
    simp only [List.getElem_set, List.getElem_map, List.getElem_range, exch]
    by_cases e1 : j + 1 = i
    · subst e1
      simp
    · by_cases e2 : j = i
      · subst e2
        simp
      · have e3 : ¬ i = j := fun e => e2 e.symm
        have e4 : ¬ i = j + 1 := fun e => e1 e.symm
        simp [e1, e2, e3, e4]

/-! ## One step of the sweeps on a row given by a colouring -/

theorem swap_right_step_row_of {len : Nat} (f : Nat → disk_color) {j : Nat} (h : j + 1 < len)
    (hlen : len < SIZE_MOD) (s : Nat) :
    swap_right_step_nat j (row_of len f) s =
      .ok (if f j = DISK_DARK ∧ f (j + 1) = DISK_LIGHT then (row_of len (exch f j), s + 1)
        else (row_of len f, s)) := by
  have hs : size_add j 1 = j + 1 := size_add_eq (by omega)
  unfold swap_right_step_nat
  rw [get_row_of f (by omega : j < len), hs, get_row_of f h, swap_row_of f h hlen]
  cases f j <;> cases f (j + 1) <;> simp

theorem swap_left_step_row_of {len : Nat} (f : Nat → disk_color) {j : Nat} (h0 : 0 < j)
    (h : j < len) (hlen : len < SIZE_MOD) (s : Nat) :
    swap_left_step_nat j (row_of len f) s =
      .ok (if f j = DISK_LIGHT ∧ f (j - 1) = DISK_DARK then (row_of len (exch f (j - 1)), s + 1)
        else (row_of len f, s)) := by
  have hs : size_sub j 1 = j - 1 := size_sub_eq (by omega) (by omega)
  unfold swap_left_step_nat
  rw [get_row_of f h, hs, get_row_of f (by omega : j - 1 < len),
    swap_row_of f (by omega : j - 1 + 1 < len) hlen]
  cases f j <;> cases f (j - 1) <;> simp

/-! ## The sweeps never fail on a row of at least two disks -/

theorem alternate_inner_ok {len bound : Nat} (hb : bound < len) (hlen : len < SIZE_MOD) :
    ∀ (fuel j : Nat) (f : Nat → disk_color) (s : Nat), bound - j < fuel →
      ∃ g t, alternate_inner_nat bound fuel j (row_of len f) s = .ok (row_of len g, t) := by
  intro fuel
  induction fuel with
  | zero => intro j f s h; omega
  | succ fuel ih =>
    intro j f s h
    unfold alternate_inner_nat
    by_cases hj : j < bound
    · rw [if_pos hj, swap_right_step_row_of f (by omega) hlen s,
        size_add_eq (by omega : j + 2 < SIZE_MOD)]
      split_ifs
      · exact ih (j + 2) _ _ (by omega)
      · exact ih (j + 2) _ _ (by omega)
    · rw [if_neg hj]
      exact ⟨f, s, rfl⟩

theorem lawnmower_right_ok {len bound : Nat} (hb : bound < len) (hlen : len < SIZE_MOD) :
    ∀ (fuel j : Nat) (f : Nat → disk_color) (s : Nat), bound - j < fuel →
      ∃ g t, lawnmower_right_nat bound fuel j (row_of len f) s = .ok (row_of len g, t) := by
  intro fuel
  induction fuel with
  | zero => intro j f s h; omega
  | succ fuel ih =>
    intro j f s h
    unfold lawnmower_right_nat
    by_cases hj : j < bound
    · rw [if_pos hj, swap_right_step_row_of f (by omega) hlen s,
        size_add_eq (by omega : j + 1 < SIZE_MOD)]
      split_ifs
      · exact ih (j + 1) _ _ (by omega)
      · exact ih (j + 1) _ _ (by omega)
    · rw [if_neg hj]
      exact ⟨f, s, rfl⟩

theorem lawnmower_left_ok {len : Nat} (hlen : len < SIZE_MOD) :
    ∀ (fuel j : Nat) (f : Nat → disk_color) (s : Nat), j < fuel → j < len →
      ∃ g t, lawnmower_left_nat fuel j (row_of len f) s = .ok (row_of len g, t) := by
  intro fuel
  induction fuel with
  | zero => intro j f s h; omega
  | succ fuel ih =>
    intro j f s h hj
    unfold lawnmower_left_nat
    by_cases h0 : j > 0
    · rw [if_pos h0, swap_left_step_row_of f h0 hj hlen s,
        size_sub_eq (by omega : 1 ≤ j) (by omega : j < SIZE_MOD)]
      split_ifs
      · exact ih (j - 1) _ _ (by omega) (by omega)
      · exact ih (j - 1) _ _ (by omega) (by omega)
    · rw [if_neg h0]
      exact ⟨f, s, rfl⟩

theorem sweep_bound_eq {n : Nat} (hn : 0 < n) (h : 2 * n < SIZE_MOD) :
    size_sub (size_mul 2 n) 1 = 2 * n - 1 := by
  rw [size_mul_two_eq h, size_sub_eq (by omega) h]

theorem alternate_outer_ok {len n : Nat} (hn : 0 < n) (h2 : 2 * n ≤ len)
    (hlen : len < SIZE_MOD) :
    ∀ (fuel i : Nat) (f : Nat → disk_color) (s : Nat), n + 1 - i < fuel →
      ∃ g t, alternate_outer_nat n (len + 2) fuel i (row_of len f) s = .ok (row_of len g, t) := by
  intro fuel
  induction fuel with
  | zero => intro i f s h; omega
  | succ fuel ih =>
    intro i f s h
    rw [alternate_outer_nat]
    rw [size_add_eq (by omega : n + 1 < SIZE_MOD), sweep_bound_eq hn (by omega)]
    by_cases hi : i < n + 1
    · rw [if_pos hi]
      obtain ⟨g, t, hg⟩ := alternate_inner_ok (by omega : 2 * n - 1 < len) hlen (len + 2)
        (i % 2) f s (by omega)
      rw [hg, size_add_eq (by omega : i + 1 < SIZE_MOD)]
      exact ih (i + 1) g t (by omega)
    · rw [if_neg hi]
      exact ⟨f, s, rfl⟩

theorem lawnmower_outer_ok {len n : Nat} (hn : 0 < n) (h2 : 2 * n ≤ len)
    (hlen : len < SIZE_MOD) :
    ∀ (fuel i : Nat) (f : Nat → disk_color) (s : Nat), (n + 1) / 2 - i < fuel →
      ∃ g t, lawnmower_outer_nat n (len + 2) fuel i (row_of len f) s = .ok (row_of len g, t) := by
  intro fuel
  induction fuel with
  | zero => intro i f s h; omega
  | succ fuel ih =>
    intro i f s h
    rw [lawnmower_outer_nat]
    rw [size_add_eq (by omega : n + 1 < SIZE_MOD), sweep_bound_eq hn (by omega)]
    by_cases hi : i < (n + 1) / 2
    · rw [if_pos hi]
      obtain ⟨g, t, hg⟩ := lawnmower_right_ok (by omega : 2 * n - 1 < len) hlen (len + 2)
        0 f s (by omega)
      obtain ⟨g2, t2, hg2⟩ := lawnmower_left_ok hlen (len + 2) (2 * n - 1) g t (by omega)
        (by omega)
      rw [hg]
      simp only []
      rw [hg2, size_add_eq (by omega : i + 1 < SIZE_MOD)]
      exact ih (i + 1) g2 t2 (by omega)
    · rw [if_neg hi]
      exact ⟨f, s, rfl⟩

theorem sort_alternate_ok (d : disk_state) (h2 : 2 ≤ d.total_count)
    (hlen : d.total_count < SIZE_MOD) :
    ∃ r, sort_alternate_nat d = .ok r ∧ r.1.total_count = d.total_count := by
  have hn : 0 < d.light_count := by unfold disk_state.light_count; omega
  have hle : 2 * d.light_count ≤ d.total_count := by unfold disk_state.light_count; omega
  obtain ⟨g, t, hg⟩ := alternate_outer_ok hn hle hlen (d.light_count + 2) 0
    (coloring d) 0 (by omega)
  rw [row_of_coloring] at hg
  refine ⟨⟨row_of d.total_count g, t⟩, ?_, ?_⟩
  · simp only [sort_alternate_nat, hg]
  · exact total_count_row_of _ _

theorem sort_lawnmower_ok (d : disk_state) (h2 : 2 ≤ d.total_count)
    (hlen : d.total_count < SIZE_MOD) :
    ∃ r, sort_lawnmower_nat d = .ok r ∧ r.1.total_count = d.total_count := by
  have hn : 0 < d.light_count := by unfold disk_state.light_count; omega
  have hle : 2 * d.light_count ≤ d.total_count := by unfold disk_state.light_count; omega
  obtain ⟨g, t, hg⟩ := lawnmower_outer_ok hn hle hlen (d.light_count + 2) 0
    (coloring d) 0 (by omega)
  rw [row_of_coloring] at hg
  refine ⟨⟨row_of d.total_count g, t⟩, ?_, ?_⟩
  · simp only [sort_lawnmower_nat, hg]
  · exact total_count_row_of _ _

/-! ## The rows `L^c (L D)^(n-c) D^c` -/

theorem color_eq_iff (a b : disk_color) : a = b ↔ (a = DISK_DARK ↔ b = DISK_DARK) := by
  cases a <;> cases b <;> simp

theorem light_iff_not_dark (a : disk_color) : a = DISK_LIGHT ↔ ¬ a = DISK_DARK := by
  cases a <;> simp

theorem stage_dark_iff (n c p : Nat) :
    stage n c p = DISK_DARK ↔
      min c n ≤ p ∧ (2 * n ≤ p + min c n ∨ (p + min c n) % 2 = 1) := by
  unfold stage
  split_ifs <;> simp <;> omega

theorem stage_dark_iff_le {n c : Nat} (h : c ≤ n) (p : Nat) :
    stage n c p = DISK_DARK ↔ c ≤ p ∧ (2 * n ≤ p + c ∨ (p + c) % 2 = 1) := by
  rw [stage_dark_iff, Nat.min_eq_left h]

set_option maxHeartbeats 2000000 in
theorem alternate_inner_stage {n c : Nat} (hc1 : c + 1 ≤ n) (h2 : 2 * n < SIZE_MOD) :
    ∀ (fuel j s : Nat), j % 2 = (c + 1) % 2 → 2 * n - 1 - j < fuel →
      alternate_inner_nat (2 * n - 1) fuel j
          (row_of (2 * n) (fun p => if p < j then stage n (c + 1) p else stage n c p))
          (s + min ((j - c) / 2) (n - 1 - c)) =
        .ok (stage_row n (c + 1), s + (n - 1 - c)) := by
  intro fuel
  induction fuel with
  | zero => intro j s _ h; omega
  | succ fuel ih =>
    intro j s hpar h
    rw [alternate_inner_nat]
    by_cases hj : j < 2 * n - 1
    · rw [if_pos hj, swap_right_step_row_of _ (by omega) h2,
        size_add_eq (by omega : j + 2 < SIZE_MOD)]
      rw [if_neg (Nat.lt_irrefl j), if_neg (by omega : ¬ j + 1 < j)]
      by_cases hc : stage n c j = DISK_DARK ∧ stage n c (j + 1) = DISK_LIGHT
      · rw [if_pos hc]
        simp only [light_iff_not_dark, stage_dark_iff_le (Nat.le_of_succ_le hc1)] at hc
        have e1 : row_of (2 * n)
            (exch (fun p => if p < j then stage n (c + 1) p else stage n c p) j) =
            row_of (2 * n) (fun p => if p < j + 2 then stage n (c + 1) p else stage n c p) := by
          apply row_of_congr
          intro p hp
          simp only [exch]
          split_ifs <;> rw [color_eq_iff] <;> simp only [stage_dark_iff_le hc1, stage_dark_iff_le (Nat.le_of_succ_le hc1)] <;> omega
        have e2 : s + min ((j - c) / 2) (n - 1 - c) + 1 =
            s + min ((j + 2 - c) / 2) (n - 1 - c) := by omega
        rw [e1, e2]
        exact ih (j + 2) s (by omega) (by omega)
      · rw [if_neg hc]
        simp only [light_iff_not_dark, stage_dark_iff_le (Nat.le_of_succ_le hc1)] at hc
        have e1 : row_of (2 * n)
            (fun p => if p < j then stage n (c + 1) p else stage n c p) =
            row_of (2 * n) (fun p => if p < j + 2 then stage n (c + 1) p else stage n c p) := by
          apply row_of_congr
          intro p hp
          split_ifs <;> rw [color_eq_iff] <;> simp only [stage_dark_iff_le hc1, stage_dark_iff_le (Nat.le_of_succ_le hc1)] <;> omega
        have e2 : s + min ((j - c) / 2) (n - 1 - c) =
            s + min ((j + 2 - c) / 2) (n - 1 - c) := by omega
        rw [e1, e2]
        exact ih (j + 2) s (by omega) (by omega)
    · rw [if_neg hj]
      have e1 : row_of (2 * n)
          (fun p => if p < j then stage n (c + 1) p else stage n c p) = stage_row n (c + 1) := by
        apply row_of_congr
        intro p hp
        split_ifs
        · rfl
        · rw [color_eq_iff]
          simp only [stage_dark_iff_le hc1, stage_dark_iff_le (Nat.le_of_succ_le hc1)]
          omega
      have e2 : s + min ((j - c) / 2) (n - 1 - c) = s + (n - 1 - c) := by omega
      rw [e1, e2]

/-! ## Sweeps that meet no dark disk left of a light one -/

theorem alternate_inner_keep {len bound : Nat} (hb : bound < len) (hlen : len < SIZE_MOD)
    (f : Nat → disk_color) :
    ∀ (fuel j s : Nat),
      (∀ p, p % 2 = j % 2 → p < bound → ¬ (f p = DISK_DARK ∧ f (p + 1) = DISK_LIGHT)) →
      bound - j < fuel →
      alternate_inner_nat bound fuel j (row_of len f) s = .ok (row_of len f, s) := by
  intro fuel
  induction fuel with
  | zero => intro j s _ h; omega
  | succ fuel ih =>
    intro j s hf h
    rw [alternate_inner_nat]
    by_cases hj : j < bound
    · rw [if_pos hj, swap_right_step_row_of f (by omega) hlen s, if_neg (hf j rfl hj),
        size_add_eq (by omega : j + 2 < SIZE_MOD)]
      exact ih (j + 2) s (fun p hp => hf p (by omega)) (by omega)
    · rw [if_neg hj]

theorem lawnmower_right_keep {len bound : Nat} (hb : bound < len) (hlen : len < SIZE_MOD)
    (f : Nat → disk_color)
    (hf : ∀ p, p < bound → ¬ (f p = DISK_DARK ∧ f (p + 1) = DISK_LIGHT)) :
    ∀ (fuel j s : Nat), bound - j < fuel →
      lawnmower_right_nat bound fuel j (row_of len f) s = .ok (row_of len f, s) := by
  intro fuel
  induction fuel with
  | zero => intro j s h; omega
  | succ fuel ih =>
    intro j s h
    rw [lawnmower_right_nat]
    by_cases hj : j < bound
    · rw [if_pos hj, swap_right_step_row_of f (by omega) hlen s, if_neg (hf j hj),
        size_add_eq (by omega : j + 1 < SIZE_MOD)]
      exact ih (j + 1) s (by omega)
    · rw [if_neg hj]

theorem lawnmower_left_keep {len : Nat} (hlen : len < SIZE_MOD) (f : Nat → disk_color)
    (hf : ∀ p, p + 1 < len → ¬ (f p = DISK_DARK ∧ f (p + 1) = DISK_LIGHT)) :
    ∀ (fuel j s : Nat), j < fuel → j < len →
      lawnmower_left_nat fuel j (row_of len f) s = .ok (row_of len f, s) := by
  intro fuel
  induction fuel with
  | zero => intro j s h; omega
  | succ fuel ih =>
    intro j s h hj
    rw [lawnmower_left_nat]
    by_cases h0 : j > 0
    · have hk : ¬ (f j = DISK_LIGHT ∧ f (j - 1) = DISK_DARK) := by
        intro hk
        apply hf (j - 1) (by omega)
        rw [Nat.sub_add_cancel h0]
        exact ⟨hk.2, hk.1⟩
      rw [if_pos h0, swap_left_step_row_of f h0 hj hlen s, if_neg hk,
        size_sub_eq (by omega : 1 ≤ j) (by omega : j < SIZE_MOD)]
      exact ih (j - 1) s (by omega) (by omega)
    · rw [if_neg h0]

/-! ## `sort_alternate_nat` on the alternating row -/

theorem alternate_inner_pass {n i : Nat} (hn : 0 < n) (hi : i ≤ n) (h2 : 2 * n < SIZE_MOD)
    (s : Nat) :
    alternate_inner_nat (2 * n - 1) (2 * n + 2) (i % 2) (stage_row n (i - 1)) s =
      .ok (stage_row n i, s + (if i = 0 then 0 else n - i)) := by
  rcases Nat.eq_zero_or_pos i with h0 | hpos
  · subst h0
    have hk := alternate_inner_keep (by omega : 2 * n - 1 < 2 * n) h2 (stage n 0) (2 * n + 2)
      (0 % 2) s (by
        intro p hp hlt
        simp only [light_iff_not_dark, stage_dark_iff_le (Nat.zero_le n)]
        omega) (by omega)
    simpa [stage_row] using hk
  · have hc1 : i - 1 + 1 ≤ n := by omega
    have hk := alternate_inner_stage hc1 h2 (2 * n + 2) (i % 2) s (by omega) (by omega)
    have e1 : row_of (2 * n)
        (fun p => if p < i % 2 then stage n (i - 1 + 1) p else stage n (i - 1) p) =
        stage_row n (i - 1) := by
      apply row_of_congr
      intro p hp
      split_ifs
      · rw [color_eq_iff]
        simp only [stage_dark_iff_le hc1, stage_dark_iff_le (Nat.le_of_succ_le hc1)]
        omega
      · rfl
    have e2 : s + min ((i % 2 - (i - 1)) / 2) (n - 1 - (i - 1)) = s := by omega
    have e3 : i - 1 + 1 = i := by omega
    have e4 : s + (n - 1 - (i - 1)) = s + (n - i) := by omega
    rw [e1, e2, e3, e4] at hk
    rw [if_neg (by omega : ¬ i = 0)]
    exact hk

theorem alternate_outer_stage {n : Nat} (hn : 0 < n) (h2 : 2 * n < SIZE_MOD) :
    ∀ (fuel i s : Nat), n + 1 - i < fuel → i ≤ n + 1 →
      alternate_outer_nat n (2 * n + 2) fuel i (stage_row n (i - 1)) s =
        .ok (stage_row n n, s + triangle (n + 1 - max i 1)) := by
  intro fuel
  induction fuel with
  | zero => intro i s h; omega
  | succ fuel ih =>
    intro i s h hi
    rw [alternate_outer_nat, size_add_eq (by omega : n + 1 < SIZE_MOD), sweep_bound_eq hn h2]
    by_cases hlt : i < n + 1
    · rw [if_pos hlt, alternate_inner_pass hn (by omega) h2 s,
        size_add_eq (by omega : i + 1 < SIZE_MOD)]
      have hk := ih (i + 1) (s + (if i = 0 then 0 else n - i)) (by omega) (by omega)
      rw [Nat.add_sub_cancel] at hk
      have e : s + (if i = 0 then 0 else n - i) + triangle (n + 1 - max (i + 1) 1) =
          s + triangle (n + 1 - max i 1) := by
        rcases Nat.eq_zero_or_pos i with h0 | hpos
        · subst h0
          simp
        · have e1 : n + 1 - max i 1 = (n - i) + 1 := by omega
          have e2 : n + 1 - max (i + 1) 1 = n - i := by omega
          rw [e1, e2, if_neg (by omega : ¬ i = 0), triangle]
          omega
      rw [e] at hk
      exact hk
    · rw [if_neg hlt]
      have e1 : i - 1 = n := by omega
      have e2 : n + 1 - max i 1 = 0 := by omega
      rw [e1, e2]
      rfl

theorem sort_alternate_stage {n : Nat} (hn : 0 < n) (h2 : 2 * n < SIZE_MOD) :
    sort_alternate_nat (stage_row n 0) = .ok ⟨stage_row n n, triangle n⟩ := by
  have hk := alternate_outer_stage hn h2 (n + 2) 0 0 (by omega) (by omega)
  have e1 : (stage_row n 0).total_count = 2 * n := total_count_row_of _ _
  have e2 : (stage_row n 0).light_count = n := by
    unfold disk_state.light_count
    rw [e1]
    omega
  simp only [sort_alternate_nat, e1, e2]
  simp only [Nat.zero_sub, Nat.zero_add, Nat.max_eq_right (Nat.zero_le 1),
    Nat.add_sub_cancel] at hk
  rw [hk]

/-! ## The sweeps of `sort_lawnmower_nat` on the rows `L^c (L D)^(n-c) D^c` -/

theorem light_eq_dark_iff : DISK_LIGHT = DISK_DARK ↔ False := by simp

theorem ite_dark_iff (b : Prop) [Decidable b] (x : disk_color) :
    (if b then DISK_DARK else x) = DISK_DARK ↔ b ∨ x = DISK_DARK := by
  split_ifs with h <;> simp [h]

theorem ite_light_dark_iff (b : Prop) [Decidable b] (x : disk_color) :
    (if b then DISK_LIGHT else x) = DISK_DARK ↔ ¬ b ∧ x = DISK_DARK := by
  split_ifs with h <;> simp [h]

set_option maxHeartbeats 4000000 in
theorem lawnmower_right_stage {n c : Nat} (hc2 : c + 2 ≤ n) (h2 : 2 * n < SIZE_MOD) :
    ∀ (fuel j s : Nat), 2 * n - 1 - j < fuel →
      lawnmower_right_nat (2 * n - 1) fuel j (row_of (2 * n) (right_mix n c j))
          (s + min ((j - c) / 2) (n - 1 - c)) =
        .ok (stage_row n (c + 1), s + (n - 1 - c)) := by
  have hc0 : c ≤ n := by omega
  have hc1 : c + 1 ≤ n := by omega
  intro fuel
  induction fuel with
  | zero => intro j s h; omega
  | succ fuel ih =>
    intro j s h
    rw [lawnmower_right_nat]
    by_cases hj : j < 2 * n - 1
    · rw [if_pos hj, swap_right_step_row_of _ (by omega) h2,
        size_add_eq (by omega : j + 1 < SIZE_MOD)]
      have v1 : right_mix n c j j = (if c < j then DISK_DARK else stage n c j) := by
        simp [right_mix]
      have v2 : right_mix n c j (j + 1) = stage n c (j + 1) := by
        simp [right_mix]
      rw [v1, v2]
      by_cases hc : (if c < j then DISK_DARK else stage n c j) = DISK_DARK ∧
          stage n c (j + 1) = DISK_LIGHT
      · rw [if_pos hc]
        simp only [light_iff_not_dark, ite_dark_iff, stage_dark_iff_le hc0] at hc
        have e1 : row_of (2 * n) (exch (right_mix n c j) j) =
            row_of (2 * n) (right_mix n c (j + 1)) := by
          apply row_of_congr
          intro p hp
          simp only [exch, right_mix]
          split_ifs <;> first
            | rfl
            | (rw [color_eq_iff]
               simp only [stage_dark_iff_le hc0, stage_dark_iff_le hc1, light_eq_dark_iff,
                 eq_self_iff_true, true_iff, iff_true, false_iff, iff_false]
               omega)
        have e2 : s + min ((j - c) / 2) (n - 1 - c) + 1 =
            s + min ((j + 1 - c) / 2) (n - 1 - c) := by omega
        rw [e1, e2]
        exact ih (j + 1) s (by omega)
      · rw [if_neg hc]
        simp only [light_iff_not_dark, ite_dark_iff, stage_dark_iff_le hc0] at hc
        have e1 : row_of (2 * n) (right_mix n c j) =
            row_of (2 * n) (right_mix n c (j + 1)) := by
          apply row_of_congr
          intro p hp
          simp only [right_mix]
          split_ifs <;> first
            | rfl
            | (rw [color_eq_iff]
               simp only [stage_dark_iff_le hc0, stage_dark_iff_le hc1, light_eq_dark_iff,
                 eq_self_iff_true, true_iff, iff_true, false_iff, iff_false]
               omega)
        have e2 : s + min ((j - c) / 2) (n - 1 - c) =
            s + min ((j + 1 - c) / 2) (n - 1 - c) := by omega
        rw [e1, e2]
        exact ih (j + 1) s (by omega)
    · rw [if_neg hj]
      have e1 : row_of (2 * n) (right_mix n c j) = stage_row n (c + 1) := by
        apply row_of_congr
        intro p hp
        simp only [right_mix]
        split_ifs <;> first
          | rfl
          | (rw [color_eq_iff]
             simp only [stage_dark_iff_le hc0, stage_dark_iff_le hc1, light_eq_dark_iff,
               eq_self_iff_true, true_iff, iff_true, false_iff, iff_false]
             omega)
      have e2 : s + min ((j - c) / 2) (n - 1 - c) = s + (n - 1 - c) := by omega
      rw [e1, e2]

set_option maxHeartbeats 4000000 in
theorem lawnmower_left_stage {n c : Nat} (hc2 : c + 2 ≤ n) (h2 : 2 * n < SIZE_MOD) :
    ∀ (fuel j s : Nat), j < fuel → j ≤ 2 * n - 1 →
      lawnmower_left_nat fuel j (row_of (2 * n) (left_mix n c j))
          (s + min ((2 * n - 1 - j - c) / 2) (n - 1 - c)) =
        .ok (stage_row n (c + 1), s + (n - 1 - c)) := by
  have hc0 : c ≤ n := by omega
  have hc1 : c + 1 ≤ n := by omega
  intro fuel
  induction fuel with
  | zero => intro j s h; omega
  | succ fuel ih =>
    intro j s h hj
    rw [lawnmower_left_nat]
    by_cases h0 : j > 0
    · rw [if_pos h0, swap_left_step_row_of _ h0 (by omega) h2,
        size_sub_eq (by omega : 1 ≤ j) (by omega : j < SIZE_MOD)]
      have v1 : left_mix n c j j = (if j + c + 2 ≤ 2 * n then DISK_LIGHT else stage n c j) := by
        simp [left_mix]
      have v2 : left_mix n c j (j - 1) = stage n c (j - 1) := by
        simp only [left_mix]
        rw [if_neg (by omega : ¬ j < j - 1), if_neg (by omega : ¬ j - 1 = j)]
      rw [v1, v2]
      by_cases hc : (if j + c + 2 ≤ 2 * n then DISK_LIGHT else stage n c j) = DISK_LIGHT ∧
          stage n c (j - 1) = DISK_DARK
      · rw [if_pos hc]
        simp only [light_iff_not_dark, ite_light_dark_iff, stage_dark_iff_le hc0] at hc
        have e1 : row_of (2 * n) (exch (left_mix n c j) (j - 1)) =
            row_of (2 * n) (left_mix n c (j - 1)) := by
          apply row_of_congr
          intro p hp
          simp only [exch, left_mix]
          split_ifs <;> first
            | rfl
            | (rw [color_eq_iff]
               simp only [stage_dark_iff_le hc0, stage_dark_iff_le hc1, light_eq_dark_iff,
                 eq_self_iff_true, true_iff, iff_true, false_iff, iff_false]
               omega)
        have e2 : s + min ((2 * n - 1 - j - c) / 2) (n - 1 - c) + 1 =
            s + min ((2 * n - 1 - (j - 1) - c) / 2) (n - 1 - c) := by omega
        rw [e1, e2]
        exact ih (j - 1) s (by omega) (by omega)
      · rw [if_neg hc]
        simp only [light_iff_not_dark, ite_light_dark_iff, stage_dark_iff_le hc0] at hc
        have e1 : row_of (2 * n) (left_mix n c j) =
            row_of (2 * n) (left_mix n c (j - 1)) := by
          apply row_of_congr
          intro p hp
          simp only [left_mix]
          split_ifs <;> first
            | rfl
            | (rw [color_eq_iff]
               simp only [stage_dark_iff_le hc0, stage_dark_iff_le hc1, light_eq_dark_iff,
                 eq_self_iff_true, true_iff, iff_true, false_iff, iff_false]
               omega)
        have e2 : s + min ((2 * n - 1 - j - c) / 2) (n - 1 - c) =
            s + min ((2 * n - 1 - (j - 1) - c) / 2) (n - 1 - c) := by omega
        rw [e1, e2]
        exact ih (j - 1) s (by omega) (by omega)
    · rw [if_neg h0]
      have e1 : row_of (2 * n) (left_mix n c j) = stage_row n (c + 1) := by
        apply row_of_congr
        intro p hp
        simp only [left_mix]
        split_ifs <;> first
          | rfl
          | (rw [color_eq_iff]
             simp only [stage_dark_iff_le hc0, stage_dark_iff_le hc1, light_eq_dark_iff,
               eq_self_iff_true, true_iff, iff_true, false_iff, iff_false]
             omega)
      have e2 : s + min ((2 * n - 1 - j - c) / 2) (n - 1 - c) = s + (n - 1 - c) := by omega
      rw [e1, e2]

theorem stage_row_sorted {n c : Nat} (h : n ≤ c + 1) : stage_row n c = stage_row n n := by
  apply row_of_congr
  intro p hp
  rw [color_eq_iff]
  simp only [stage_dark_iff]
  omega

theorem stage_no_dark_light {n c : Nat} (h : n ≤ c + 1) (p : Nat) :
    ¬ (stage n c p = DISK_DARK ∧ stage n c (p + 1) = DISK_LIGHT) := by
  simp only [light_iff_not_dark, stage_dark_iff]
  omega

theorem lawnmower_right_pass {n : Nat} (hn : 0 < n) (h2 : 2 * n < SIZE_MOD) (c s : Nat) :
    lawnmower_right_nat (2 * n - 1) (2 * n + 2) 0 (stage_row n c) s =
      .ok (stage_row n (c + 1), s + (n - 1 - c)) := by
  by_cases hc2 : c + 2 ≤ n
  · have hk := lawnmower_right_stage hc2 h2 (2 * n + 2) 0 s (by omega)
    have e1 : row_of (2 * n) (right_mix n c 0) = stage_row n c := by
      apply row_of_congr
      intro p hp
      simp only [right_mix]
      split_ifs <;> first | rfl | omega | (subst_vars; rfl)
    have e2 : s + min ((0 - c) / 2) (n - 1 - c) = s := by omega
    rw [e1, e2] at hk
    exact hk
  · have hk := lawnmower_right_keep (by omega : 2 * n - 1 < 2 * n) h2 (stage n c)
      (fun p _ => stage_no_dark_light (by omega) p) (2 * n + 2) 0 s (by omega)
    have e1 : stage_row n (c + 1) = stage_row n c := by
      rw [stage_row_sorted (by omega : n ≤ c + 1 + 1), stage_row_sorted (by omega : n ≤ c + 1)]
    have e2 : s + (n - 1 - c) = s := by omega
    rw [e1, e2]
    exact hk

theorem lawnmower_left_pass {n : Nat} (hn : 0 < n) (h2 : 2 * n < SIZE_MOD) (c s : Nat) :
    lawnmower_left_nat (2 * n + 2) (2 * n - 1) (stage_row n c) s =
      .ok (stage_row n (c + 1), s + (n - 1 - c)) := by
  by_cases hc2 : c + 2 ≤ n
  · have hk := lawnmower_left_stage hc2 h2 (2 * n + 2) (2 * n - 1) s (by omega) (by omega)
    have e1 : row_of (2 * n) (left_mix n c (2 * n - 1)) = stage_row n c := by
      apply row_of_congr
      intro p hp
      simp only [left_mix]
      split_ifs <;> first | rfl | omega | (subst_vars; rfl)
    have e2 : s + min ((2 * n - 1 - (2 * n - 1) - c) / 2) (n - 1 - c) = s := by omega
    rw [e1, e2] at hk
    exact hk
  · have hk := lawnmower_left_keep h2 (stage n c)
      (fun p _ => stage_no_dark_light (by omega) p) (2 * n + 2) (2 * n - 1) s (by omega)
      (by omega)
    have e1 : stage_row n (c + 1) = stage_row n c := by
      rw [stage_row_sorted (by omega : n ≤ c + 1 + 1), stage_row_sorted (by omega : n ≤ c + 1)]
    have e2 : s + (n - 1 - c) = s := by omega
    rw [e1, e2]
    exact hk

theorem triangle_two_steps (n i : Nat) (h : 2 * i + 1 ≤ n) :
    (n - 1 - 2 * i) + (n - 1 - (2 * i + 1)) + triangle (n - 2 * (i + 1)) =
      triangle (n - 2 * i) := by
  rcases Nat.lt_or_ge (2 * i + 1) n with h1 | h1
  · have e1 : n - 2 * i = (n - 2 * (i + 1)) + 1 + 1 := by omega
    rw [e1, triangle, triangle]
    omega
  · have e1 : n - 2 * i = 0 + 1 := by omega
    have e2 : n - 2 * (i + 1) = 0 := by omega
    rw [e1, e2]
    simp only [triangle]
    omega

theorem lawnmower_outer_stage {n : Nat} (hn : 0 < n) (h2 : 2 * n < SIZE_MOD) :
    ∀ (fuel i s : Nat), (n + 1) / 2 - i < fuel →
      lawnmower_outer_nat n (2 * n + 2) fuel i (stage_row n (2 * i)) s =
        .ok (stage_row n n, s + triangle (n - 2 * i)) := by
  intro fuel
  induction fuel with
  | zero => intro i s h; omega
  | succ fuel ih =>
    intro i s h
    rw [lawnmower_outer_nat, size_add_eq (by omega : n + 1 < SIZE_MOD), sweep_bound_eq hn h2]
    by_cases hlt : i < (n + 1) / 2
    · rw [if_pos hlt, lawnmower_right_pass hn h2]
      simp only []
      rw [lawnmower_left_pass hn h2]
      simp only []
      rw [size_add_eq (by omega : i + 1 < SIZE_MOD)]
      have hk := ih (i + 1) (s + (n - 1 - 2 * i) + (n - 1 - (2 * i + 1))) (by omega)
      have e1 : 2 * (i + 1) = 2 * i + 1 + 1 := by omega
      have e2 : s + (n - 1 - 2 * i) + (n - 1 - (2 * i + 1)) + triangle (n - 2 * (i + 1)) =
          s + triangle (n - 2 * i) := by
        rw [← triangle_two_steps n i (by omega)]
        omega
      rw [e2] at hk
      rw [e1] at hk
      exact hk
    · rw [if_neg hlt]
      have e1 : n - 2 * i = 0 := by omega
      rw [e1, stage_row_sorted (by omega : n ≤ 2 * i + 1)]
      rfl

theorem sort_lawnmower_stage {n : Nat} (hn : 0 < n) (h2 : 2 * n < SIZE_MOD) :
    sort_lawnmower_nat (stage_row n 0) = .ok ⟨stage_row n n, triangle n⟩ := by
  have hk := lawnmower_outer_stage hn h2 (n + 2) 0 0 (by omega)
  have e1 : (stage_row n 0).total_count = 2 * n := total_count_row_of _ _
  have e2 : (stage_row n 0).light_count = n := by
    unfold disk_state.light_count
    rw [e1]
    omega
  simp only [sort_lawnmower_nat, e1, e2]
  simp only [Nat.mul_zero, Nat.sub_zero, Nat.zero_add] at hk
  rw [hk]

/-! ## The constructor -/

theorem set_map_range (len i : Nat) (f : Nat → disk_color) (x : disk_color) :
    ((List.range len).map f).set i x = (List.range len).map (fun p => if p = i then x else f p) := by
  apply List.ext_getElem
  · simp
  · intro q h1 h2
    simp only [List.getElem_set, List.getElem_map, List.getElem_range]
    by_cases e : i = q
    · subst e
      simp
    · have e2 : ¬ q = i := fun h => e h.symm
      simp [e, e2]

theorem ctor_loop_spec {len : Nat} (heven : len % 2 = 0) (hlen : len < SIZE_MOD) :
    ∀ (fuel i : Nat), i % 2 = 1 → len - i < fuel →
      disk_state.ctor_loop fuel i
          ((List.range len).map (fun p => if p < i ∧ p % 2 = 1 then DISK_DARK else DISK_LIGHT)) =
        .ok ((List.range len).map (fun p => if p % 2 = 1 then DISK_DARK else DISK_LIGHT)) := by
  intro fuel
  induction fuel with
  | zero => intro i _ h; omega
  | succ fuel ih =>
    intro i hodd h
    rw [disk_state.ctor_loop]
    simp only [List.length_map, List.length_range]
    by_cases hi : i < len
    · have hM := SIZE_MOD_eq
      rw [if_pos hi, set_map_range, size_add_eq (by omega : i + 2 < SIZE_MOD)]
      have e : (List.range len).map (fun p => if p = i then DISK_DARK
            else if p < i ∧ p % 2 = 1 then DISK_DARK else DISK_LIGHT) =
          (List.range len).map
            (fun p => if p < i + 2 ∧ p % 2 = 1 then DISK_DARK else DISK_LIGHT) := by
        apply List.map_congr_left
        intro p _
        split_ifs <;> first | rfl | omega
      rw [e]
      exact ih (i + 2) (by omega) (by omega)
    · rw [if_neg hi]
      congr 1
      apply List.map_congr_left
      intro p hp
      have hp2 := List.mem_range.mp hp
      split_ifs <;> first | rfl | omega

theorem ctor_eq {k : Nat} (hk : 0 < k) (hmax : size_mul k 2 ≤ MAX_SIZE) :
    disk_state.ctor k = .ok (stage_row (size_mul k 2 / 2) 0) := by
  have hmod : size_mul k 2 % 2 = 0 := by
    unfold size_mul SIZE_MOD
    omega
  have hlt : size_mul k 2 < SIZE_MOD := by
    unfold size_mul
    exact Nat.mod_lt _ (by unfold SIZE_MOD; omega)
  have e0 : List.replicate (size_mul k 2) DISK_LIGHT =
      (List.range (size_mul k 2)).map
        (fun p => if p < 1 ∧ p % 2 = 1 then DISK_DARK else DISK_LIGHT) := by
    apply List.ext_getElem
    · simp
    · intro q h1 h2
      simp only [List.getElem_replicate, List.getElem_map, List.getElem_range]
      split_ifs <;> first | rfl | omega
  have hl := ctor_loop_spec hmod hlt (size_mul k 2 + 1) 1 (by omega) (by omega)
  unfold disk_state.ctor
  rw [if_neg (Nat.not_lt.mpr hmax)]
  simp only [hk, if_true, List.length_replicate]
  rw [e0, hl]
  have e2 : 2 * (size_mul k 2 / 2) = size_mul k 2 := by omega
  simp only [stage_row, row_of, e2]
  congr 2
  apply List.map_congr_left
  intro p hp
  have hp2 := List.mem_range.mp hp
  rw [color_eq_iff]
  simp only [stage_dark_iff_le (Nat.zero_le _), ite_dark_iff, light_eq_dark_iff, or_false]
  omega

theorem size_mul_two_of_le {k : Nat} (h2 : 2 * k ≤ MAX_SIZE) : size_mul k 2 = 2 * k := by
  have hM := SIZE_MOD_eq
  have hX := MAX_SIZE_eq
  unfold size_mul
  rw [Nat.mod_eq_of_lt (by omega)]
  omega

theorem ctor_eq_of_le {k : Nat} (hk : 0 < k) (h2 : 2 * k ≤ MAX_SIZE) :
    disk_state.ctor k = .ok (stage_row k 0) := by
  have e := size_mul_two_of_le h2
  rw [ctor_eq hk (by omega), e]
  congr 2
  omega

theorem ctor_length_error {k : Nat} (h : MAX_SIZE < size_mul k 2) :
    disk_state.ctor k = .error .length_error := by
  unfold disk_state.ctor
  rw [if_pos h]

theorem ctor_zero : disk_state.ctor 0 = .error .assertion := by decide

theorem ctor_ok_shape {k : Nat} {d : disk_state} (h : disk_state.ctor k = .ok d) :
    0 < k ∧ size_mul k 2 ≤ MAX_SIZE ∧ d = stage_row (size_mul k 2 / 2) 0 := by
  rcases Nat.eq_zero_or_pos k with h0 | hk
  · subst h0
    rw [ctor_zero] at h
    cases h
  · rcases Nat.lt_or_ge MAX_SIZE (size_mul k 2) with hm | hm
    · rw [ctor_length_error hm] at h
      cases h
    · rw [ctor_eq hk hm] at h
      exact ⟨hk, hm, (Except.ok.inj h).symm⟩

theorem max_size_lt : MAX_SIZE < SIZE_MOD := by
  rw [MAX_SIZE_eq, SIZE_MOD_eq]
  omega

/-! ## The predicates `is_initialized()` and `is_sorted()` -/

theorem scan_loop_row_of {len : Nat} (f : Nat → disk_color) (want : disk_color)
    {step bound : Nat} (hstep : 0 < step) (hb : bound ≤ len) (hw : bound + step ≤ SIZE_MOD) :
    ∀ (fuel i : Nat), bound - i < fuel →
      ∃ b, disk_state.scan_loop (row_of len f) want step bound fuel i = .ok b ∧
        (b = true ↔ ∀ t, i + step * t < bound → f (i + step * t) = want) := by
  intro fuel
  induction fuel with
  | zero => intro i h; omega
  | succ fuel ih =>
    intro i h
    rw [disk_state.scan_loop]
    by_cases hi : i < bound
    · rw [if_pos hi, get_row_of f (by omega : i < len)]
      simp only []
      by_cases hc : f i = want
      · rw [if_neg (not_not.mpr hc), size_add_eq (by omega : i + step < SIZE_MOD)]
        obtain ⟨b, hb1, hb2⟩ := ih (i + step) (by omega)
        refine ⟨b, hb1, ?_⟩
        rw [hb2]
        constructor
        · intro hall t ht
          rcases Nat.eq_zero_or_pos t with h0 | hpos
          · subst h0
            simpa using hc
          · obtain ⟨u, rfl⟩ : ∃ u, t = u + 1 := ⟨t - 1, by omega⟩
            have e : i + step * (u + 1) = i + step + step * u := by
              rw [Nat.mul_succ]
              omega
            rw [e] at ht ⊢
            exact hall u ht
        · intro hall t ht
          have e : i + step * (t + 1) = i + step + step * t := by
            rw [Nat.mul_succ]
            omega
          rw [← e] at ht ⊢
          exact hall (t + 1) ht
      · rw [if_pos hc]
        refine ⟨false, rfl, ?_⟩
        constructor
        · intro hf
          cases hf
        · intro hall
          exact absurd (by simpa using hall 0 (by simpa using hi)) hc
    · rw [if_neg hi]
      refine ⟨true, rfl, ?_⟩
      constructor
      · intro _ t ht
        have : i ≤ i + step * t := Nat.le_add_right _ _
        omega
      · intro _
        rfl

theorem is_sorted_row_of {len : Nat} (f : Nat → disk_color) (hlen : len < SIZE_MOD) :
    ∃ b, (row_of len f).is_sorted = .ok b ∧
      (b = true ↔ (∀ p, p < len / 2 → f p = DISK_LIGHT) ∧
        (∀ p, len / 2 ≤ p → p < len → f p = DISK_DARK)) := by
  obtain ⟨b1, h1, i1⟩ := scan_loop_row_of f DISK_LIGHT (by omega : 0 < 1)
    (by omega : len / 2 ≤ len) (by omega) (len + 1) 0 (by omega)
  obtain ⟨b2, h2, i2⟩ := scan_loop_row_of f DISK_DARK (by omega : 0 < 1)
    (Nat.le_refl len) (by omega) (len + 1) (len / 2) (by omega)
  have j1 : b1 = true ↔ ∀ p, p < len / 2 → f p = DISK_LIGHT := by
    rw [i1]
    constructor
    · intro h p hp
      simpa using h p (by simpa using hp)
    · intro h t ht
      simp only [Nat.zero_add, Nat.one_mul] at ht ⊢
      exact h t ht
  have j2 : b2 = true ↔ ∀ p, len / 2 ≤ p → p < len → f p = DISK_DARK := by
    rw [i2]
    constructor
    · intro h p hp1 hp2
      have := h (p - len / 2) (by omega)
      rw [Nat.one_mul, Nat.add_sub_cancel' hp1] at this
      exact this
    · intro h t ht
      exact h _ (by omega) ht
  unfold disk_state.is_sorted
  simp only [disk_state.light_count, disk_state.dark_count, total_count_row_of, h1]
  cases b1 with
  | true =>
    simp only [h2]
    refine ⟨b2, rfl, ?_⟩
    rw [j2]
    have := j1.mp rfl
    tauto
  | false =>
    refine ⟨false, rfl, ?_⟩
    constructor
    · intro hf
      cases hf
    · intro hall
      exact absurd (j1.mpr hall.1) (by simp)

theorem is_initialized_row_of {len : Nat} (f : Nat → disk_color) (hlen : len + 2 ≤ SIZE_MOD) :
    ∃ b, (row_of len f).is_initialized = .ok b ∧
      (b = true ↔ ∀ p, p < len → f p = if p % 2 = 0 then DISK_LIGHT else DISK_DARK) := by
  obtain ⟨b1, h1, i1⟩ := scan_loop_row_of f DISK_LIGHT (by omega : 0 < 2)
    (Nat.le_refl len) hlen (len + 1) 0 (by omega)
  obtain ⟨b2, h2, i2⟩ := scan_loop_row_of f DISK_DARK (by omega : 0 < 2)
    (Nat.le_refl len) hlen (len + 1) 1 (by omega)
  have j1 : b1 = true ↔ ∀ p, p < len → p % 2 = 0 → f p = DISK_LIGHT := by
    rw [i1]
    constructor
    · intro h p hp hpar
      have := h (p / 2) (by omega)
      rw [(by omega : 0 + 2 * (p / 2) = p)] at this
      exact this
    · intro h t ht
      exact h _ ht (by omega)
  have j2 : b2 = true ↔ ∀ p, p < len → p % 2 = 1 → f p = DISK_DARK := by
    rw [i2]
    constructor
    · intro h p hp hpar
      have := h (p / 2) (by omega)
      rw [(by omega : 1 + 2 * (p / 2) = p)] at this
      exact this
    · intro h t ht
      exact h _ ht (by omega)
  have key : (∀ p, p < len → f p = if p % 2 = 0 then DISK_LIGHT else DISK_DARK) ↔
      (∀ p, p < len → p % 2 = 0 → f p = DISK_LIGHT) ∧
        (∀ p, p < len → p % 2 = 1 → f p = DISK_DARK) := by
    constructor
    · intro h
      refine ⟨fun p hp hpar => ?_, fun p hp hpar => ?_⟩
      · rw [h p hp, if_pos hpar]
      · rw [h p hp, if_neg (by omega)]
    · intro h p hp
      split_ifs with hpar
      · exact h.1 p hp hpar
      · exact h.2 p hp (by omega)
  unfold disk_state.is_initialized
  simp only [total_count_row_of, h1]
  cases b1 with
  | true =>
    simp only [h2]
    refine ⟨b2, rfl, ?_⟩
    rw [key, j2]
    have := j1.mp rfl
    tauto
  | false =>
    refine ⟨false, rfl, ?_⟩
    rw [key]
    constructor
    · intro hf
      cases hf
    · intro hall
      exact absurd (j1.mpr hall.1) (by simp)

/-! ## The sorts on a row without a dark disk left of a light one -/

theorem alternate_outer_keep {len n : Nat} (hn : 0 < n) (h2 : 2 * n ≤ len)
    (hlen : len < SIZE_MOD) (f : Nat → disk_color)
    (hf : ∀ p, p + 1 < len → ¬ (f p = DISK_DARK ∧ f (p + 1) = DISK_LIGHT)) :
    ∀ (fuel i s : Nat), n + 1 - i < fuel →
      alternate_outer_nat n (len + 2) fuel i (row_of len f) s = .ok (row_of len f, s) := by
  intro fuel
  induction fuel with
  | zero => intro i s h; omega
  | succ fuel ih =>
    intro i s h
    rw [alternate_outer_nat, size_add_eq (by omega : n + 1 < SIZE_MOD), sweep_bound_eq hn (by omega)]
    by_cases hi : i < n + 1
    · rw [if_pos hi, alternate_inner_keep (by omega : 2 * n - 1 < len) hlen f (len + 2) (i % 2) s
        (fun p _ hp => hf p (by omega)) (by omega), size_add_eq (by omega : i + 1 < SIZE_MOD)]
      exact ih (i + 1) s (by omega)
    · rw [if_neg hi]

theorem lawnmower_outer_keep {len n : Nat} (hn : 0 < n) (h2 : 2 * n ≤ len)
    (hlen : len < SIZE_MOD) (f : Nat → disk_color)
    (hf : ∀ p, p + 1 < len → ¬ (f p = DISK_DARK ∧ f (p + 1) = DISK_LIGHT)) :
    ∀ (fuel i s : Nat), (n + 1) / 2 - i < fuel →
      lawnmower_outer_nat n (len + 2) fuel i (row_of len f) s = .ok (row_of len f, s) := by
  intro fuel
  induction fuel with
  | zero => intro i s h; omega
  | succ fuel ih =>
    intro i s h
    rw [lawnmower_outer_nat, size_add_eq (by omega : n + 1 < SIZE_MOD), sweep_bound_eq hn (by omega)]
    by_cases hi : i < (n + 1) / 2
    · rw [if_pos hi, lawnmower_right_keep (by omega : 2 * n - 1 < len) hlen f
        (fun p hp => hf p (by omega)) (len + 2) 0 s (by omega)]
      simp only []
      rw [lawnmower_left_keep hlen f hf (len + 2) (2 * n - 1) s (by omega)
        (by omega)]
      simp only []
      rw [size_add_eq (by omega : i + 1 < SIZE_MOD)]
      exact ih (i + 1) s (by omega)
    · rw [if_neg hi]

theorem sorted_coloring {d : disk_state} (hlen : d.total_count < SIZE_MOD)
    (hs : d.is_sorted = .ok true) :
    (∀ p, p < d.total_count / 2 → coloring d p = DISK_LIGHT) ∧
      (∀ p, d.total_count / 2 ≤ p → p < d.total_count → coloring d p = DISK_DARK) := by
  obtain ⟨b, hb, hiff⟩ := is_sorted_row_of (coloring d) hlen
  rw [row_of_coloring, hs] at hb
  cases hb
  exact hiff.mp rfl

theorem coloring_beyond (d : disk_state) {p : Nat} (h : d.total_count ≤ p) :
    coloring d p = DISK_LIGHT := by
  unfold coloring
  rw [List.getD_eq_default]
  exact h

theorem sorted_no_dark_light {d : disk_state} (hlen : d.total_count < SIZE_MOD)
    (hs : d.is_sorted = .ok true) (p : Nat) (hp1 : p + 1 < d.total_count) :
    ¬ (coloring d p = DISK_DARK ∧ coloring d (p + 1) = DISK_LIGHT) := by
  obtain ⟨h1, h2⟩ := sorted_coloring hlen hs
  intro hc
  by_cases hp : p < d.total_count / 2
  · rw [h1 p hp] at hc
    exact absurd hc.1 (by simp)
  · rw [h2 (p + 1) (by omega) hp1] at hc
    exact absurd hc.2 (by simp)

theorem sort_alternate_sorted (d : disk_state) (h2 : 2 ≤ d.total_count)
    (hlen : d.total_count < SIZE_MOD) (hs : d.is_sorted = .ok true) :
    sort_alternate_nat d = .ok ⟨d, 0⟩ := by
  have hn : 0 < d.light_count := by unfold disk_state.light_count; omega
  have hle : 2 * d.light_count ≤ d.total_count := by unfold disk_state.light_count; omega
  have hk := alternate_outer_keep hn hle hlen (coloring d)
    (fun p hp => sorted_no_dark_light hlen hs p hp) (d.light_count + 2) 0 0 (by omega)
  rw [row_of_coloring] at hk
  simp only [sort_alternate_nat, hk]

theorem sort_lawnmower_sorted (d : disk_state) (h2 : 2 ≤ d.total_count)
    (hlen : d.total_count < SIZE_MOD) (hs : d.is_sorted = .ok true) :
    sort_lawnmower_nat d = .ok ⟨d, 0⟩ := by
  have hn : 0 < d.light_count := by unfold disk_state.light_count; omega
  have hle : 2 * d.light_count ≤ d.total_count := by unfold disk_state.light_count; omega
  have hk := lawnmower_outer_keep hn hle hlen (coloring d)
    (fun p hp => sorted_no_dark_light hlen hs p hp) (d.light_count + 2) 0 0 (by omega)
  rw [row_of_coloring] at hk
  simp only [sort_lawnmower_nat, hk]

/-! ## The predicates on the alternating and the sorted row -/

theorem is_sorted_stage_full {n : Nat} (h2 : 2 * n < SIZE_MOD) :
    (stage_row n n).is_sorted = .ok true := by
  obtain ⟨b, hb, hiff⟩ := is_sorted_row_of (stage n n) h2
  have : b = true := by
    rw [hiff]
    constructor
    · intro p hp
      rw [light_iff_not_dark, stage_dark_iff_le (Nat.le_refl n)]
      omega
    · intro p hp1 hp2
      rw [stage_dark_iff_le (Nat.le_refl n)]
      omega
  rw [this] at hb
  exact hb

theorem is_sorted_stage_zero {n : Nat} (hn : 1 < n) (h2 : 2 * n < SIZE_MOD) :
    (stage_row n 0).is_sorted = .ok false := by
  obtain ⟨b, hb, hiff⟩ := is_sorted_row_of (stage n 0) h2
  have : b = false := by
    cases b with
    | false => rfl
    | true =>
      have h := (hiff.mp rfl).1 1 (by omega)
      rw [light_iff_not_dark, stage_dark_iff_le (Nat.zero_le n)] at h
      omega
  rw [this] at hb
  exact hb

theorem is_initialized_stage_zero {n : Nat} (h2 : 2 * n < SIZE_MOD) :
    (stage_row n 0).is_initialized = .ok true := by
  have hM := SIZE_MOD_eq
  obtain ⟨b, hb, hiff⟩ := @is_initialized_row_of (2 * n) (stage n 0) (by omega)
  have : b = true := by
    rw [hiff]
    intro p hp
    rw [color_eq_iff, stage_dark_iff_le (Nat.zero_le n), ite_light_dark_iff]
    simp only [eq_self_iff_true, and_true]
    omega
  rw [this] at hb
  exact hb

theorem stage_row_one : stage_row 1 0 = stage_row 1 1 := stage_row_sorted (by omega)

theorem size_mul_half_bound (k : Nat) : 2 * (size_mul k 2 / 2) < SIZE_MOD := by
  have hM := SIZE_MOD_eq
  have : size_mul k 2 < SIZE_MOD := by
    unfold size_mul
    exact Nat.mod_lt _ (by omega)
  omega

theorem initialized_eq_stage {d : disk_state} {n : Nat} (htot : d.total_count = 2 * n)
    (h2 : 2 * n < SIZE_MOD) (hi : d.is_initialized = .ok true) : d = stage_row n 0 := by
  have hM := SIZE_MOD_eq
  obtain ⟨b, hb, hiff⟩ := @is_initialized_row_of d.total_count (coloring d) (by omega)
  rw [row_of_coloring, hi] at hb
  cases hb
  have hall := hiff.mp rfl
  rw [← row_of_coloring d, htot]
  apply row_of_congr
  intro p hp
  rw [hall p (by omega), color_eq_iff, stage_dark_iff_le (Nat.zero_le n), ite_light_dark_iff]
  simp only [eq_self_iff_true, and_true]
  omega

theorem triangle_le_sq (n : Nat) : triangle n ≤ n * n := by
  induction n with
  | zero => simp [triangle]
  | succ m ih =>
    rw [triangle]
    nlinarith

theorem op_eq_self (d : disk_state) : d.op_eq d = .ok true := by
  simp [disk_state.op_eq, disk_state.total_count]

theorem stage_row_zero_zero : stage_row 0 0 = ⟨[]⟩ := rfl

/-! ## The step budgets are never used up -/

theorem sort_alternate_fuel_enough (d : disk_state) (hlen : d.total_count < SIZE_MOD) :
    sort_alternate_nat d ≠ .error .out_of_fuel := by
  rcases Nat.lt_or_ge d.total_count 2 with h | h
  · cases d with
    | mk l =>
      match l, h with
      | [], _ => decide
      | [c], _ => cases c <;> decide
      | _ :: _ :: _, h => simp only [disk_state.total_count, List.length_cons] at h; omega
  · obtain ⟨r, hr, _⟩ := sort_alternate_ok d h hlen
    rw [hr]
    intro hc
    cases hc

theorem sort_lawnmower_fuel_enough (d : disk_state) (hlen : d.total_count < SIZE_MOD) :
    sort_lawnmower_nat d ≠ .error .out_of_fuel := by
  rcases Nat.lt_or_ge d.total_count 2 with h | h
  · cases d with
    | mk l =>
      match l, h with
      | [], _ => decide
      | [c], _ => cases c <;> decide
      | _ :: _ :: _, h => simp only [disk_state.total_count, List.length_cons] at h; omega
  · obtain ⟨r, hr, _⟩ := sort_lawnmower_ok d h hlen
    rw [hr]
    intro hc
    cases hc

theorem ctor_fuel_enough (k : Nat) : disk_state.ctor k ≠ .error .out_of_fuel := by
  rcases Nat.eq_zero_or_pos k with h | h
  · subst h
    decide
  · rcases Nat.lt_or_ge MAX_SIZE (size_mul k 2) with hm | hm
    · rw [ctor_length_error hm]
      intro hc
      cases hc
    · rw [ctor_eq h hm]
      intro hc
      cases hc

/-- The bound of the outer loop of `sort_lawnmower` on `disk_state(k)`: `(k + 1) / 2`
rounds. -/
theorem lawnmower_round_bound {k : Nat} (hk : 0 < k) (h2 : 2 * k ≤ MAX_SIZE) :
    ∃ d, disk_state.ctor k = .ok d ∧ size_add d.light_count 1 / 2 = (k + 1) / 2 := by
  have hM := SIZE_MOD_eq
  have hX := MAX_SIZE_eq
  refine ⟨stage_row k 0, ctor_eq_of_le hk h2, ?_⟩
  have e1 : (stage_row k 0).total_count = 2 * k := total_count_row_of _ _
  have e2 : (stage_row k 0).light_count = k := by
    unfold disk_state.light_count
    rw [e1]
    omega
  rw [e2, size_add_eq (by omega)]

/-! ## Failing and passing calls of `get` and `swap` -/

theorem swap_eq_swap_effect (d : disk_state) (left : Nat) :
    d.swap left =
      match d.swap_effect left with
      | (d1, .ok _) => .ok d1
      | (_, .error e) => .error e := by
  unfold disk_state.swap disk_state.swap_effect
  by_cases h1 : d.is_index left = true
  · rw [if_pos h1, if_pos h1]
    by_cases h2 : d.is_index (size_add left 1) = true
    · simp only [h2, if_true]
      cases d._colors[left]? <;> cases d._colors[size_add left 1]? <;> rfl
    · simp only [h2]
      rfl
  · rw [if_neg h1, if_neg h1]

theorem get_ok_iff (d : disk_state) (i : Nat) :
    (∃ c, d.get i = .ok c) ↔ i < d.total_count := by
  constructor
  · rintro ⟨c, hc⟩
    by_contra hn
    rw [← row_of_coloring d, get_row_of_fail _ (by omega)] at hc
    cases hc
  · intro h
    refine ⟨coloring d i, ?_⟩
    have := get_row_of (coloring d) h
    rw [row_of_coloring] at this
    exact this

theorem get_eq_coloring {d : disk_state} {i : Nat} (h : i < d.total_count) :
    d.get i = .ok (coloring d i) := by
  have := get_row_of (coloring d) h
  rw [row_of_coloring] at this
  exact this

theorem get_fail {d : disk_state} {i : Nat} (h : d.total_count ≤ i) :
    d.get i = .error .assertion := by
  have := get_row_of_fail (coloring d) h
  rw [row_of_coloring] at this
  exact this

theorem swap_eq_exch {d : disk_state} {left : Nat} (h : left + 1 < d.total_count)
    (hlen : d.total_count < SIZE_MOD) :
    d.swap left = .ok (row_of d.total_count (exch (coloring d) left)) := by
  have := swap_row_of (coloring d) h hlen
  rw [row_of_coloring] at this
  exact this

theorem swap_fail {d : disk_state} {left : Nat} (h : d.total_count ≤ left + 1)
    (hlen : d.total_count < SIZE_MOD) :
    d.swap left = .error .assertion ∧ (d.swap_effect left).1 = d := by
  unfold disk_state.swap disk_state.swap_effect
  by_cases h1 : d.is_index left = true
  · have h1' : left < d.total_count := by simpa [disk_state.is_index] using h1
    have h2 : ¬ d.is_index (size_add left 1) = true := by
      rw [size_add_eq (by omega)]
      simp [disk_state.is_index]
      omega
    simp [h1, h2]
  · simp [h1]

theorem coloring_row_of {len : Nat} (f : Nat → disk_color) {p : Nat} (h : p < len) :
    coloring (row_of len f) p = f p := by
  have h1 := get_row_of f h
  have h2 := @get_eq_coloring (row_of len f) p (by rw [total_count_row_of]; exact h)
  rw [h1] at h2
  exact (Except.ok.inj h2).symm

theorem row_of_blocks (k : Nat) :
    row_of (2 * k) (fun p => if p < k then DISK_LIGHT else DISK_DARK) =
      ⟨List.replicate k DISK_LIGHT ++ List.replicate k DISK_DARK⟩ := by
  unfold row_of
  congr 1
  apply List.ext_getElem
  · simp
    omega
  · intro i h1 h2
    simp only [List.getElem_map, List.getElem_range]
    by_cases hi : i < k
    · rw [if_pos hi, List.getElem_append_left (by simpa using hi)]
      simp
    · rw [if_neg hi, List.getElem_append_right (by simpa using hi)]
      simp

/-! ## The rendering `to_string()` -/

theorem to_string_loop_eq_go (l : List disk_color) :
    ∀ ss : String, disk_state.to_string_loop l false ss =
      String.intercalate.go ss " " (l.map disk_token) := by
  induction l with
  | nil => intro ss; rfl
  | cons c rest ih =>
    intro ss
    cases c <;> simp [disk_state.to_string_loop, String.intercalate.go, disk_token, ih]

theorem to_string_eq_joined (d : disk_state) : d.to_string = render_joined d := by
  cases d with
  | mk l =>
    cases l with
    | nil => rfl
    | cons c rest =>
      simp only [disk_state.to_string, render_joined, disk_state.to_string_loop, List.map_cons,
        String.intercalate]
      rw [to_string_loop_eq_go]
      cases c <;> simp [disk_token]

theorem to_string_loop_data (l : List disk_color) :
    ∀ ss : String, (disk_state.to_string_loop l false ss).data =
      ss.data ++ l.flatMap (fun c => [' ', disk_char c]) := by
  induction l with
  | nil => intro ss; simp [disk_state.to_string_loop]
  | cons c rest ih =>
    intro ss
    cases c <;> simp [disk_state.to_string_loop, ih, disk_char]

theorem intersperse_cons_flatMap (a : Char) (l : List Char) (sep : Char) :
    List.intersperse sep (a :: l) = a :: l.flatMap (fun c => [sep, c]) := by
  induction l generalizing a with
  | nil => rfl
  | cons b rest ih =>
    rw [List.intersperse_cons_cons, ih]
    simp

theorem to_string_data (d : disk_state) :
    d.to_string.data = List.intersperse ' ' (d._colors.map disk_char) := by
  cases d with
  | mk l =>
    cases l with
    | nil => rfl
    | cons c rest =>
      simp only [disk_state.to_string, disk_state.to_string_loop, List.map_cons]
      rw [intersperse_cons_flatMap, List.flatMap_map]
      cases c <;> simp [to_string_loop_data, disk_char]

theorem flatMap_pair_length (l : List Char) (sep : Char) :
    (l.flatMap (fun c => [sep, c])).length = 2 * l.length := by
  induction l with
  | nil => rfl
  | cons b r ih =>
    simp only [List.flatMap_cons, List.length_cons, List.length_append, ih, List.length_nil]
    omega

theorem intersperse_length (l : List Char) (sep : Char) (h : l ≠ []) :
    (List.intersperse sep l).length + 1 = 2 * l.length := by
  cases l with
  | nil => exact absurd rfl h
  | cons a rest =>
    rw [intersperse_cons_flatMap, List.length_cons, flatMap_pair_length, List.length_cons]
    omega

theorem disk_char_injective : Function.Injective disk_char := by
  intro a b h
  cases a <;> cases b <;> first | rfl | (exact absurd h (by decide))

theorem intersperse_injective (l1 l2 : List Char) (sep : Char)
    (h : List.intersperse sep l1 = List.intersperse sep l2) : l1 = l2 := by
  induction l1 generalizing l2 with
  | nil =>
    cases l2 with
    | nil => rfl
    | cons b r => rw [intersperse_cons_flatMap] at h; cases h
  | cons a r ih =>
    cases l2 with
    | nil => rw [intersperse_cons_flatMap] at h; cases h
    | cons b r2 =>
      cases r with
      | nil =>
        cases r2 with
        | nil => simpa using h
        | cons c r3 => simp [List.intersperse] at h
      | cons a2 r1 =>
        cases r2 with
        | nil => simp [List.intersperse] at h
        | cons c r3 =>
          rw [List.intersperse_cons_cons, List.intersperse_cons_cons] at h
          injection h with h1 h2
          injection h2 with h3 h4
          rw [h1, ih _ h4]

theorem list_split_pair {α : Type} (l : List α) (p : Nat) (h : p + 1 < l.length) :
    l = l.take p ++ l[p] :: l[p + 1] :: l.drop (p + 2) := by
  have h1 : l.drop p = l[p] :: l.drop (p + 1) := List.drop_eq_getElem_cons (by omega)
  have h2 : l.drop (p + 1) = l[p + 1] :: l.drop (p + 2) := List.drop_eq_getElem_cons h
  rw [← h2, ← h1, List.take_append_drop]

theorem set_set_pair {α : Type} (a b : List α) (x y u v : α) :
    ((a ++ x :: y :: b).set a.length u).set (a.length + 1) v = a ++ u :: v :: b := by
  induction a with
  | nil => rfl
  | cons c a ih =>
    simp only [List.cons_append, List.length_cons, List.set_cons_succ]
    rw [ih]

/-! ## A passing `swap` exchanges two neighbours -/

theorem getElem?_pair_left {α : Type} (a b : List α) (x y : α) :
    (a ++ x :: y :: b)[a.length]? = some x := by
  induction a with
  | nil => rfl
  | cons c a ih => simpa using ih

theorem getElem?_pair_right {α : Type} (a b : List α) (x y : α) :
    (a ++ x :: y :: b)[a.length + 1]? = some y := by
  induction a with
  | nil => simp
  | cons c a ih => simpa using ih

theorem swap_fail_of_le {d : disk_state} {p : Nat} (hlen : d.total_count < SIZE_MOD)
    (h : d.total_count ≤ p + 1) : d.swap p = .error .assertion := by
  unfold disk_state.swap
  by_cases h1 : d.is_index p = true
  · have h1' : p < d.total_count := by simpa [disk_state.is_index] using h1
    have h2 : ¬ d.is_index (size_add p 1) = true := by
      rw [size_add_eq (by omega)]
      simp [disk_state.is_index]
      omega
    simp [h1, h2]
  · simp [h1]

theorem swap_append_pair (a b : List disk_color) (x y : disk_color)
    (hlen : (a ++ x :: y :: b).length < SIZE_MOD) :
    disk_state.swap ⟨a ++ x :: y :: b⟩ a.length = .ok ⟨a ++ y :: x :: b⟩ := by
  have hs : size_add a.length 1 = a.length + 1 := size_add_eq (by
    simp only [List.length_append, List.length_cons] at hlen
    omega)
  have g1 := getElem?_pair_left a b x y
  have g2 := getElem?_pair_right a b x y
  have i1 : a.length < (a ++ x :: y :: b).length := by simp
  have i2 : a.length + 1 < (a ++ x :: y :: b).length := by simp
  unfold disk_state.swap
  simp only [disk_state.is_index, disk_state.total_count, hs, i1, i2, decide_True, if_true,
    g1, g2]
  rw [set_set_pair]

/-- A `swap` that passes its assertions exchanges two neighbours of the list. -/
theorem swap_decomp {d d1 : disk_state} {p : Nat} (hlen : d.total_count < SIZE_MOD)
    (h : d.swap p = .ok d1) :
    ∃ a x y b, d._colors = a ++ x :: y :: b ∧ d1._colors = a ++ y :: x :: b ∧
      a.length = p ∧ coloring d p = x ∧ coloring d (p + 1) = y ∧ p + 1 < d.total_count := by
  have hp : p + 1 < d.total_count := by
    by_contra hn
    rw [swap_fail_of_le hlen (by omega)] at h
    cases h
  cases d with
  | mk l =>
    simp only [disk_state.total_count] at hp hlen
    have hlt : (l.take p).length = p := by
      rw [List.length_take]
      omega
    obtain ⟨a, x, y, b, hl, ha⟩ : ∃ a x y b, l = a ++ x :: y :: b ∧ a.length = p :=
      ⟨_, _, _, _, list_split_pair l p hp, hlt⟩
    subst hl
    subst ha
    rw [swap_append_pair a b x y hlen] at h
    have h3 := Except.ok.inj h
    subst h3
    refine ⟨a, x, y, b, rfl, rfl, rfl, ?_, ?_, hp⟩
    · simp only [coloring, List.getD_eq_getElem?_getD, getElem?_pair_left, Option.getD_some]
    · simp only [coloring, List.getD_eq_getElem?_getD, getElem?_pair_right, Option.getD_some]

theorem swap_total_count {d d1 : disk_state} {p : Nat} (hlen : d.total_count < SIZE_MOD)
    (h : d.swap p = .ok d1) : d1.total_count = d.total_count := by
  obtain ⟨a, x, y, b, h1, h2, _⟩ := swap_decomp hlen h
  simp [disk_state.total_count, h1, h2]

/-! ## What one step of a sweep does -/

theorem get_ok_coloring {d : disk_state} {j : Nat} {c : disk_color} (h : d.get j = .ok c) :
    j < d.total_count ∧ coloring d j = c := by
  have hj : j < d.total_count := (get_ok_iff d j).mp ⟨c, h⟩
  rw [get_eq_coloring hj] at h
  exact ⟨hj, Except.ok.inj h⟩

theorem swap_right_step_cases {j : Nat} {d d1 : disk_state} {s s1 : Nat}
    (h : swap_right_step_nat j d s = .ok (d1, s1)) :
    (d1 = d ∧ s1 = s) ∨
      (d.get j = .ok DISK_DARK ∧ d.get (size_add j 1) = .ok DISK_LIGHT ∧
        d.swap j = .ok d1 ∧ s1 = s + 1) := by
  unfold swap_right_step_nat at h
  cases hg : d.get j with
  | error e => rw [hg] at h; cases h
  | ok c =>
    rw [hg] at h
    cases c with
    | DISK_LIGHT =>
      simp only [Except.ok.injEq, Prod.mk.injEq] at h
      exact Or.inl ⟨h.1.symm, h.2.symm⟩
    | DISK_DARK =>
      simp only at h
      cases hg2 : d.get (size_add j 1) with
      | error e => rw [hg2] at h; cases h
      | ok c2 =>
        rw [hg2] at h
        cases c2 with
        | DISK_DARK =>
          simp only [Except.ok.injEq, Prod.mk.injEq] at h
          exact Or.inl ⟨h.1.symm, h.2.symm⟩
        | DISK_LIGHT =>
          simp only at h
          cases hs : d.swap j with
          | error e => rw [hs] at h; cases h
          | ok d2 =>
            rw [hs] at h
            simp only [Except.ok.injEq, Prod.mk.injEq] at h
            exact Or.inr ⟨rfl, rfl, by rw [h.1], h.2.symm⟩

theorem swap_left_step_cases {j : Nat} {d d1 : disk_state} {s s1 : Nat}
    (h : swap_left_step_nat j d s = .ok (d1, s1)) :
    (d1 = d ∧ s1 = s) ∨
      (d.get j = .ok DISK_LIGHT ∧ d.get (size_sub j 1) = .ok DISK_DARK ∧
        d.swap (size_sub j 1) = .ok d1 ∧ s1 = s + 1) := by
  unfold swap_left_step_nat at h
  cases hg : d.get j with
  | error e => rw [hg] at h; cases h
  | ok c =>
    rw [hg] at h
    cases c with
    | DISK_DARK =>
      simp only [Except.ok.injEq, Prod.mk.injEq] at h
      exact Or.inl ⟨h.1.symm, h.2.symm⟩
    | DISK_LIGHT =>
      simp only at h
      cases hg2 : d.get (size_sub j 1) with
      | error e => rw [hg2] at h; cases h
      | ok c2 =>
        rw [hg2] at h
        cases c2 with
        | DISK_LIGHT =>
          simp only [Except.ok.injEq, Prod.mk.injEq] at h
          exact Or.inl ⟨h.1.symm, h.2.symm⟩
        | DISK_DARK =>
          simp only at h
          cases hs : d.swap (size_sub j 1) with
          | error e => rw [hs] at h; cases h
          | ok d2 =>
            rw [hs] at h
            simp only [Except.ok.injEq, Prod.mk.injEq] at h
            exact Or.inr ⟨rfl, rfl, by rw [h.1], h.2.symm⟩

/-- A step that looks at the pair `(j, j + 1)` swaps, if at all, a dark disk at some `p`
with the light disk at `p + 1`. -/
theorem right_step_swap {j : Nat} {d d1 : disk_state} {s s1 : Nat}
    (hlen : d.total_count < SIZE_MOD) (h : swap_right_step_nat j d s = .ok (d1, s1)) :
    (d1 = d ∧ s1 = s) ∨
      (coloring d j = DISK_DARK ∧ coloring d (j + 1) = DISK_LIGHT ∧ d.swap j = .ok d1 ∧
        s1 = s + 1) := by
  rcases swap_right_step_cases h with h1 | ⟨h1, h2, h3, h4⟩
  · exact Or.inl h1
  · obtain ⟨hj, hc⟩ := get_ok_coloring h1
    rw [size_add_eq (by omega)] at h2
    exact Or.inr ⟨hc, (get_ok_coloring h2).2, h3, h4⟩

theorem left_step_swap {j : Nat} {d d1 : disk_state} {s s1 : Nat}
    (hlen : d.total_count < SIZE_MOD) (h : swap_left_step_nat j d s = .ok (d1, s1)) :
    (d1 = d ∧ s1 = s) ∨
      (0 < j ∧ coloring d (j - 1) = DISK_DARK ∧ coloring d (j - 1 + 1) = DISK_LIGHT ∧
        d.swap (j - 1) = .ok d1 ∧ s1 = s + 1) := by
  rcases swap_left_step_cases h with h1 | ⟨h1, h2, h3, h4⟩
  · exact Or.inl h1
  · obtain ⟨hj, hc⟩ := get_ok_coloring h1
    have hM := SIZE_MOD_eq
    have hpos : 0 < j := by
      by_contra hn
      have h0 : j = 0 := by omega
      subst h0
      have := (get_ok_coloring h2).1
      unfold size_sub at this
      rw [hM] at this
      omega
    rw [size_sub_eq (by omega) (by omega)] at h2 h3
    refine Or.inr ⟨hpos, (get_ok_coloring h2).2, ?_, h3, h4⟩
    rw [Nat.sub_add_cancel hpos]
    exact hc

theorem right_step_inv {N : Nat} {Q : disk_state → Nat → Prop} (hN : N < SIZE_MOD)
    (hQ : swap_inv N Q) {j : Nat} {d d1 : disk_state} {s s1 : Nat} (hd : d.total_count = N)
    (hq : Q d s) (h : swap_right_step_nat j d s = .ok (d1, s1)) :
    d1.total_count = N ∧ Q d1 s1 := by
  rcases right_step_swap (by omega) h with ⟨h1, h2⟩ | ⟨h1, h2, h3, h4⟩
  · subst h1
    subst h2
    exact ⟨hd, hq⟩
  · subst h4
    exact ⟨by rw [swap_total_count (by omega) h3, hd], hQ d s j d1 hd hq h1 h2 h3⟩

theorem left_step_inv {N : Nat} {Q : disk_state → Nat → Prop} (hN : N < SIZE_MOD)
    (hQ : swap_inv N Q) {j : Nat} {d d1 : disk_state} {s s1 : Nat} (hd : d.total_count = N)
    (hq : Q d s) (h : swap_left_step_nat j d s = .ok (d1, s1)) :
    d1.total_count = N ∧ Q d1 s1 := by
  rcases left_step_swap (by omega) h with ⟨h1, h2⟩ | ⟨_, h1, h2, h3, h4⟩
  · subst h1
    subst h2
    exact ⟨hd, hq⟩
  · subst h4
    exact ⟨by rw [swap_total_count (by omega) h3, hd], hQ d s (j - 1) d1 hd hq h1 h2 h3⟩

/-! ## What the sweeps and the sorts keep -/

theorem alternate_inner_inv {N : Nat} {Q : disk_state → Nat → Prop} (hN : N < SIZE_MOD)
    (hQ : swap_inv N Q) (bound : Nat) :
    ∀ (fuel j : Nat) (d : disk_state) (s : Nat) (d1 : disk_state) (s1 : Nat),
      d.total_count = N → Q d s → alternate_inner_nat bound fuel j d s = .ok (d1, s1) →
      d1.total_count = N ∧ Q d1 s1 := by
  intro fuel
  induction fuel with
  | zero => intro j d s d1 s1 _ _ h; rw [alternate_inner_nat] at h; cases h
  | succ fuel ih =>
    intro j d s d1 s1 hd hq h
    rw [alternate_inner_nat] at h
    split_ifs at h with hj
    · cases hstep : swap_right_step_nat j d s with
      | error e => rw [hstep] at h; cases h
      | ok r =>
        obtain ⟨d2, s2⟩ := r
        rw [hstep] at h
        obtain ⟨hd2, hq2⟩ := right_step_inv hN hQ hd hq hstep
        exact ih _ d2 s2 d1 s1 hd2 hq2 h
    · simp only [Except.ok.injEq, Prod.mk.injEq] at h
      rw [← h.1, ← h.2]
      exact ⟨hd, hq⟩

theorem lawnmower_right_inv {N : Nat} {Q : disk_state → Nat → Prop} (hN : N < SIZE_MOD)
    (hQ : swap_inv N Q) (bound : Nat) :
    ∀ (fuel j : Nat) (d : disk_state) (s : Nat) (d1 : disk_state) (s1 : Nat),
      d.total_count = N → Q d s → lawnmower_right_nat bound fuel j d s = .ok (d1, s1) →
      d1.total_count = N ∧ Q d1 s1 := by
  intro fuel
  induction fuel with
  | zero => intro j d s d1 s1 _ _ h; rw [lawnmower_right_nat] at h; cases h
  | succ fuel ih =>
    intro j d s d1 s1 hd hq h
    rw [lawnmower_right_nat] at h
    split_ifs at h with hj
    · cases hstep : swap_right_step_nat j d s with
      | error e => rw [hstep] at h; cases h
      | ok r =>
        obtain ⟨d2, s2⟩ := r
        rw [hstep] at h
        obtain ⟨hd2, hq2⟩ := right_step_inv hN hQ hd hq hstep
        exact ih _ d2 s2 d1 s1 hd2 hq2 h
    · simp only [Except.ok.injEq, Prod.mk.injEq] at h
      rw [← h.1, ← h.2]
      exact ⟨hd, hq⟩

theorem lawnmower_left_inv {N : Nat} {Q : disk_state → Nat → Prop} (hN : N < SIZE_MOD)
    (hQ : swap_inv N Q) :
    ∀ (fuel j : Nat) (d : disk_state) (s : Nat) (d1 : disk_state) (s1 : Nat),
      d.total_count = N → Q d s → lawnmower_left_nat fuel j d s = .ok (d1, s1) →
      d1.total_count = N ∧ Q d1 s1 := by
  intro fuel
  induction fuel with
  | zero => intro j d s d1 s1 _ _ h; rw [lawnmower_left_nat] at h; cases h
  | succ fuel ih =>
    intro j d s d1 s1 hd hq h
    rw [lawnmower_left_nat] at h
    split_ifs at h with hj
    · cases hstep : swap_left_step_nat j d s with
      | error e => rw [hstep] at h; cases h
      | ok r =>
        obtain ⟨d2, s2⟩ := r
        rw [hstep] at h
        obtain ⟨hd2, hq2⟩ := left_step_inv hN hQ hd hq hstep
        exact ih _ d2 s2 d1 s1 hd2 hq2 h
    · simp only [Except.ok.injEq, Prod.mk.injEq] at h
      rw [← h.1, ← h.2]
      exact ⟨hd, hq⟩

theorem alternate_outer_inv {N : Nat} {Q : disk_state → Nat → Prop} (hN : N < SIZE_MOD)
    (hQ : swap_inv N Q) (n inner_fuel : Nat) :
    ∀ (fuel i : Nat) (d : disk_state) (s : Nat) (d1 : disk_state) (s1 : Nat),
      d.total_count = N → Q d s → alternate_outer_nat n inner_fuel fuel i d s = .ok (d1, s1) →
      d1.total_count = N ∧ Q d1 s1 := by
  intro fuel
  induction fuel with
  | zero => intro i d s d1 s1 _ _ h; rw [alternate_outer_nat] at h; cases h
  | succ fuel ih =>
    intro i d s d1 s1 hd hq h
    rw [alternate_outer_nat] at h
    split_ifs at h with hi
    · cases hin : alternate_inner_nat (size_sub (size_mul 2 n) 1) inner_fuel (i % 2) d s with
      | error e => rw [hin] at h; cases h
      | ok r =>
        obtain ⟨d2, s2⟩ := r
        rw [hin] at h
        obtain ⟨hd2, hq2⟩ := alternate_inner_inv hN hQ _ _ _ d s d2 s2 hd hq hin
        exact ih _ d2 s2 d1 s1 hd2 hq2 h
    · simp only [Except.ok.injEq, Prod.mk.injEq] at h
      rw [← h.1, ← h.2]
      exact ⟨hd, hq⟩

theorem lawnmower_outer_inv {N : Nat} {Q : disk_state → Nat → Prop} (hN : N < SIZE_MOD)
    (hQ : swap_inv N Q) (n inner_fuel : Nat) :
    ∀ (fuel i : Nat) (d : disk_state) (s : Nat) (d1 : disk_state) (s1 : Nat),
      d.total_count = N → Q d s → lawnmower_outer_nat n inner_fuel fuel i d s = .ok (d1, s1) →
      d1.total_count = N ∧ Q d1 s1 := by
  intro fuel
  induction fuel with
  | zero => intro i d s d1 s1 _ _ h; rw [lawnmower_outer_nat] at h; cases h
  | succ fuel ih =>
    intro i d s d1 s1 hd hq h
    rw [lawnmower_outer_nat] at h
    split_ifs at h with hi
    · cases hin : lawnmower_right_nat (size_sub (size_mul 2 n) 1) inner_fuel 0 d s with
      | error e => rw [hin] at h; cases h
      | ok r =>
        obtain ⟨d2, s2⟩ := r
        rw [hin] at h
        obtain ⟨hd2, hq2⟩ := lawnmower_right_inv hN hQ _ _ _ d s d2 s2 hd hq hin
        simp only [] at h
        cases hin2 : lawnmower_left_nat inner_fuel (size_sub (size_mul 2 n) 1) d2 s2 with
        | error e => rw [hin2] at h; cases h
        | ok r2 =>
          obtain ⟨d3, s3⟩ := r2
          rw [hin2] at h
          obtain ⟨hd3, hq3⟩ := lawnmower_left_inv hN hQ _ _ d2 s2 d3 s3 hd2 hq2 hin2
          exact ih _ d3 s3 d1 s1 hd3 hq3 h
    · simp only [Except.ok.injEq, Prod.mk.injEq] at h
      rw [← h.1, ← h.2]
      exact ⟨hd, hq⟩

theorem sort_alternate_inv {Q : disk_state → Nat → Prop} {d : disk_state}
    (hN : d.total_count < SIZE_MOD) (hQ : swap_inv d.total_count Q) (hq : Q d 0)
    {r : disk_state × Nat} (h : sort_alternate_nat d = .ok r) :
    r.1.total_count = d.total_count ∧ Q r.1 r.2 := by
  unfold sort_alternate_nat at h
  simp only [] at h
  cases ho : alternate_outer_nat d.light_count (d.total_count + 2) (d.light_count + 2) 0 d 0 with
  | error e => rw [ho] at h; cases h
  | ok p =>
    obtain ⟨d2, s2⟩ := p
    rw [ho] at h
    simp only [Except.ok.injEq] at h
    subst h
    exact alternate_outer_inv hN hQ _ _ _ _ d 0 d2 s2 rfl hq ho

theorem sort_lawnmower_inv {Q : disk_state → Nat → Prop} {d : disk_state}
    (hN : d.total_count < SIZE_MOD) (hQ : swap_inv d.total_count Q) (hq : Q d 0)
    {r : disk_state × Nat} (h : sort_lawnmower_nat d = .ok r) :
    r.1.total_count = d.total_count ∧ Q r.1 r.2 := by
  unfold sort_lawnmower_nat at h
  simp only [] at h
  cases ho : lawnmower_outer_nat d.light_count (d.total_count + 2) (d.light_count + 2) 0 d 0 with
  | error e => rw [ho] at h; cases h
  | ok p =>
    obtain ⟨d2, s2⟩ := p
    rw [ho] at h
    simp only [Except.ok.injEq] at h
    subst h
    exact lawnmower_outer_inv hN hQ _ _ _ _ d 0 d2 s2 rfl hq ho

/-! ## Rows reached by swaps keep their counts -/

theorem swap_perm {d d1 : disk_state} {p : Nat} (hlen : d.total_count < SIZE_MOD)
    (h : d.swap p = .ok d1) : d1._colors.Perm d._colors := by
  obtain ⟨a, x, y, b, h1, h2, _⟩ := swap_decomp hlen h
  rw [h1, h2]
  exact List.Perm.append_left a (List.Perm.swap x y b)

theorem swap_inv_perm (N : Nat) (hN : N < SIZE_MOD) (l : List disk_color) :
    swap_inv N (fun d _ => d._colors.Perm l) := by
  intro d s p d1 hd hq _ _ h
  exact (swap_perm (by omega) h).trans hq

theorem alternating_count (k : Nat) :
    ((List.range (2 * k)).map (fun p => if p % 2 = 0 then DISK_LIGHT else DISK_DARK)).count
        DISK_LIGHT = k ∧
      ((List.range (2 * k)).map (fun p => if p % 2 = 0 then DISK_LIGHT else DISK_DARK)).count
        DISK_DARK = k := by
  induction k with
  | zero => simp
  | succ m ih =>
    have e : 2 * (m + 1) = 2 * m + 1 + 1 := by omega
    rw [e, List.range_succ, List.range_succ]
    simp only [List.map_append, List.map_cons, List.map_nil, List.count_append, ih.1, ih.2]
    have h1 : (2 * m) % 2 = 0 := by omega
    have h2 : ¬ (2 * m + 1) % 2 = 0 := by omega
    simp [h1, h2]

theorem stage_row_zero_eq (k : Nat) :
    stage_row k 0 = row_of (2 * k) (fun p => if p % 2 = 0 then DISK_LIGHT else DISK_DARK) := by
  apply row_of_congr
  intro p hp
  rw [color_eq_iff, stage_dark_iff_le (Nat.zero_le k), ite_light_dark_iff]
  simp only [eq_self_iff_true, and_true]
  omega

theorem count_invariant_of_perm {k : Nat} {d d1 : disk_state} (h : count_invariant k d)
    (hp : d1._colors.Perm d._colors) : count_invariant k d1 := by
  obtain ⟨h1, h2, h3, h4, h5⟩ := h
  have hl : d1.total_count = d.total_count := hp.length_eq
  refine ⟨by rw [hl, h1], by rw [hp.count_eq, h2], by rw [hp.count_eq, h3], ?_, ?_⟩
  · unfold disk_state.light_count at h4 ⊢
    rw [hl, h4]
  · unfold disk_state.dark_count disk_state.light_count at h5 ⊢
    rw [hl, h5]

theorem count_invariant_stage (k : Nat) : count_invariant k (stage_row k 0) := by
  rw [stage_row_zero_eq]
  have e1 : (row_of (2 * k) (fun p => if p % 2 = 0 then DISK_LIGHT else DISK_DARK)).total_count
      = 2 * k := total_count_row_of _ _
  refine ⟨e1, (alternating_count k).1, (alternating_count k).2, ?_, ?_⟩
  · unfold disk_state.light_count
    rw [e1]
    omega
  · unfold disk_state.dark_count disk_state.light_count
    rw [e1]
    omega

theorem reachable_count_invariant {k : Nat} (h2 : 2 * k < SIZE_MOD)
    {d : disk_state} (hr : reachable k d) : count_invariant k d := by
  induction hr with
  | fresh d hd =>
    obtain ⟨_, hm, hshape⟩ := ctor_ok_shape hd
    have e : size_mul k 2 = 2 * k := by
      unfold size_mul
      rw [Nat.mod_eq_of_lt (by omega)]
      omega
    rw [hshape, e, Nat.mul_div_cancel_left k (by omega)]
    exact count_invariant_stage k
  | swapped d d1 left _ hs ih =>
    exact count_invariant_of_perm ih (swap_perm (by rw [ih.1]; exact h2) hs)

/-! ## A swap of a dark disk with the light disk right of it removes one inversion -/

theorem count_light_pair (a b : List disk_color) (x y : disk_color) :
    (a ++ x :: y :: b).count DISK_LIGHT = (a ++ y :: x :: b).count DISK_LIGHT :=
  (List.Perm.append_left a (List.Perm.swap y x b)).count_eq _

theorem inversions_list_pair (a b : List disk_color) :
    inversions_list (a ++ DISK_DARK :: DISK_LIGHT :: b) =
      inversions_list (a ++ DISK_LIGHT :: DISK_DARK :: b) + 1 := by
  induction a with
  | nil =>
    simp [inversions_list]
    omega
  | cons c a ih =>
    show (if c = DISK_DARK then (a ++ DISK_DARK :: DISK_LIGHT :: b).count DISK_LIGHT else 0) +
        inversions_list (a ++ DISK_DARK :: DISK_LIGHT :: b) =
      (if c = DISK_DARK then (a ++ DISK_LIGHT :: DISK_DARK :: b).count DISK_LIGHT else 0) +
        inversions_list (a ++ DISK_LIGHT :: DISK_DARK :: b) + 1
    rw [ih, count_light_pair a b DISK_DARK DISK_LIGHT]
    omega

theorem swap_inversions {d d1 : disk_state} {p : Nat} (hlen : d.total_count < SIZE_MOD)
    (h1 : coloring d p = DISK_DARK) (h2 : coloring d (p + 1) = DISK_LIGHT)
    (h : d.swap p = .ok d1) : inversions d1 + 1 = inversions d := by
  obtain ⟨a, x, y, b, e1, e2, _, hx, hy, _⟩ := swap_decomp hlen h
  rw [h1] at hx
  rw [h2] at hy
  subst hx
  subst hy
  unfold inversions
  rw [e1, e2, inversions_list_pair]

theorem swap_inv_inversions (N : Nat) (hN : N < SIZE_MOD) (K : Nat) :
    swap_inv N (fun d s => s + inversions d = K) := by
  intro d s p d1 hd hq h1 h2 h
  have := swap_inversions (by omega) h1 h2 h
  show s + 1 + inversions d1 = K
  have hq2 : s + inversions d = K := hq
  omega

theorem two_mul_triangle (m : Nat) : 2 * triangle m = m * (m - 1) := by
  induction m with
  | zero => rfl
  | succ m ih =>
    rw [triangle, Nat.mul_add, ih, Nat.add_sub_cancel]
    cases m with
    | zero => rfl
    | succ j =>
      simp only [Nat.add_sub_cancel]
      ring

theorem triangle_eq (m : Nat) : triangle m = m * (m - 1) / 2 := by
  rw [← two_mul_triangle]
  omega

/-! ## The loops of `sort_lawnmower_nat` as rounds of the specification -/

theorem visit_spec_total_count (st : disk_state × Nat) (j : Nat) :
    (visit_spec st j).1.total_count = st.1.total_count := by
  unfold visit_spec
  split_ifs <;> simp [disk_state.total_count]

theorem foldl_visit_total_count (l : List Nat) :
    ∀ st : disk_state × Nat, (l.foldl visit_spec st).1.total_count = st.1.total_count := by
  induction l with
  | nil => intro st; rfl
  | cons j l ih => intro st; rw [List.foldl_cons, ih, visit_spec_total_count]

theorem round_spec_total_count (n : Nat) (st : disk_state × Nat) :
    (round_spec n st).1.total_count = st.1.total_count := by
  unfold round_spec
  rw [foldl_visit_total_count, foldl_visit_total_count]

theorem swap_dark_light {d : disk_state} {j : Nat} (h : j + 1 < d.total_count)
    (hlen : d.total_count < SIZE_MOD) (h1 : coloring d j = DISK_DARK)
    (h2 : coloring d (j + 1) = DISK_LIGHT) :
    d.swap j = .ok ⟨(d._colors.set j DISK_LIGHT).set (j + 1) DISK_DARK⟩ := by
  obtain ⟨d1, hd1⟩ : ∃ d1, d.swap j = .ok d1 := ⟨_, swap_eq_exch h hlen⟩
  obtain ⟨a, x, y, b, e1, e2, ha, hx, hy, _⟩ := swap_decomp hlen hd1
  rw [hd1]
  congr 1
  cases d1 with
  | mk l1 =>
    simp only at e2
    rw [e2, e1, ← ha, set_set_pair, ← hx, ← hy, h1, h2]

theorem visit_right {d : disk_state} {j : Nat} (h : j + 1 < d.total_count)
    (hlen : d.total_count < SIZE_MOD) (s : Nat) :
    swap_right_step_nat j d s = .ok (visit_spec (d, s) j) := by
  unfold swap_right_step_nat visit_spec
  rw [get_eq_coloring (by omega : j < d.total_count), size_add_eq (by omega),
    get_eq_coloring h]
  cases h1 : coloring d j <;> cases h2 : coloring d (j + 1) <;>
    simp [h1, h2, swap_dark_light h hlen]

theorem visit_left {d : disk_state} {j : Nat} (h0 : 0 < j) (h : j < d.total_count)
    (hlen : d.total_count < SIZE_MOD) (s : Nat) :
    swap_left_step_nat j d s = .ok (visit_spec (d, s) (j - 1)) := by
  have e : j - 1 + 1 = j := Nat.sub_add_cancel h0
  unfold swap_left_step_nat visit_spec
  rw [get_eq_coloring h, size_sub_eq (by omega) (by omega),
    get_eq_coloring (by omega : j - 1 < d.total_count)]
  simp only [e]
  cases h1 : coloring d j <;> cases h2 : coloring d (j - 1) <;>
    simp [h1, h2, swap_dark_light (by omega : j - 1 + 1 < d.total_count) hlen, e]

theorem lawnmower_right_eq_fold {N bound : Nat} (hb : bound < N) (hN : N < SIZE_MOD) :
    ∀ (fuel j : Nat) (d : disk_state) (s : Nat), d.total_count = N → bound - j < fuel →
      lawnmower_right_nat bound fuel j d s =
        .ok ((List.range' j (bound - j)).foldl visit_spec (d, s)) := by
  intro fuel
  induction fuel with
  | zero => intro j d s _ h; omega
  | succ fuel ih =>
    intro j d s hd h
    rw [lawnmower_right_nat]
    by_cases hj : j < bound
    · rw [if_pos hj, visit_right (by omega) (by omega), size_add_eq (by omega)]
      have e : bound - j = (bound - (j + 1)) + 1 := by omega
      rw [e, List.range'_succ, List.foldl_cons]
      have hv : (visit_spec (d, s) j).1.total_count = N := by
        rw [visit_spec_total_count]
        exact hd
      exact ih (j + 1) (visit_spec (d, s) j).1 (visit_spec (d, s) j).2 hv (by omega)
    · rw [if_neg hj]
      have e : bound - j = 0 := by omega
      rw [e]
      rfl

theorem lawnmower_left_eq_fold {N : Nat} (hN : N < SIZE_MOD) :
    ∀ (fuel j : Nat) (d : disk_state) (s : Nat), d.total_count = N → j < fuel → j < N →
      lawnmower_left_nat fuel j d s = .ok ((List.range j).reverse.foldl visit_spec (d, s)) := by
  intro fuel
  induction fuel with
  | zero => intro j d s _ h; omega
  | succ fuel ih =>
    intro j d s hd h hj
    rw [lawnmower_left_nat]
    by_cases h0 : j > 0
    · rw [if_pos h0, visit_left h0 (by omega) (by omega), size_sub_eq (by omega) (by omega)]
      obtain ⟨m, rfl⟩ : ∃ m, j = m + 1 := ⟨j - 1, by omega⟩
      rw [List.range_succ, List.reverse_append, List.reverse_singleton, List.singleton_append,
        List.foldl_cons, Nat.add_sub_cancel]
      have hv : (visit_spec (d, s) m).1.total_count = N := by
        rw [visit_spec_total_count]
        exact hd
      exact ih m (visit_spec (d, s) m).1 (visit_spec (d, s) m).2 hv (by omega) (by omega)
    · rw [if_neg h0]
      have e : j = 0 := by omega
      subst e
      rfl

theorem lawnmower_outer_eq_rounds {N n : Nat} (hn : 0 < n) (h2 : 2 * n ≤ N)
    (hN : N < SIZE_MOD) :
    ∀ (fuel i : Nat) (d : disk_state) (s : Nat), d.total_count = N →
      (n + 1) / 2 - i < fuel →
      lawnmower_outer_nat n (N + 2) fuel i d s =
        .ok ((round_spec n)^[(n + 1) / 2 - i] (d, s)) := by
  intro fuel
  induction fuel with
  | zero => intro i d s _ h; omega
  | succ fuel ih =>
    intro i d s hd h
    rw [lawnmower_outer_nat, size_add_eq (by omega : n + 1 < SIZE_MOD), sweep_bound_eq hn (by omega)]
    by_cases hi : i < (n + 1) / 2
    · rw [if_pos hi, lawnmower_right_eq_fold (by omega : 2 * n - 1 < N) hN (N + 2) 0 d s hd
        (by omega)]
      simp only []
      rw [lawnmower_left_eq_fold hN (N + 2) (2 * n - 1) _ _
        (by rw [foldl_visit_total_count]; exact hd) (by omega) (by omega)]
      simp only []
      rw [size_add_eq (by omega : i + 1 < SIZE_MOD)]
      have e : (n + 1) / 2 - i = ((n + 1) / 2 - (i + 1)) + 1 := by omega
      rw [e, Function.iterate_succ_apply]
      have hr : round_spec n (d, s) =
          (List.range (2 * n - 1)).reverse.foldl visit_spec
            ((List.range' 0 (2 * n - 1 - 0)).foldl visit_spec (d, s)) := by
        unfold round_spec
        rw [Nat.sub_zero, List.range_eq_range']
      rw [hr]
      exact ih (i + 1) _ _
        (by rw [foldl_visit_total_count, foldl_visit_total_count]; exact hd) (by omega)
    · rw [if_neg hi]
      have e : (n + 1) / 2 - i = 0 := by omega
      rw [e]
      rfl

/-! ## Inversions counted by pairs of indices -/

theorem count_eq_countP_range (l : List disk_color) (x : disk_color) :
    l.count x = (List.range l.length).countP (fun j => decide (l[j]? = some x)) := by
  induction l with
  | nil => rfl
  | cons c rest ih =>
    rw [List.length_cons, List.range_succ_eq_map, List.countP_cons, List.countP_map]
    have e : (fun j => decide ((c :: rest)[j]? = some x)) ∘ Nat.succ =
        (fun j => decide (rest[j]? = some x)) := by
      funext j
      simp
    rw [e, ← ih, List.count_cons]
    by_cases hc : c = x
    · simp [hc]
    · simp [hc]

theorem inversions_list_eq_countP (l : List disk_color) :
    inversions_list l =
      ((List.range l.length).map (fun i =>
        (List.range l.length).countP (fun j =>
          decide (i < j ∧ l[i]? = some DISK_DARK ∧ l[j]? = some DISK_LIGHT)))).sum := by
  induction l with
  | nil => rfl
  | cons c rest ih =>
    rw [inversions_list, List.length_cons, List.range_succ_eq_map, List.map_cons, List.sum_cons,
      List.map_map]
    congr 1
    · rw [List.countP_cons, List.countP_map]
      by_cases hc : c = DISK_DARK
      · have e : (fun j => decide (0 < j ∧ (c :: rest)[0]? = some DISK_DARK ∧
            (c :: rest)[j]? = some DISK_LIGHT)) ∘ Nat.succ =
            (fun j => decide (rest[j]? = some DISK_LIGHT)) := by
          funext j
          simp [hc]
        rw [e, if_pos hc, count_eq_countP_range]
        simp
      · have e : (fun j => decide (0 < j ∧ (c :: rest)[0]? = some DISK_DARK ∧
            (c :: rest)[j]? = some DISK_LIGHT)) ∘ Nat.succ = (fun _ => false) := by
          funext j
          simp [hc]
        rw [e, if_neg hc]
        simp
    · rw [ih]
      congr 1
      apply List.map_congr_left
      intro i _
      simp only [Function.comp]
      rw [List.countP_cons, List.countP_map]
      have e : (fun j => decide (Nat.succ i < j ∧ (c :: rest)[Nat.succ i]? = some DISK_DARK ∧
            (c :: rest)[j]? = some DISK_LIGHT)) ∘ Nat.succ =
          (fun j => decide (i < j ∧ rest[i]? = some DISK_DARK ∧
            rest[j]? = some DISK_LIGHT)) := by
        funext j
        simp
      rw [e]
      simp

theorem inversions_eq_pairs (d : disk_state) : inversions d = inversion_pairs d := by
  unfold inversions inversion_pairs disk_state.total_count
  rw [inversions_list_eq_countP]
  congr 1
  apply List.map_congr_left
  intro i _
  rw [List.countP_eq_length_filter]

/-! ## The `int` counter holds the number of swaps modulo `2 ^ 32` -/

theorem wrap_int_zero : wrap_int 0 = 0 := by decide

theorem int_incr_wrap_int (s : Nat) : int_incr (wrap_int s) = wrap_int (s + 1) := by
  unfold int_incr wrap_int
  push_cast
  omega

theorem int_to_unsigned_wrap_int (s : Nat) : int_to_unsigned (wrap_int s) = s % UINT_MOD := by
  unfold int_to_unsigned wrap_int
  rw [UINT_MOD_eq]
  omega

theorem swap_right_step_wrap (j : Nat) (d : disk_state) (s : Nat) :
    swap_right_step j d (wrap_int s) = wrap_state (swap_right_step_nat j d s) := by
  unfold swap_right_step swap_right_step_nat
  cases d.get j with
  | error e => rfl
  | ok c =>
    cases c with
    | DISK_LIGHT => rfl
    | DISK_DARK =>
      simp only []
      cases d.get (size_add j 1) with
      | error e => rfl
      | ok c2 =>
        cases c2 with
        | DISK_DARK => rfl
        | DISK_LIGHT =>
          simp only []
          cases d.swap j with
          | error e => rfl
          | ok d1 =>
            simp only [wrap_state, int_incr_wrap_int]

theorem swap_left_step_wrap (j : Nat) (d : disk_state) (s : Nat) :
    swap_left_step j d (wrap_int s) = wrap_state (swap_left_step_nat j d s) := by
  unfold swap_left_step swap_left_step_nat
  cases d.get j with
  | error e => rfl
  | ok c =>
    cases c with
    | DISK_DARK => rfl
    | DISK_LIGHT =>
      simp only []
      cases d.get (size_sub j 1) with
      | error e => rfl
      | ok c2 =>
        cases c2 with
        | DISK_LIGHT => rfl
        | DISK_DARK =>
          simp only []
          cases d.swap (size_sub j 1) with
          | error e => rfl
          | ok d1 =>
            simp only [wrap_state, int_incr_wrap_int]

theorem alternate_inner_wrap (bound : Nat) :
    ∀ (fuel j : Nat) (d : disk_state) (s : Nat),
      alternate_inner bound fuel j d (wrap_int s) =
        wrap_state (alternate_inner_nat bound fuel j d s) := by
  intro fuel
  induction fuel with
  | zero => intro j d s; rfl
  | succ fuel ih =>
    intro j d s
    rw [alternate_inner, alternate_inner_nat]
    by_cases hj : j < bound
    · rw [if_pos hj, if_pos hj, swap_right_step_wrap]
      cases swap_right_step_nat j d s with
      | error e => rfl
      | ok p =>
        obtain ⟨d1, s1⟩ := p
        exact ih _ d1 s1
    · rw [if_neg hj, if_neg hj]
      rfl

theorem lawnmower_right_wrap (bound : Nat) :
    ∀ (fuel j : Nat) (d : disk_state) (s : Nat),
      lawnmower_right bound fuel j d (wrap_int s) =
        wrap_state (lawnmower_right_nat bound fuel j d s) := by
  intro fuel
  induction fuel with
  | zero => intro j d s; rfl
  | succ fuel ih =>
    intro j d s
    rw [lawnmower_right, lawnmower_right_nat]
    by_cases hj : j < bound
    · rw [if_pos hj, if_pos hj, swap_right_step_wrap]
      cases swap_right_step_nat j d s with
      | error e => rfl
      | ok p =>
        obtain ⟨d1, s1⟩ := p
        exact ih _ d1 s1
    · rw [if_neg hj, if_neg hj]
      rfl

theorem lawnmower_left_wrap :
    ∀ (fuel j : Nat) (d : disk_state) (s : Nat),
      lawnmower_left fuel j d (wrap_int s) = wrap_state (lawnmower_left_nat fuel j d s) := by
  intro fuel
  induction fuel with
  | zero => intro j d s; rfl
  | succ fuel ih =>
    intro j d s
    rw [lawnmower_left, lawnmower_left_nat]
    by_cases hj : j > 0
    · rw [if_pos hj, if_pos hj, swap_left_step_wrap]
      cases swap_left_step_nat j d s with
      | error e => rfl
      | ok p =>
        obtain ⟨d1, s1⟩ := p
        exact ih _ d1 s1
    · rw [if_neg hj, if_neg hj]
      rfl

theorem alternate_outer_wrap (n inner_fuel : Nat) :
    ∀ (fuel i : Nat) (d : disk_state) (s : Nat),
      alternate_outer n inner_fuel fuel i d (wrap_int s) =
        wrap_state (alternate_outer_nat n inner_fuel fuel i d s) := by
  intro fuel
  induction fuel with
  | zero => intro i d s; rfl
  | succ fuel ih =>
    intro i d s
    rw [alternate_outer, alternate_outer_nat]
    by_cases hi : i < size_add n 1
    · rw [if_pos hi, if_pos hi, alternate_inner_wrap]
      cases alternate_inner_nat (size_sub (size_mul 2 n) 1) inner_fuel (i % 2) d s with
      | error e => rfl
      | ok p =>
        obtain ⟨d1, s1⟩ := p
        exact ih _ d1 s1
    · rw [if_neg hi, if_neg hi]
      rfl

theorem lawnmower_outer_wrap (n inner_fuel : Nat) :
    ∀ (fuel i : Nat) (d : disk_state) (s : Nat),
      lawnmower_outer n inner_fuel fuel i d (wrap_int s) =
        wrap_state (lawnmower_outer_nat n inner_fuel fuel i d s) := by
  intro fuel
  induction fuel with
  | zero => intro i d s; rfl
  | succ fuel ih =>
    intro i d s
    rw [lawnmower_outer, lawnmower_outer_nat]
    by_cases hi : i < size_add n 1 / 2
    · rw [if_pos hi, if_pos hi, lawnmower_right_wrap]
      cases lawnmower_right_nat (size_sub (size_mul 2 n) 1) inner_fuel 0 d s with
      | error e => rfl
      | ok p =>
        obtain ⟨d1, s1⟩ := p
        simp only [wrap_state]
        rw [lawnmower_left_wrap]
        cases lawnmower_left_nat inner_fuel (size_sub (size_mul 2 n) 1) d1 s1 with
        | error e => rfl
        | ok p2 =>
          obtain ⟨d2, s2⟩ := p2
          exact ih _ d2 s2
    · rw [if_neg hi, if_neg hi]
      rfl

/-- The result of `sort_alternate` is the final row of the run with the number of swaps
reduced modulo `2 ^ 32`. -/
theorem sort_alternate_eq (d : disk_state) :
    sort_alternate d = unsigned_result (sort_alternate_nat d) := by
  unfold sort_alternate sort_alternate_nat
  simp only []
  have h := alternate_outer_wrap d.light_count (d.total_count + 2) (d.light_count + 2) 0 d 0
  rw [wrap_int_zero] at h
  rw [h]
  cases alternate_outer_nat d.light_count (d.total_count + 2) (d.light_count + 2) 0 d 0 with
  | error e => rfl
  | ok p =>
    obtain ⟨d1, s1⟩ := p
    simp only [wrap_state, unsigned_result, int_to_unsigned_wrap_int]

/-- The result of `sort_lawnmower` is the final row of the run with the number of swaps
reduced modulo `2 ^ 32`. -/
theorem sort_lawnmower_eq (d : disk_state) :
    sort_lawnmower d = unsigned_result (sort_lawnmower_nat d) := by
  unfold sort_lawnmower sort_lawnmower_nat
  simp only []
  have h := lawnmower_outer_wrap d.light_count (d.total_count + 2) (d.light_count + 2) 0 d 0
  rw [wrap_int_zero] at h
  rw [h]
  cases lawnmower_outer_nat d.light_count (d.total_count + 2) (d.light_count + 2) 0 d 0 with
  | error e => rfl
  | ok p =>
    obtain ⟨d1, s1⟩ := p
    simp only [wrap_state, unsigned_result, int_to_unsigned_wrap_int]

theorem sort_alternate_of_nat {d d1 : disk_state} {s : Nat}
    (h : sort_alternate_nat d = .ok (d1, s)) : sort_alternate d = .ok ⟨d1, s % UINT_MOD⟩ := by
  rw [sort_alternate_eq, h]
  rfl

theorem sort_lawnmower_of_nat {d d1 : disk_state} {s : Nat}
    (h : sort_lawnmower_nat d = .ok (d1, s)) : sort_lawnmower d = .ok ⟨d1, s % UINT_MOD⟩ := by
  rw [sort_lawnmower_eq, h]
  rfl

theorem sort_alternate_to_nat {d : disk_state} {r : sorted_disks}
    (h : sort_alternate d = .ok r) :
    ∃ s, sort_alternate_nat d = .ok (r.after, s) ∧ r.swap_count = s % UINT_MOD := by
  rw [sort_alternate_eq] at h
  cases hn : sort_alternate_nat d with
  | error e => rw [hn] at h; cases h
  | ok p =>
    obtain ⟨d1, s1⟩ := p
    rw [hn] at h
    simp only [unsigned_result, Except.ok.injEq] at h
    subst h
    exact ⟨s1, rfl, rfl⟩

theorem sort_lawnmower_to_nat {d : disk_state} {r : sorted_disks}
    (h : sort_lawnmower d = .ok r) :
    ∃ s, sort_lawnmower_nat d = .ok (r.after, s) ∧ r.swap_count = s % UINT_MOD := by
  rw [sort_lawnmower_eq] at h
  cases hn : sort_lawnmower_nat d with
  | error e => rw [hn] at h; cases h
  | ok p =>
    obtain ⟨d1, s1⟩ := p
    rw [hn] at h
    simp only [unsigned_result, Except.ok.injEq] at h
    subst h
    exact ⟨s1, rfl, rfl⟩

/-! ## Counting the light disks of a prefix -/

theorem lights_before_le (f : Nat → disk_color) (m : Nat) : lights_before f m ≤ m := by
  induction m with
  | zero => simp [lights_before]
  | succ m ih =>
    rw [lights_before]
    split_ifs <;> omega

theorem lights_before_succ_le (f : Nat → disk_color) (m : Nat) :
    lights_before f (m + 1) ≤ lights_before f m + 1 := by
  rw [lights_before]
  split_ifs <;> omega

theorem lights_before_mono (f : Nat → disk_color) {m m2 : Nat} (h : m ≤ m2) :
    lights_before f m ≤ lights_before f m2 := by
  induction m2 with
  | zero =>
    have : m = 0 := by omega
    subst this
    exact Nat.le_refl _
  | succ k ih =>
    rcases Nat.eq_or_lt_of_le h with h1 | h1
    · rw [h1]
    · have := ih (by omega)
      rw [lights_before]
      omega

theorem lights_before_congr {f g : Nat → disk_color} {m : Nat} (h : ∀ p, p < m → f p = g p) :
    lights_before f m = lights_before g m := by
  induction m with
  | zero => rfl
  | succ m ih =>
    rw [lights_before, lights_before, ih (fun p hp => h p (by omega)), h m (by omega)]

theorem lights_before_all {f : Nat → disk_color} {m : Nat} (h : ∀ p, p < m → f p = DISK_LIGHT) :
    lights_before f m = m := by
  induction m with
  | zero => rfl
  | succ m ih =>
    rw [lights_before, ih (fun p hp => h p (by omega)), h m (by omega)]
    simp

theorem lights_before_eq_all {f : Nat → disk_color} {m : Nat} (h : lights_before f m = m) :
    ∀ p, p < m → f p = DISK_LIGHT := by
  induction m with
  | zero => intro p hp; omega
  | succ m ih =>
    intro p hp
    rw [lights_before] at h
    have hle := lights_before_le f m
    by_cases hm : f m = DISK_LIGHT
    · rw [if_pos hm] at h
      rcases Nat.eq_or_lt_of_le (Nat.lt_succ_iff.mp hp) with h1 | h1
      · rw [h1]; exact hm
      · exact ih (by omega) p h1
    · rw [if_neg hm] at h
      omega

theorem lights_before_dark {f : Nat → disk_color} {a m : Nat} (ham : a ≤ m)
    (h : lights_before f m = lights_before f a) : ∀ p, a ≤ p → p < m → f p = DISK_DARK := by
  induction m with
  | zero => intro p _ hp; omega
  | succ m ih =>
    intro p hap hp
    rcases Nat.eq_or_lt_of_le ham with h1 | h1
    · omega
    · have hmono := lights_before_mono f (by omega : a ≤ m)
      rw [lights_before] at h
      by_cases hm : f m = DISK_LIGHT
      · rw [if_pos hm] at h
        omega
      · rw [if_neg hm] at h
        rcases Nat.eq_or_lt_of_le (Nat.lt_succ_iff.mp hp) with h2 | h2
        · rw [h2]
          cases hc : f m with
          | DISK_LIGHT => exact absurd hc hm
          | DISK_DARK => rfl
        · exact ih (by omega) (by omega) p hap h2

theorem lights_before_of_dark {f : Nat → disk_color} {a m : Nat} (ham : a ≤ m)
    (h : ∀ p, a ≤ p → p < m → f p = DISK_DARK) : lights_before f m = lights_before f a := by
  induction m with
  | zero =>
    have : a = 0 := by omega
    rw [this]
  | succ m ih =>
    rcases Nat.eq_or_lt_of_le ham with h1 | h1
    · rw [h1]
    · rw [lights_before, ih (by omega) (fun p h2 h3 => h p h2 (by omega)),
        h m (by omega) (by omega)]
      simp

/-- Colours moved one place to the left: the light disks of `g` in `[a, m)` are those of
`f` in `[a + 1, m + 1)`. -/
theorem lights_before_shift {f g : Nat → disk_color} {a m : Nat} (ham : a ≤ m)
    (h : ∀ p, a ≤ p → p < m → g p = f (p + 1)) :
    lights_before g m + lights_before f (a + 1) = lights_before f (m + 1) + lights_before g a := by
  induction m with
  | zero =>
    have : a = 0 := by omega
    rw [this]
    omega
  | succ m ih =>
    rcases Nat.eq_or_lt_of_le ham with h1 | h1
    · rw [h1]
      omega
    · have := ih (by omega) (fun p h2 h3 => h p h2 (by omega))
      have e1 : lights_before g (m + 1) =
          lights_before g m + (if g m = DISK_LIGHT then 1 else 0) := rfl
      have e2 : lights_before f (m + 1 + 1) =
          lights_before f (m + 1) + (if f (m + 1) = DISK_LIGHT then 1 else 0) := rfl
      rw [e1, e2, h m (by omega) (by omega)]
      omega

theorem count_map_range (f : Nat → disk_color) (len : Nat) :
    ((List.range len).map f).count DISK_LIGHT = lights_before f len := by
  induction len with
  | zero => rfl
  | succ len ih =>
    rw [List.range_succ, List.map_append, List.count_append, ih, lights_before]
    simp only [List.map_cons, List.map_nil, List.count_cons, List.count_nil, beq_iff_eq]
    omega

theorem count_row_of (len : Nat) (f : Nat → disk_color) :
    (row_of len f)._colors.count DISK_LIGHT = lights_before f len :=
  count_map_range f len

theorem count_take_row_of {len m : Nat} (f : Nat → disk_color) (h : m ≤ len) :
    ((row_of len f)._colors.take m).count DISK_LIGHT = lights_before f m := by
  unfold row_of
  simp only []
  rw [← List.map_take, List.take_range, Nat.min_eq_left h]
  exact count_map_range f m

theorem count_take_coloring (d : disk_state) {m : Nat} (h : m ≤ d.total_count) :
    (d._colors.take m).count DISK_LIGHT = lights_before (coloring d) m := by
  have := count_take_row_of (coloring d) h
  rw [row_of_coloring] at this
  exact this

theorem count_coloring (d : disk_state) :
    d._colors.count DISK_LIGHT = lights_before (coloring d) d.total_count := by
  have := count_row_of d.total_count (coloring d)
  rw [row_of_coloring] at this
  exact this

/-! ## One pass of `sort_alternate` on any row -/

theorem dark_of_not_light {c : disk_color} (h : c ≠ DISK_LIGHT) : c = DISK_DARK := by
  cases c with
  | DISK_LIGHT => exact absurd rfl h
  | DISK_DARK => rfl

theorem alt_mix_step_swap {len parity : Nat} {f : Nat → disk_color} {j : Nat}
    (hj : j % 2 = parity % 2) (h1 : j + 1 < len) (hd : f j = DISK_DARK)
    (hl : f (j + 1) = DISK_LIGHT) (p : Nat) :
    exch (alt_mix len parity f j) j p = alt_mix len parity f (j + 2) p := by
  unfold exch alt_mix
  by_cases hpj : p = j
  · subst hpj
    rw [if_pos rfl, if_neg (by omega : ¬ p + 1 < p), if_pos (by omega : p < p + 2)]
    unfold alt_pass
    rw [if_pos hj, if_pos ⟨h1, hd, hl⟩]
    exact hl
  · rw [if_neg hpj]
    by_cases hp1 : p = j + 1
    · subst hp1
      rw [if_pos rfl, if_neg (Nat.lt_irrefl j), if_pos (by omega : j + 1 < j + 2)]
      unfold alt_pass
      rw [if_neg (by omega : ¬ (j + 1) % 2 = parity % 2),
        if_pos (by refine ⟨by omega, h1, ?_, hl⟩; exact hd)]
      exact hd
    · rw [if_neg hp1]
      by_cases hlt : p < j
      · rw [if_pos hlt, if_pos (by omega : p < j + 2)]
      · rw [if_neg hlt, if_neg (by omega : ¬ p < j + 2)]

theorem alt_mix_step_keep {len parity : Nat} {f : Nat → disk_color} {j : Nat}
    (hj : j % 2 = parity % 2) (h : ¬ (f j = DISK_DARK ∧ f (j + 1) = DISK_LIGHT)) (p : Nat) :
    alt_mix len parity f j p = alt_mix len parity f (j + 2) p := by
  unfold alt_mix
  by_cases hpj : p = j
  · subst hpj
    rw [if_neg (Nat.lt_irrefl p), if_pos (by omega : p < p + 2)]
    unfold alt_pass
    rw [if_pos hj, if_neg (fun hc => h hc.2)]
  · by_cases hp1 : p = j + 1
    · subst hp1
      rw [if_neg (by omega : ¬ j + 1 < j), if_pos (by omega : j + 1 < j + 2)]
      unfold alt_pass
      rw [if_neg (by omega : ¬ (j + 1) % 2 = parity % 2), if_neg (fun hc => h hc.2.2)]
    · by_cases hlt : p < j
      · rw [if_pos hlt, if_pos (by omega : p < j + 2)]
      · rw [if_neg hlt, if_neg (by omega : ¬ p < j + 2)]

theorem alt_mix_end {len parity : Nat} {f : Nat → disk_color} {j : Nat}
    (hj : j % 2 = parity % 2) (h : len ≤ j + 1) (p : Nat) (hp : p < len) :
    alt_mix len parity f j p = alt_pass len parity f p := by
  unfold alt_mix
  by_cases hlt : p < j
  · rw [if_pos hlt]
  · rw [if_neg hlt]
    have hpj : p = j := by omega
    subst hpj
    unfold alt_pass
    rw [if_pos hj, if_neg (fun hc => by omega)]

theorem alt_mix_start {len parity : Nat} {f : Nat → disk_color} (p : Nat) :
    alt_mix len parity f (parity % 2) p = f p := by
  unfold alt_mix
  by_cases hlt : p < parity % 2
  · rw [if_pos hlt]
    have hp0 : p = 0 := by omega
    subst hp0
    unfold alt_pass
    rw [if_neg (by omega : ¬ 0 % 2 = parity % 2), if_neg (fun hc => by omega)]
  · rw [if_neg hlt]

/-- The inner loop of `sort_alternate` from the index `j` on, on any row. -/
theorem alternate_inner_mix {len : Nat} (hlen : len < SIZE_MOD) (parity : Nat)
    (f : Nat → disk_color) :
    ∀ (fuel j s : Nat), j % 2 = parity % 2 → len - 1 - j < fuel →
      ∃ t, alternate_inner_nat (len - 1) fuel j (row_of len (alt_mix len parity f j)) s =
        .ok (row_of len (alt_pass len parity f), t) := by
  intro fuel
  induction fuel with
  | zero => intro j s _ h; omega
  | succ fuel ih =>
    intro j s hj h
    rw [alternate_inner_nat]
    by_cases hjb : j < len - 1
    · rw [if_pos hjb, swap_right_step_row_of _ (by omega) hlen s,
        size_add_eq (by omega : j + 2 < SIZE_MOD)]
      have e1 : alt_mix len parity f j j = f j := by
        unfold alt_mix
        rw [if_neg (Nat.lt_irrefl j)]
      have e2 : alt_mix len parity f j (j + 1) = f (j + 1) := by
        unfold alt_mix
        rw [if_neg (by omega : ¬ j + 1 < j)]
      rw [e1, e2]
      by_cases hc : f j = DISK_DARK ∧ f (j + 1) = DISK_LIGHT
      · rw [if_pos hc]
        simp only []
        rw [row_of_congr (fun p _ => alt_mix_step_swap hj (by omega) hc.1 hc.2 p)]
        exact ih (j + 2) (s + 1) (by omega) (by omega)
      · rw [if_neg hc]
        simp only []
        rw [row_of_congr (fun p _ => @alt_mix_step_keep len parity f j hj hc p)]
        exact ih (j + 2) s (by omega) (by omega)
    · rw [if_neg hjb]
      refine ⟨s, ?_⟩
      rw [row_of_congr (fun p hp => alt_mix_end hj (by omega) p hp)]

/-- One pass of the inner loop of `sort_alternate` on any row. -/
theorem alternate_inner_alt_pass {len : Nat} (hlen : len < SIZE_MOD) (i : Nat)
    (f : Nat → disk_color) (fuel s : Nat) (hf : len < fuel) :
    ∃ t, alternate_inner_nat (len - 1) fuel (i % 2) (row_of len f) s =
      .ok (row_of len (alt_pass len i f), t) := by
  have h := alternate_inner_mix hlen i f fuel (i % 2) s (by omega) (by omega)
  rw [row_of_congr (fun p _ => @alt_mix_start len i f p)] at h
  exact h

/-- The outer loop of `sort_alternate` on any row of `2 * n` disks. -/
theorem alternate_outer_iter {n : Nat} (hn : 0 < n) (h2 : 2 * n < SIZE_MOD)
    (f : Nat → disk_color) :
    ∀ (fuel i s : Nat), n + 1 - i < fuel → i ≤ n + 1 →
      ∃ t, alternate_outer_nat n (2 * n + 2) fuel i (row_of (2 * n) (alt_iter (2 * n) f i)) s =
        .ok (row_of (2 * n) (alt_iter (2 * n) f (n + 1)), t) := by
  have hM := SIZE_MOD_eq
  intro fuel
  induction fuel with
  | zero => intro i s h; omega
  | succ fuel ih =>
    intro i s h hi
    rw [alternate_outer_nat, size_add_eq (by omega : n + 1 < SIZE_MOD), sweep_bound_eq hn h2]
    by_cases hlt : i < n + 1
    · rw [if_pos hlt]
      obtain ⟨t, ht⟩ := alternate_inner_alt_pass h2 i (alt_iter (2 * n) f i) (2 * n + 2) s
        (by omega)
      rw [ht]
      simp only []
      rw [size_add_eq (by omega : i + 1 < SIZE_MOD)]
      exact ih (i + 1) t (by omega) (by omega)
    · rw [if_neg hlt]
      have : i = n + 1 := by omega
      subst this
      exact ⟨s, rfl⟩

/-- The row that `sort_alternate` returns on a row of `2 * n` disks: the colouring after
`n + 1` passes. -/
theorem sort_alternate_nat_iter {n : Nat} (hn : 0 < n) (h2 : 2 * n < SIZE_MOD)
    (f : Nat → disk_color) :
    ∃ t, sort_alternate_nat (row_of (2 * n) f) =
      .ok (row_of (2 * n) (alt_iter (2 * n) f (n + 1)), t) := by
  have e1 : (row_of (2 * n) f).total_count = 2 * n := total_count_row_of _ _
  have e2 : (row_of (2 * n) f).light_count = n := by
    unfold disk_state.light_count
    rw [e1]
    omega
  obtain ⟨t, ht⟩ := alternate_outer_iter hn h2 f (n + 2) 0 0 (by omega) (by omega)
  refine ⟨t, ?_⟩
  unfold sort_alternate_nat
  simp only []
  rw [e1, e2]
  have e3 : alt_iter (2 * n) f 0 = f := rfl
  rw [e3] at ht
  rw [ht]

/-! ## The light disks of a prefix after a pass of `sort_alternate` -/

theorem alt_pass_left {len parity : Nat} (f : Nat → disk_color) {m : Nat}
    (hm : m % 2 = parity % 2) :
    alt_pass len parity f m =
      if m + 1 < len ∧ f m = DISK_DARK ∧ f (m + 1) = DISK_LIGHT then DISK_LIGHT else f m := by
  unfold alt_pass
  rw [if_pos hm]

theorem alt_pass_right {len parity : Nat} (f : Nat → disk_color) {m : Nat}
    (hm : m % 2 = parity % 2) :
    alt_pass len parity f (m + 1) =
      if m + 1 < len ∧ f m = DISK_DARK ∧ f (m + 1) = DISK_LIGHT then DISK_DARK
      else f (m + 1) := by
  unfold alt_pass
  rw [if_neg (by omega : ¬ (m + 1) % 2 = parity % 2), Nat.add_sub_cancel]
  by_cases hc : m + 1 < len ∧ f m = DISK_DARK ∧ f (m + 1) = DISK_LIGHT
  · rw [if_pos hc]
    exact if_pos ⟨by omega, hc⟩
  · rw [if_neg hc]
    exact if_neg (fun h => hc h.2)

theorem alt_pass_pair {len parity : Nat} (f : Nat → disk_color) {m : Nat}
    (hm : m % 2 = parity % 2) :
    (if alt_pass len parity f m = DISK_LIGHT then 1 else 0) +
        (if alt_pass len parity f (m + 1) = DISK_LIGHT then 1 else 0) =
      (if f m = DISK_LIGHT then 1 else 0) + (if f (m + 1) = DISK_LIGHT then 1 else 0) := by
  rw [alt_pass_left f hm, alt_pass_right f hm]
  by_cases hc : m + 1 < len ∧ f m = DISK_DARK ∧ f (m + 1) = DISK_LIGHT
  · rw [if_pos hc, if_pos hc, hc.2.1, hc.2.2]
    simp
  · rw [if_neg hc, if_neg hc]

/-- A pass that starts at `parity % 2` keeps the number of light disks of every prefix
whose length has that parity: no visited pair lies across its end. -/
theorem alt_pass_prefix_even {len parity : Nat} (f : Nat → disk_color) :
    ∀ a, lights_before (alt_pass len parity f) (parity % 2 + 2 * a) =
      lights_before f (parity % 2 + 2 * a) := by
  intro a
  induction a with
  | zero =>
    rcases Nat.mod_two_eq_zero_or_one parity with h | h
    · rw [h]
      rfl
    · rw [h]
      show lights_before (alt_pass len parity f) 0 +
          (if alt_pass len parity f 0 = DISK_LIGHT then 1 else 0) =
        lights_before f 0 + (if f 0 = DISK_LIGHT then 1 else 0)
      have e : alt_pass len parity f 0 = f 0 := by
        unfold alt_pass
        rw [if_neg (by omega : ¬ 0 % 2 = parity % 2), if_neg (fun hc => by omega)]
      rw [e]
      rfl
  | succ a ih =>
    have e : parity % 2 + 2 * (a + 1) = (parity % 2 + 2 * a) + 1 + 1 := by omega
    rw [e]
    have hp := @alt_pass_pair len parity f (parity % 2 + 2 * a) (by omega)
    have e1 : ∀ g : Nat → disk_color, lights_before g (parity % 2 + 2 * a + 1 + 1) =
        lights_before g (parity % 2 + 2 * a) +
          (if g (parity % 2 + 2 * a) = DISK_LIGHT then 1 else 0) +
          (if g (parity % 2 + 2 * a + 1) = DISK_LIGHT then 1 else 0) := fun g => rfl
    rw [e1, e1, ih]
    omega

theorem alt_pass_prefix_same {len parity : Nat} (f : Nat → disk_color) {m : Nat}
    (hm : m % 2 = parity % 2) :
    lights_before (alt_pass len parity f) m = lights_before f m := by
  have h := @alt_pass_prefix_even len parity f ((m - parity % 2) / 2)
  have e : parity % 2 + 2 * ((m - parity % 2) / 2) = m := by omega
  rw [e] at h
  exact h

/-- A pass that starts at `parity % 2` brings a light disk into a prefix whose length has
the other parity when the pair across its end holds one. -/
theorem alt_pass_prefix_odd {len parity : Nat} (f : Nat → disk_color) {m : Nat}
    (hm : m % 2 = parity % 2) :
    lights_before (alt_pass len parity f) (m + 1) =
      lights_before f m +
        (if f m = DISK_LIGHT ∨ (m + 1 < len ∧ f (m + 1) = DISK_LIGHT) then 1 else 0) := by
  have e1 : lights_before (alt_pass len parity f) (m + 1) =
      lights_before (alt_pass len parity f) m +
        (if alt_pass len parity f m = DISK_LIGHT then 1 else 0) := rfl
  rw [e1, alt_pass_prefix_same f hm]
  congr 1
  rw [alt_pass_left f hm]
  by_cases hc : m + 1 < len ∧ f m = DISK_DARK ∧ f (m + 1) = DISK_LIGHT
  · rw [if_pos hc, if_pos rfl, if_pos (Or.inr ⟨hc.1, hc.2.2⟩)]
  · rw [if_neg hc]
    by_cases hl : f m = DISK_LIGHT
    · rw [if_pos hl, if_pos (Or.inl hl)]
    · rw [if_neg hl, if_neg]
      rintro (h | h)
      · exact hl h
      · exact hc ⟨h.1, dark_of_not_light hl, h.2⟩

/-- No pass takes a light disk out of a prefix. -/
theorem alt_pass_prefix_le {len parity : Nat} (f : Nat → disk_color) (m : Nat) :
    lights_before f m ≤ lights_before (alt_pass len parity f) m := by
  by_cases hm : m % 2 = parity % 2
  · rw [alt_pass_prefix_same f hm]
  · rcases Nat.eq_zero_or_pos m with h0 | h0
    · rw [h0]
      exact Nat.le_refl _
    · obtain ⟨m0, rfl⟩ : ∃ m0, m = m0 + 1 := ⟨m - 1, by omega⟩
      rw [alt_pass_prefix_odd f (by omega : m0 % 2 = parity % 2)]
      have e1 : lights_before f (m0 + 1) =
          lights_before f m0 + (if f m0 = DISK_LIGHT then 1 else 0) := rfl
      rw [e1]
      by_cases hl : f m0 = DISK_LIGHT
      · rw [if_pos hl, if_pos (Or.inl hl)]
      · rw [if_neg hl]
        omega

/-- The passes bring the light disks forward: when the first `2 * j - min t j` disks hold
at least `j` light ones for every `j ≤ n`, then after the pass `t` the first
`2 * j - min (t + 1) j` disks do. -/
theorem alt_pass_upper {n t : Nat} {f : Nat → disk_color}
    (hI : ∀ j, j ≤ n → j ≤ lights_before f (2 * j - min t j)) :
    ∀ j, j ≤ n → j ≤ lights_before (alt_pass (2 * n) t f) (2 * j - min (t + 1) j) := by
  intro j hj
  by_cases hjt : j ≤ t
  · have h1 := hI j hj
    have e1 : 2 * j - min t j = j := by omega
    have e2 : 2 * j - min (t + 1) j = j := by omega
    rw [e1] at h1
    rw [e2]
    exact Nat.le_trans h1 (alt_pass_prefix_le f j)
  · have e2 : 2 * j - min (t + 1) j = (2 * j - t - 2) + 1 := by omega
    rw [e2, alt_pass_prefix_odd f (by omega : (2 * j - t - 2) % 2 = t % 2)]
    have h1 := hI (j - 1) (by omega)
    have e3 : 2 * (j - 1) - min t (j - 1) = 2 * j - t - 2 := by omega
    rw [e3] at h1
    have h2 := hI j hj
    have e4 : 2 * j - min t j = (2 * j - t - 2) + 1 + 1 := by omega
    rw [e4] at h2
    have e5 : lights_before f (2 * j - t - 2 + 1 + 1) =
        lights_before f (2 * j - t - 2) +
          (if f (2 * j - t - 2) = DISK_LIGHT then 1 else 0) +
          (if f (2 * j - t - 2 + 1) = DISK_LIGHT then 1 else 0) := rfl
    rw [e5] at h2
    by_cases hc : f (2 * j - t - 2) = DISK_LIGHT ∨
        (2 * j - t - 2 + 1 < 2 * n ∧ f (2 * j - t - 2 + 1) = DISK_LIGHT)
    · rw [if_pos hc]
      omega
    · rw [if_neg hc]
      have hc1 : ¬ f (2 * j - t - 2) = DISK_LIGHT := fun h => hc (Or.inl h)
      have hc2 : ¬ f (2 * j - t - 2 + 1) = DISK_LIGHT :=
        fun h => hc (Or.inr ⟨by omega, h⟩)
      rw [if_neg hc1, if_neg hc2] at h2
      omega

theorem alt_iter_upper {n : Nat} {f : Nat → disk_color}
    (h0 : ∀ j, j ≤ n → j ≤ lights_before f (2 * j)) :
    ∀ t j, j ≤ n → j ≤ lights_before (alt_iter (2 * n) f t) (2 * j - min t j) := by
  intro t
  induction t with
  | zero =>
    intro j hj
    have e : 2 * j - min 0 j = 2 * j := by omega
    rw [e]
    exact h0 j hj
  | succ t ih => exact alt_pass_upper ih

/-- The passes bring the light disks forward by one place each at most, and the pass `0`
does not reach across the end of a prefix of even length. -/
theorem alt_pass_lower {len t j0 : Nat} {f : Nat → disk_color} (hj0 : 0 < j0) (ht : 0 < t)
    (hK : ∀ j, j0 ≤ j → j + 1 ≤ j0 + t → lights_before f (2 * j + 1 - t) < j) :
    ∀ j, j0 ≤ j → j + 1 ≤ j0 + (t + 1) →
      lights_before (alt_pass len t f) (2 * j + 1 - (t + 1)) < j := by
  intro j hj hjt
  by_cases hsmall : 2 * j < t
  · have e : 2 * j + 1 - (t + 1) = 0 := by omega
    rw [e]
    show 0 < j
    omega
  · have e : 2 * j + 1 - (t + 1) = 2 * j - t := by omega
    rw [e, alt_pass_prefix_same f (by omega : (2 * j - t) % 2 = t % 2)]
    by_cases hlt : j + 1 ≤ j0 + t
    · have h1 := hK j hj hlt
      have h2 := lights_before_mono f (by omega : 2 * j - t ≤ 2 * j + 1 - t)
      omega
    · have h1 := hK (j - 1) (by omega) (by omega)
      have e2 : 2 * (j - 1) + 1 - t = 2 * j - t - 1 := by omega
      rw [e2] at h1
      have h2 := lights_before_succ_le f (2 * j - t - 1)
      have e3 : 2 * j - t - 1 + 1 = 2 * j - t := by omega
      rw [e3] at h2
      omega

theorem alt_iter_lower {len j0 : Nat} {f : Nat → disk_color}
    (h0 : lights_before f (2 * j0) < j0) :
    ∀ t j, j0 ≤ j → j + 1 ≤ j0 + (t + 1) →
      lights_before (alt_iter len f (t + 1)) (2 * j + 1 - (t + 1)) < j := by
  have hj0 : 0 < j0 := by omega
  intro t
  induction t with
  | zero =>
    intro j hj hjt
    have e : j = j0 := by omega
    subst e
    have e2 : 2 * j + 1 - (0 + 1) = 2 * j := by omega
    rw [e2]
    show lights_before (alt_pass len 0 f) (2 * j) < j
    rw [alt_pass_prefix_same f (by omega : (2 * j) % 2 = 0 % 2)]
    exact h0
  | succ t ih => exact alt_pass_lower hj0 (by omega) ih

/-! ## The rows that `sort_alternate` sorts -/

theorem light_prefixes_iff {r : disk_state} {n : Nat} (htot : r.total_count = 2 * n) :
    light_prefixes r ↔ ∀ j, j ≤ n → j ≤ lights_before (coloring r) (2 * j) := by
  have hl : r.light_count = n := by
    unfold disk_state.light_count
    rw [htot]
    omega
  unfold light_prefixes
  rw [hl]
  constructor
  · intro h j hj
    rw [← count_take_coloring r (by omega : 2 * j ≤ r.total_count)]
    exact h j hj
  · intro h j hj
    rw [count_take_coloring r (by omega : 2 * j ≤ r.total_count)]
    exact h j hj

theorem sort_alternate_nat_perm {r d1 : disk_state} {s : Nat} (hlen : r.total_count < SIZE_MOD)
    (h : sort_alternate_nat r = .ok (d1, s)) : d1._colors.Perm r._colors :=
  (@sort_alternate_inv (fun d _ => d._colors.Perm r._colors) r hlen
    (swap_inv_perm r.total_count hlen r._colors) (List.Perm.refl _) (d1, s) h).2

theorem sort_lawnmower_nat_perm {r d1 : disk_state} {s : Nat} (hlen : r.total_count < SIZE_MOD)
    (h : sort_lawnmower_nat r = .ok (d1, s)) : d1._colors.Perm r._colors :=
  (@sort_lawnmower_inv (fun d _ => d._colors.Perm r._colors) r hlen
    (swap_inv_perm r.total_count hlen r._colors) (List.Perm.refl _) (d1, s) h).2

/-- A row of `2 * n` disks with `n` light ones whose first `n` disks are light is in
sorted-blocks form. -/
theorem is_sorted_of_first_half {n : Nat} (h2 : 2 * n < SIZE_MOD) {F : Nat → disk_color}
    (htotal : lights_before F (2 * n) = n) (hfirst : n ≤ lights_before F n) :
    (row_of (2 * n) F).is_sorted = .ok true := by
  obtain ⟨b, hb, hiff⟩ := is_sorted_row_of F h2
  have e : 2 * n / 2 = n := by omega
  rw [e] at hiff
  have hn := lights_before_le F n
  have hb2 : b = true := by
    apply hiff.mpr
    refine ⟨lights_before_eq_all (by omega), ?_⟩
    exact lights_before_dark (by omega) (by omega)
  rw [hb, hb2]

theorem not_sorted_of_first_half {n : Nat} (h2 : 2 * n < SIZE_MOD) {F : Nat → disk_color}
    (hfirst : lights_before F n < n) :
    (row_of (2 * n) F).is_sorted = .ok false := by
  obtain ⟨b, hb, hiff⟩ := is_sorted_row_of F h2
  have e : 2 * n / 2 = n := by omega
  rw [e] at hiff
  have hb2 : b = false := by
    cases hbb : b with
    | false => rfl
    | true =>
      have := lights_before_all (hiff.mp hbb).1
      omega
  rw [hb, hb2]

/-- On a row of `n` light and `n` dark disks, the row returned by the `n + 1` passes of
`sort_alternate` is in sorted-blocks form exactly when every prefix of even length of the
input holds at least as many light as dark disks. -/
theorem sort_alternate_nat_sorted_iff (r : disk_state) (n : Nat) (hn : 0 < n)
    (htot : r.total_count = 2 * n) (h2 : 2 * n < SIZE_MOD)
    (hcount : r._colors.count DISK_LIGHT = n) :
    ∃ d1 s, sort_alternate_nat r = .ok (d1, s) ∧
      d1.is_sorted = .ok (decide (light_prefixes r)) := by
  obtain ⟨t, ht⟩ := sort_alternate_nat_iter hn h2 (coloring r)
  rw [← htot, row_of_coloring, htot] at ht
  refine ⟨_, t, ht, ?_⟩
  have hperm := sort_alternate_nat_perm (by omega) ht
  have htotal : lights_before (alt_iter (2 * n) (coloring r) (n + 1)) (2 * n) = n := by
    rw [← count_row_of, hperm.count_eq, hcount]
  by_cases hp : light_prefixes r
  · rw [decide_eq_true hp]
    have hup := alt_iter_upper ((light_prefixes_iff htot).mp hp) (n + 1) n (Nat.le_refl n)
    have e : 2 * n - min (n + 1) n = n := by omega
    rw [e] at hup
    exact is_sorted_of_first_half h2 htotal hup
  · rw [decide_eq_false hp]
    rw [light_prefixes_iff htot] at hp
    push_neg at hp
    obtain ⟨j0, hj0, hlt⟩ := hp
    have hlow := @alt_iter_lower (2 * n) j0 (coloring r) hlt n n hj0 (by omega)
    have e : 2 * n + 1 - (n + 1) = n := by omega
    rw [e] at hlow
    exact not_sorted_of_first_half h2 hlow

theorem sort_alternate_sorted_iff (r : disk_state) (n : Nat) (hn : 0 < n)
    (htot : r.total_count = 2 * n) (h2 : 2 * n < SIZE_MOD)
    (hcount : r._colors.count DISK_LIGHT = n) :
    ∃ res, sort_alternate r = .ok res ∧
      res.after.is_sorted = .ok (decide (light_prefixes r)) := by
  obtain ⟨d1, s, h1, h3⟩ := sort_alternate_nat_sorted_iff r n hn htot h2 hcount
  exact ⟨⟨d1, s % UINT_MOD⟩, sort_alternate_of_nat h1, h3⟩

/-! ## The first dark disk and the last light disk of a row -/

theorem first_dark_le (f : Nat → disk_color) (len : Nat) : first_dark f len ≤ len := by
  induction len with
  | zero => exact Nat.le_refl _
  | succ len ih =>
    rw [first_dark]
    split_ifs <;> omega

theorem first_dark_light (f : Nat → disk_color) (len : Nat) :
    ∀ p, p < first_dark f len → f p = DISK_LIGHT := by
  induction len with
  | zero => intro p hp; exact absurd hp (Nat.not_lt_zero _)
  | succ len ih =>
    intro p hp
    rw [first_dark] at hp
    have hle := first_dark_le f len
    by_cases h1 : first_dark f len < len
    · rw [if_pos h1] at hp
      exact ih p hp
    · rw [if_neg h1] at hp
      by_cases h2 : f len = DISK_DARK
      · rw [if_pos h2] at hp
        exact ih p (by omega)
      · rw [if_neg h2] at hp
        rcases Nat.eq_or_lt_of_le (Nat.lt_succ_iff.mp hp) with h3 | h3
        · rw [h3]
          cases hc : f len with
          | DISK_LIGHT => rfl
          | DISK_DARK => exact absurd hc h2
        · exact ih p (by omega)

theorem first_dark_dark (f : Nat → disk_color) (len : Nat) :
    first_dark f len < len → f (first_dark f len) = DISK_DARK := by
  induction len with
  | zero => intro h; exact absurd h (Nat.not_lt_zero _)
  | succ len ih =>
    intro h
    rw [first_dark] at h ⊢
    by_cases h1 : first_dark f len < len
    · rw [if_pos h1]
      exact ih h1
    · rw [if_neg h1] at h ⊢
      by_cases h2 : f len = DISK_DARK
      · rw [if_pos h2]
        exact h2
      · rw [if_neg h2] at h
        omega

theorem light_end_le (g : Nat → disk_color) (len : Nat) : light_end g len ≤ len := by
  induction len with
  | zero => exact Nat.le_refl _
  | succ len ih =>
    rw [light_end]
    split_ifs <;> omega

theorem light_end_dark (g : Nat → disk_color) (len : Nat) :
    ∀ p, light_end g len ≤ p → p < len → g p = DISK_DARK := by
  induction len with
  | zero => intro p _ hp; exact absurd hp (Nat.not_lt_zero _)
  | succ len ih =>
    intro p hp hlt
    rw [light_end] at hp
    by_cases h1 : g len = DISK_LIGHT
    · rw [if_pos h1] at hp
      omega
    · rw [if_neg h1] at hp
      rcases Nat.eq_or_lt_of_le (Nat.lt_succ_iff.mp hlt) with h3 | h3
      · rw [h3]
        exact dark_of_not_light h1
      · exact ih p hp h3

theorem light_end_light (g : Nat → disk_color) (len : Nat) :
    0 < light_end g len → g (light_end g len - 1) = DISK_LIGHT := by
  induction len with
  | zero => intro h; exact absurd h (Nat.lt_irrefl _)
  | succ len ih =>
    intro h
    rw [light_end] at h ⊢
    by_cases h1 : g len = DISK_LIGHT
    · rw [if_pos h1]
      exact h1
    · rw [if_neg h1] at h ⊢
      exact ih h

/-! ## The left-to-right sweep of `sort_lawnmower` on any row -/

theorem right_carry_self {len a : Nat} {f : Nat → disk_color} {j : Nat} :
    right_carry len a f j j = if a ≤ j then DISK_DARK else f j := by
  unfold right_carry
  rw [if_neg (Nat.lt_irrefl j), if_pos rfl]

theorem right_carry_next {len a : Nat} {f : Nat → disk_color} {j : Nat} :
    right_carry len a f j (j + 1) = f (j + 1) := by
  unfold right_carry
  rw [if_neg (by omega : ¬ j + 1 < j), if_neg (by omega : ¬ j + 1 = j)]

theorem right_carry_step_swap {len a : Nat} {f : Nat → disk_color} {j : Nat}
    (ha1 : ∀ p, p < a → f p = DISK_LIGHT) (h1 : j + 1 < len)
    (hd : (if a ≤ j then DISK_DARK else f j) = DISK_DARK) (p : Nat) :
    exch (right_carry len a f j) j p = right_carry len a f (j + 1) p := by
  have haj : a ≤ j := by
    by_cases h : a ≤ j
    · exact h
    · rw [if_neg h, ha1 j (by omega)] at hd
      cases hd
  unfold exch
  by_cases hpj : p = j
  · subst hpj
    rw [if_pos rfl, right_carry_next]
    unfold right_carry
    rw [if_pos (by omega : p < p + 1)]
    unfold right_sweep
    rw [if_neg (by omega : ¬ p < a), if_pos h1]
  · rw [if_neg hpj]
    by_cases hp1 : p = j + 1
    · subst hp1
      rw [if_pos rfl, right_carry_self, if_pos haj]
      unfold right_carry
      rw [if_neg (Nat.lt_irrefl _), if_pos rfl, if_pos (by omega : a ≤ j + 1)]
    · rw [if_neg hp1]
      unfold right_carry
      by_cases hlt : p < j
      · rw [if_pos hlt, if_pos (by omega : p < j + 1)]
      · rw [if_neg hlt, if_neg hpj, if_neg (by omega : ¬ p < j + 1), if_neg hp1]

theorem right_carry_step_keep {len a : Nat} {f : Nat → disk_color} {j : Nat}
    (ha2 : a < len → f a = DISK_DARK) (h1 : j + 1 < len)
    (hc : ¬ ((if a ≤ j then DISK_DARK else f j) = DISK_DARK ∧ f (j + 1) = DISK_LIGHT))
    (p : Nat) :
    right_carry len a f j p = right_carry len a f (j + 1) p := by
  by_cases hpj : p = j
  · subst hpj
    rw [right_carry_self]
    unfold right_carry
    rw [if_pos (by omega : p < p + 1)]
    unfold right_sweep
    by_cases h : a ≤ p
    · rw [if_pos h, if_neg (by omega : ¬ p < a), if_pos h1]
      rw [if_pos h] at hc
      exact (dark_of_not_light (fun hl => hc ⟨rfl, hl⟩)).symm
    · rw [if_neg h, if_pos (by omega : p < a)]
  · by_cases hp1 : p = j + 1
    · subst hp1
      rw [right_carry_next]
      unfold right_carry
      rw [if_neg (Nat.lt_irrefl _), if_pos rfl]
      by_cases h : a ≤ j + 1
      · rw [if_pos h]
        by_cases h2 : a ≤ j
        · rw [if_pos h2] at hc
          exact dark_of_not_light (fun hl => hc ⟨rfl, hl⟩)
        · have e : a = j + 1 := by omega
          rw [← e]
          exact ha2 (by omega)
      · rw [if_neg h]
    · unfold right_carry
      by_cases hlt : p < j
      · rw [if_pos hlt, if_pos (by omega : p < j + 1)]
      · rw [if_neg hlt, if_neg hpj, if_neg (by omega : ¬ p < j + 1), if_neg hp1]

theorem right_carry_end {len a : Nat} {f : Nat → disk_color} (hlen : 0 < len) (p : Nat)
    (hp : p < len) : right_carry len a f (len - 1) p = right_sweep len a f p := by
  unfold right_carry
  by_cases hlt : p < len - 1
  · rw [if_pos hlt]
  · have e : p = len - 1 := by omega
    rw [if_neg hlt, if_pos e]
    unfold right_sweep
    by_cases h : a ≤ len - 1
    · rw [if_pos h, if_neg (by omega : ¬ p < a), if_neg (by omega : ¬ p + 1 < len), if_pos hp]
    · rw [if_neg h, if_pos (by omega : p < a), e]

theorem right_carry_start {len a : Nat} {f : Nat → disk_color}
    (ha2 : a < len → f a = DISK_DARK) (hlen : 0 < len) (p : Nat) :
    right_carry len a f 0 p = f p := by
  unfold right_carry
  rw [if_neg (Nat.not_lt_zero p)]
  by_cases hp : p = 0
  · rw [if_pos hp, hp]
    by_cases h : a ≤ 0
    · rw [if_pos h]
      have e : a = 0 := by omega
      rw [e] at ha2
      exact (ha2 hlen).symm
    · rw [if_neg h]
  · rw [if_neg hp]

theorem lawnmower_right_carry {len : Nat} (hlen0 : 0 < len) (hlen : len < SIZE_MOD) (a : Nat)
    (f : Nat → disk_color) (ha1 : ∀ p, p < a → f p = DISK_LIGHT)
    (ha2 : a < len → f a = DISK_DARK) :
    ∀ (fuel j s : Nat), j ≤ len - 1 → len - 1 - j < fuel →
      ∃ t, lawnmower_right_nat (len - 1) fuel j (row_of len (right_carry len a f j)) s =
        .ok (row_of len (right_sweep len a f), t) := by
  intro fuel
  induction fuel with
  | zero => intro j s _ h; omega
  | succ fuel ih =>
    intro j s hj h
    rw [lawnmower_right_nat]
    by_cases hjb : j < len - 1
    · rw [if_pos hjb, swap_right_step_row_of _ (by omega) hlen s,
        size_add_eq (by omega : j + 1 < SIZE_MOD), right_carry_self, right_carry_next]
      by_cases hc : (if a ≤ j then DISK_DARK else f j) = DISK_DARK ∧ f (j + 1) = DISK_LIGHT
      · rw [if_pos hc]
        simp only []
        rw [row_of_congr (fun p _ => right_carry_step_swap ha1 (by omega) hc.1 p)]
        exact ih (j + 1) (s + 1) (by omega) (by omega)
      · rw [if_neg hc]
        simp only []
        rw [row_of_congr (fun p _ => right_carry_step_keep ha2 (by omega) hc p)]
        exact ih (j + 1) s (by omega) (by omega)
    · rw [if_neg hjb]
      have e : j = len - 1 := by omega
      subst e
      refine ⟨s, ?_⟩
      rw [row_of_congr (fun p hp => @right_carry_end len a f hlen0 p hp)]

/-- The left-to-right sweep of `sort_lawnmower` on any row. -/
theorem lawnmower_right_sweep {len : Nat} (hlen0 : 0 < len) (hlen : len < SIZE_MOD)
    (f : Nat → disk_color) (fuel s : Nat) (hf : len < fuel) :
    ∃ t, lawnmower_right_nat (len - 1) fuel 0 (row_of len f) s =
      .ok (row_of len (right_sweep len (first_dark f len) f), t) := by
  have h := lawnmower_right_carry hlen0 hlen (first_dark f len) f (first_dark_light f len)
    (first_dark_dark f len) fuel 0 s (by omega) (by omega)
  rw [row_of_congr (fun p _ => right_carry_start (first_dark_dark f len) hlen0 p)] at h
  exact h

/-! ## The right-to-left sweep of `sort_lawnmower` on any row -/

theorem left_carry_self {e : Nat} {g : Nat → disk_color} {j : Nat} :
    left_carry e g j j = if j < e then DISK_LIGHT else g j := by
  unfold left_carry
  rw [if_neg (Nat.lt_irrefl j), if_pos rfl]

theorem left_carry_prev {e : Nat} {g : Nat → disk_color} {j : Nat} (hj : 0 < j) :
    left_carry e g j (j - 1) = g (j - 1) := by
  unfold left_carry
  rw [if_neg (by omega : ¬ j < j - 1), if_neg (by omega : ¬ j - 1 = j)]

theorem left_carry_step_swap {len e : Nat} {g : Nat → disk_color} {j : Nat}
    (he1 : ∀ p, e ≤ p → p < len → g p = DISK_DARK) (hj0 : 0 < j) (hj : j < len)
    (hl : (if j < e then DISK_LIGHT else g j) = DISK_LIGHT) (hd : g (j - 1) = DISK_DARK)
    (p : Nat) :
    exch (left_carry e g j) (j - 1) p = left_carry e g (j - 1) p := by
  have hje : j < e := by
    by_cases h : j < e
    · exact h
    · rw [if_neg h, he1 j (by omega) hj] at hl
      cases hl
  have e1 : j - 1 + 1 = j := by omega
  unfold exch
  rw [e1]
  by_cases hpj : p = j - 1
  · subst hpj
    rw [if_pos rfl, left_carry_self, if_pos hje]
    unfold left_carry
    rw [if_neg (Nat.lt_irrefl _), if_pos rfl, if_pos (by omega : j - 1 < e)]
  · rw [if_neg hpj]
    by_cases hp1 : p = j
    · subst hp1
      rw [if_pos rfl, left_carry_prev hj0]
      unfold left_carry
      rw [if_pos (by omega : p - 1 < p)]
      unfold left_sweep
      rw [if_neg (by omega : ¬ e ≤ p), if_neg (by omega : ¬ p = 0)]
    · rw [if_neg hp1]
      unfold left_carry
      by_cases hlt : j < p
      · rw [if_pos hlt, if_pos (by omega : j - 1 < p)]
      · rw [if_neg hlt, if_neg hp1, if_neg (by omega : ¬ j - 1 < p), if_neg hpj]

theorem left_carry_step_keep {e : Nat} {g : Nat → disk_color} {j : Nat}
    (he2 : 0 < e → g (e - 1) = DISK_LIGHT) (hj0 : 0 < j)
    (hc : ¬ ((if j < e then DISK_LIGHT else g j) = DISK_LIGHT ∧ g (j - 1) = DISK_DARK))
    (p : Nat) :
    left_carry e g j p = left_carry e g (j - 1) p := by
  by_cases hpj : p = j
  · subst hpj
    rw [left_carry_self]
    unfold left_carry
    rw [if_pos (by omega : p - 1 < p)]
    unfold left_sweep
    by_cases h : p < e
    · rw [if_pos h, if_neg (by omega : ¬ e ≤ p), if_neg (by omega : ¬ p = 0)]
      rw [if_pos h] at hc
      cases hg : g (p - 1) with
      | DISK_LIGHT => rfl
      | DISK_DARK => exact absurd ⟨rfl, hg⟩ hc
    · rw [if_neg h, if_pos (by omega : e ≤ p)]
  · by_cases hp1 : p = j - 1
    · subst hp1
      rw [left_carry_prev hj0]
      unfold left_carry
      rw [if_neg (Nat.lt_irrefl _), if_pos rfl]
      by_cases h : j - 1 < e
      · rw [if_pos h]
        by_cases h2 : j < e
        · rw [if_pos h2] at hc
          cases hg : g (j - 1) with
          | DISK_LIGHT => rfl
          | DISK_DARK => exact absurd ⟨rfl, hg⟩ hc
        · have e3 : j = e := by omega
          rw [e3]
          exact he2 (by omega)
      · rw [if_neg h]
    · unfold left_carry
      by_cases hlt : j < p
      · rw [if_pos hlt, if_pos (by omega : j - 1 < p)]
      · rw [if_neg hlt, if_neg hpj, if_neg (by omega : ¬ j - 1 < p), if_neg hp1]

theorem left_carry_end {e : Nat} {g : Nat → disk_color} (p : Nat) :
    left_carry e g 0 p = left_sweep e g p := by
  unfold left_carry
  by_cases hp : 0 < p
  · rw [if_pos hp]
  · have e0 : p = 0 := by omega
    rw [if_neg hp, if_pos e0]
    unfold left_sweep
    by_cases h : 0 < e
    · rw [if_pos h, if_neg (by omega : ¬ e ≤ p), if_pos e0]
    · rw [if_neg h, if_pos (by omega : e ≤ p), e0]

theorem left_carry_start {len e : Nat} {g : Nat → disk_color} (hle : e ≤ len)
    (he2 : 0 < e → g (e - 1) = DISK_LIGHT) (p : Nat) (hp : p < len) :
    left_carry e g (len - 1) p = g p := by
  unfold left_carry
  rw [if_neg (by omega : ¬ len - 1 < p)]
  by_cases hpj : p = len - 1
  · rw [if_pos hpj]
    by_cases h : len - 1 < e
    · rw [if_pos h]
      have e3 : e - 1 = p := by omega
      rw [← e3]
      exact (he2 (by omega)).symm
    · rw [if_neg h, hpj]
  · rw [if_neg hpj]

theorem lawnmower_left_carry {len : Nat} (hlen : len < SIZE_MOD) (e : Nat)
    (g : Nat → disk_color) (he1 : ∀ p, e ≤ p → p < len → g p = DISK_DARK)
    (he2 : 0 < e → g (e - 1) = DISK_LIGHT) :
    ∀ (fuel j s : Nat), j < len → j < fuel →
      ∃ t, lawnmower_left_nat fuel j (row_of len (left_carry e g j)) s =
        .ok (row_of len (left_sweep e g), t) := by
  intro fuel
  induction fuel with
  | zero => intro j s _ h; omega
  | succ fuel ih =>
    intro j s hj h
    rw [lawnmower_left_nat]
    by_cases hj0 : j > 0
    · rw [if_pos hj0, swap_left_step_row_of _ hj0 hj hlen s,
        size_sub_eq (by omega : 1 ≤ j) (by omega : j < SIZE_MOD), left_carry_self,
        left_carry_prev hj0]
      by_cases hc : (if j < e then DISK_LIGHT else g j) = DISK_LIGHT ∧ g (j - 1) = DISK_DARK
      · rw [if_pos hc]
        simp only []
        rw [row_of_congr (fun p _ => left_carry_step_swap he1 hj0 hj hc.1 hc.2 p)]
        exact ih (j - 1) (s + 1) (by omega) (by omega)
      · rw [if_neg hc]
        simp only []
        rw [row_of_congr (fun p _ => left_carry_step_keep he2 hj0 hc p)]
        exact ih (j - 1) s (by omega) (by omega)
    · rw [if_neg hj0]
      have e0 : j = 0 := by omega
      subst e0
      refine ⟨s, ?_⟩
      rw [row_of_congr (fun p _ => @left_carry_end e g p)]

/-- The right-to-left sweep of `sort_lawnmower` on any row. -/
theorem lawnmower_left_sweep {len : Nat} (hlen0 : 0 < len) (hlen : len < SIZE_MOD)
    (g : Nat → disk_color) (fuel s : Nat) (hf : len < fuel) :
    ∃ t, lawnmower_left_nat fuel (len - 1) (row_of len g) s =
      .ok (row_of len (left_sweep (light_end g len) g), t) := by
  have h := lawnmower_left_carry hlen (light_end g len) g (light_end_dark g len)
    (light_end_light g len) fuel (len - 1) s (by omega) (by omega)
  rw [row_of_congr (fun p hp => left_carry_start (light_end_le g len)
    (light_end_light g len) p hp)] at h
  exact h

/-! ## The rounds of `sort_lawnmower` on any row -/

/-- One round of the outer loop of `sort_lawnmower` on any row of `2 * n` disks. -/
theorem lawnmower_outer_iter {n : Nat} (hn : 0 < n) (h2 : 2 * n < SIZE_MOD)
    (f : Nat → disk_color) :
    ∀ (fuel i s : Nat), (n + 1) / 2 - i < fuel → i ≤ (n + 1) / 2 →
      ∃ t, lawnmower_outer_nat n (2 * n + 2) fuel i
          (row_of (2 * n) (lawn_iter (2 * n) f i)) s =
        .ok (row_of (2 * n) (lawn_iter (2 * n) f ((n + 1) / 2)), t) := by
  have hM := SIZE_MOD_eq
  intro fuel
  induction fuel with
  | zero => intro i s h; omega
  | succ fuel ih =>
    intro i s h hi
    rw [lawnmower_outer_nat, size_add_eq (by omega : n + 1 < SIZE_MOD), sweep_bound_eq hn h2]
    by_cases hlt : i < (n + 1) / 2
    · rw [if_pos hlt]
      obtain ⟨t1, ht1⟩ := lawnmower_right_sweep (by omega : 0 < 2 * n) h2
        (lawn_iter (2 * n) f i) (2 * n + 2) s (by omega)
      rw [ht1]
      simp only []
      obtain ⟨t2, ht2⟩ := lawnmower_left_sweep (by omega : 0 < 2 * n) h2
        (right_sweep (2 * n) (first_dark (lawn_iter (2 * n) f i) (2 * n))
          (lawn_iter (2 * n) f i)) (2 * n + 2) t1 (by omega)
      rw [ht2]
      simp only []
      rw [size_add_eq (by omega : i + 1 < SIZE_MOD)]
      exact ih (i + 1) t2 (by omega) (by omega)
    · rw [if_neg hlt]
      have : i = (n + 1) / 2 := by omega
      subst this
      exact ⟨s, rfl⟩

/-- The row that `sort_lawnmower` returns on a row of `2 * n` disks: the colouring after
`(n + 1) / 2` rounds. -/
theorem sort_lawnmower_nat_iter {n : Nat} (hn : 0 < n) (h2 : 2 * n < SIZE_MOD)
    (f : Nat → disk_color) :
    ∃ t, sort_lawnmower_nat (row_of (2 * n) f) =
      .ok (row_of (2 * n) (lawn_iter (2 * n) f ((n + 1) / 2)), t) := by
  have e1 : (row_of (2 * n) f).total_count = 2 * n := total_count_row_of _ _
  have e2 : (row_of (2 * n) f).light_count = n := by
    unfold disk_state.light_count
    rw [e1]
    omega
  obtain ⟨t, ht⟩ := lawnmower_outer_iter hn h2 f (n + 2) 0 0 (by omega) (by omega)
  refine ⟨t, ?_⟩
  unfold sort_lawnmower_nat
  simp only []
  rw [e1, e2]
  have e3 : lawn_iter (2 * n) f 0 = f := rfl
  rw [e3] at ht
  rw [ht]

/-! ## The light disks of a prefix after a round of `sort_lawnmower` -/

theorem right_sweep_lights {len a : Nat} {f : Nat → disk_color}
    (ha1 : ∀ p, p < a → f p = DISK_LIGHT) (ha2 : a < len → f a = DISK_DARK) {m : Nat}
    (hm : m + 1 ≤ len) :
    min m (lights_before f (m + 1)) ≤ lights_before (right_sweep len a f) m := by
  by_cases hma : m ≤ a
  · have : lights_before (right_sweep len a f) m = m := by
      apply lights_before_all
      intro p hp
      unfold right_sweep
      rw [if_pos (by omega : p < a)]
      exact ha1 p (by omega)
    omega
  · have hshift := @lights_before_shift f (right_sweep len a f) a m (by omega) (by
      intro p hp1 hp2
      unfold right_sweep
      rw [if_neg (by omega : ¬ p < a), if_pos (by omega : p + 1 < len)])
    have h1 : lights_before (right_sweep len a f) a = a := by
      apply lights_before_all
      intro p hp
      unfold right_sweep
      rw [if_pos hp]
      exact ha1 p hp
    have h2 : lights_before f (a + 1) = a := by
      have e : lights_before f (a + 1) =
          lights_before f a + (if f a = DISK_LIGHT then 1 else 0) := rfl
      rw [e, lights_before_all ha1, ha2 (by omega)]
      simp
    omega

theorem right_sweep_total {len a : Nat} {f : Nat → disk_color} (hle : a ≤ len)
    (ha1 : ∀ p, p < a → f p = DISK_LIGHT) (ha2 : a < len → f a = DISK_DARK) :
    lights_before (right_sweep len a f) len = lights_before f len := by
  rcases Nat.eq_or_lt_of_le hle with h | h
  · apply lights_before_congr
    intro p hp
    unfold right_sweep
    rw [if_pos (by omega : p < a)]
  · obtain ⟨m, rfl⟩ : ∃ m, len = m + 1 := ⟨len - 1, by omega⟩
    have hshift := @lights_before_shift f (right_sweep (m + 1) a f) a m (by omega) (by
      intro p hp1 hp2
      unfold right_sweep
      rw [if_neg (by omega : ¬ p < a), if_pos (by omega : p + 1 < m + 1)])
    have h1 : lights_before (right_sweep (m + 1) a f) a = a := by
      apply lights_before_all
      intro p hp
      unfold right_sweep
      rw [if_pos hp]
      exact ha1 p hp
    have h2 : lights_before f (a + 1) = a := by
      have e : lights_before f (a + 1) =
          lights_before f a + (if f a = DISK_LIGHT then 1 else 0) := rfl
      rw [e, lights_before_all ha1, ha2 h]
      simp
    have h3 : lights_before (right_sweep (m + 1) a f) (m + 1) =
        lights_before (right_sweep (m + 1) a f) m := by
      have e : lights_before (right_sweep (m + 1) a f) (m + 1) =
          lights_before (right_sweep (m + 1) a f) m +
            (if right_sweep (m + 1) a f m = DISK_LIGHT then 1 else 0) := rfl
      have e2 : right_sweep (m + 1) a f m = DISK_DARK := by
        unfold right_sweep
        rw [if_neg (by omega : ¬ m < a), if_neg (by omega : ¬ m + 1 < m + 1),
          if_pos (by omega : m < m + 1)]
      rw [e, e2]
      simp
    omega

theorem left_sweep_at_end {len e : Nat} {g : Nat → disk_color} (hle : e ≤ len)
    (he2 : 0 < e → g (e - 1) = DISK_LIGHT) :
    lights_before (left_sweep e g) e = lights_before g e := by
  rcases Nat.eq_zero_or_pos e with h0 | h0
  · rw [h0]
    rfl
  · obtain ⟨m, rfl⟩ : ∃ m, e = m + 1 := ⟨e - 1, by omega⟩
    have hshift := @lights_before_shift (left_sweep (m + 1) g) g 0 m (by omega) (by
      intro p _ hp2
      unfold left_sweep
      rw [if_neg (by omega : ¬ m + 1 ≤ p + 1), if_neg (by omega : ¬ p + 1 = 0),
        Nat.add_sub_cancel])
    have h1 : lights_before (left_sweep (m + 1) g) (0 + 1) = 1 := by
      apply lights_before_all
      intro p hp
      unfold left_sweep
      rw [if_neg (by omega : ¬ m + 1 ≤ p), if_pos (by omega : p = 0)]
    have h2 : lights_before g (m + 1) = lights_before g m + 1 := by
      have e : lights_before g (m + 1) =
          lights_before g m + (if g m = DISK_LIGHT then 1 else 0) := rfl
      have e2 := he2 (by omega)
      rw [Nat.add_sub_cancel] at e2
      rw [e, e2]
      simp
    have h3 : lights_before g 0 = 0 := rfl
    omega

theorem left_sweep_lights {len e : Nat} {g : Nat → disk_color} (hle : e ≤ len)
    (he1 : ∀ p, e ≤ p → p < len → g p = DISK_DARK) (he2 : 0 < e → g (e - 1) = DISK_LIGHT)
    {m : Nat} (hm1 : 1 ≤ m) (hm : m ≤ len) :
    min (lights_before g len) (1 + lights_before g (m - 1)) ≤
      lights_before (left_sweep e g) m := by
  by_cases hme : m ≤ e
  · obtain ⟨k, rfl⟩ : ∃ k, m = k + 1 := ⟨m - 1, by omega⟩
    have hshift := @lights_before_shift (left_sweep e g) g 0 k (by omega) (by
      intro p _ hp2
      unfold left_sweep
      rw [if_neg (by omega : ¬ e ≤ p + 1), if_neg (by omega : ¬ p + 1 = 0),
        Nat.add_sub_cancel])
    have h1 : lights_before (left_sweep e g) (0 + 1) = 1 := by
      apply lights_before_all
      intro p hp
      unfold left_sweep
      rw [if_neg (by omega : ¬ e ≤ p), if_pos (by omega : p = 0)]
    have h3 : lights_before g 0 = 0 := rfl
    rw [Nat.add_sub_cancel]
    omega
  · have h1 := lights_before_mono (left_sweep e g) (by omega : e ≤ m)
    rw [left_sweep_at_end hle he2] at h1
    have h2 : lights_before g len = lights_before g e := lights_before_of_dark hle he1
    omega

theorem left_sweep_total {len e : Nat} {g : Nat → disk_color} (hle : e ≤ len)
    (he1 : ∀ p, e ≤ p → p < len → g p = DISK_DARK) (he2 : 0 < e → g (e - 1) = DISK_LIGHT) :
    lights_before (left_sweep e g) len = lights_before g len := by
  have h1 : lights_before (left_sweep e g) len = lights_before (left_sweep e g) e := by
    apply lights_before_of_dark hle
    intro p hp1 hp2
    unfold left_sweep
    rw [if_pos hp1]
    exact he1 p hp1 hp2
  have h2 : lights_before g len = lights_before g e := lights_before_of_dark hle he1
  rw [h1, h2]
  exact left_sweep_at_end hle he2

theorem lawn_round_total (len : Nat) (f : Nat → disk_color) :
    lights_before (lawn_round len f) len = lights_before f len := by
  unfold lawn_round
  rw [left_sweep_total (light_end_le _ len) (light_end_dark _ len) (light_end_light _ len),
    right_sweep_total (first_dark_le f len) (first_dark_light f len) (first_dark_dark f len)]

/-- A round of `sort_lawnmower` brings one more light disk into the first `n` places of a
row of `2 * n` disks with `n` light ones, until they are all light. -/
theorem lawn_round_progress {n : Nat} (hn : 0 < n) {f : Nat → disk_color}
    (htotal : lights_before f (2 * n) = n) :
    min n (lights_before f n + 1) ≤ lights_before (lawn_round (2 * n) f) n := by
  have hr := @right_sweep_lights (2 * n) (first_dark f (2 * n)) f (first_dark_light f _)
    (first_dark_dark f _) (n - 1) (by omega)
  have e : n - 1 + 1 = n := by omega
  rw [e] at hr
  have hl := @left_sweep_lights (2 * n)
    (light_end (right_sweep (2 * n) (first_dark f (2 * n)) f) (2 * n))
    (right_sweep (2 * n) (first_dark f (2 * n)) f) (light_end_le _ _) (light_end_dark _ _)
    (light_end_light _ _) n (by omega) (by omega)
  rw [right_sweep_total (first_dark_le f _) (first_dark_light f _) (first_dark_dark f _),
    htotal] at hl
  unfold lawn_round
  omega

theorem lawn_iter_progress {n : Nat} (hn : 0 < n) {f : Nat → disk_color}
    (htotal : lights_before f (2 * n) = n) :
    ∀ t, lights_before (lawn_iter (2 * n) f t) (2 * n) = n ∧
      min n (lights_before f n + t) ≤ lights_before (lawn_iter (2 * n) f t) n := by
  intro t
  induction t with
  | zero => exact ⟨htotal, Nat.min_le_right _ _⟩
  | succ t ih =>
    have h1 : lights_before (lawn_iter (2 * n) f (t + 1)) (2 * n) = n := by
      show lights_before (lawn_round (2 * n) (lawn_iter (2 * n) f t)) (2 * n) = n
      rw [lawn_round_total, ih.1]
    refine ⟨h1, ?_⟩
    have h2 := lawn_round_progress hn ih.1
    show min n (lights_before f n + (t + 1)) ≤
      lights_before (lawn_round (2 * n) (lawn_iter (2 * n) f t)) n
    omega

/-- The row returned by `sort_lawnmower` on a row of `n` light and `n` dark disks
in which every prefix of even length holds at least as many light as dark disks is in
sorted-blocks form. -/
theorem sort_lawnmower_nat_sorted (r : disk_state) (n : Nat) (hn : 0 < n)
    (htot : r.total_count = 2 * n) (h2 : 2 * n < SIZE_MOD)
    (hcount : r._colors.count DISK_LIGHT = n) (hp : light_prefixes r) :
    ∃ d1 s, sort_lawnmower_nat r = .ok (d1, s) ∧ d1.is_sorted = .ok true := by
  obtain ⟨t, ht⟩ := sort_lawnmower_nat_iter hn h2 (coloring r)
  rw [← htot, row_of_coloring, htot] at ht
  refine ⟨_, t, ht, ?_⟩
  have htotal : lights_before (coloring r) (2 * n) = n := by
    rw [← htot, ← count_coloring, hcount]
  obtain ⟨h1, h3⟩ := lawn_iter_progress hn htotal ((n + 1) / 2)
  have h4 := (light_prefixes_iff htot).mp hp (n / 2) (by omega)
  have h5 := lights_before_mono (coloring r) (by omega : 2 * (n / 2) ≤ n)
  exact is_sorted_of_first_half h2 h1 (by omega)

theorem sort_lawnmower_sorted_of_prefixes (r : disk_state) (n : Nat) (hn : 0 < n)
    (htot : r.total_count = 2 * n) (h2 : 2 * n < SIZE_MOD)
    (hcount : r._colors.count DISK_LIGHT = n) (hp : light_prefixes r) :
    ∃ res, sort_lawnmower r = .ok res ∧ res.after.is_sorted = .ok true := by
  obtain ⟨d1, s, h1, h3⟩ := sort_lawnmower_nat_sorted r n hn htot h2 hcount hp
  exact ⟨⟨d1, s % UINT_MOD⟩, sort_lawnmower_of_nat h1, h3⟩

/-! ## Rows in sorted-blocks form -/

theorem length_eq_counts (l : List disk_color) :
    l.length = l.count DISK_LIGHT + l.count DISK_DARK := by
  induction l with
  | nil => rfl
  | cons c rest ih =>
    cases c <;> simp [List.count_cons, ih] <;> omega

/-- A row of `2 * k` disks is in sorted-blocks form exactly when it is `k` light disks
followed by `k` dark disks. -/
theorem is_sorted_iff_blocks (d : disk_state) (k : Nat) (htot : d.total_count = 2 * k)
    (hlen : d.total_count < SIZE_MOD) :
    ∃ b, d.is_sorted = .ok b ∧
      (b = true ↔ (∀ i, i < k → d.get i = .ok DISK_LIGHT) ∧
        (∀ i, k ≤ i → i < 2 * k → d.get i = .ok DISK_DARK)) ∧
      (b = true ↔ d._colors = List.replicate k DISK_LIGHT ++ List.replicate k DISK_DARK) := by
  obtain ⟨b, hb, hiff⟩ := is_sorted_row_of (coloring d) hlen
  rw [row_of_coloring] at hb
  have hk : d.total_count / 2 = k := by omega
  rw [hk, htot] at hiff
  refine ⟨b, hb, ?_, ?_⟩
  · rw [hiff]
    constructor
    · rintro ⟨h1, h2⟩
      refine ⟨fun i hi => ?_, fun i hi1 hi2 => ?_⟩
      · rw [get_eq_coloring (by omega), h1 i hi]
      · rw [get_eq_coloring (by omega), h2 i hi1 hi2]
    · rintro ⟨h1, h2⟩
      refine ⟨fun i hi => ?_, fun i hi1 hi2 => ?_⟩
      · have := h1 i hi
        rw [get_eq_coloring (by omega)] at this
        exact Except.ok.inj this
      · have := h2 i hi1 hi2
        rw [get_eq_coloring (by omega)] at this
        exact Except.ok.inj this
  · rw [hiff]
    constructor
    · rintro ⟨h1, h2⟩
      have e : d = row_of (2 * k) (fun p => if p < k then DISK_LIGHT else DISK_DARK) := by
        rw [← row_of_coloring d, htot]
        apply row_of_congr
        intro p hp
        by_cases hpk : p < k
        · rw [if_pos hpk, h1 p hpk]
        · rw [if_neg hpk, h2 p (by omega) hp]
      rw [e, row_of_blocks]
    · intro h
      have e : d = row_of (2 * k) (fun p => if p < k then DISK_LIGHT else DISK_DARK) := by
        rw [row_of_blocks]
        cases d
        simp only at h
        rw [h]
      refine ⟨fun p hp => ?_, fun p hp1 hp2 => ?_⟩
      · rw [e, coloring_row_of _ (by omega), if_pos hp]
      · rw [e, coloring_row_of _ hp2, if_neg (by omega)]

theorem sorted_eq_blocks {d : disk_state} {k : Nat} (htot : d.total_count = 2 * k)
    (hlen : d.total_count < SIZE_MOD) (hs : d.is_sorted = .ok true) :
    d = ⟨List.replicate k DISK_LIGHT ++ List.replicate k DISK_DARK⟩ := by
  obtain ⟨b, hb, _, hiff⟩ := is_sorted_iff_blocks d k htot hlen
  rw [hs] at hb
  have hb2 : b = true := (Except.ok.inj hb).symm
  have := hiff.mp hb2
  cases d
  simp only at this
  rw [this]

/-! ## The runs on the fresh row -/

theorem stage_row_total_count (n c : Nat) : (stage_row n c).total_count = 2 * n :=
  total_count_row_of _ _

theorem stage_row_light_count (n c : Nat) : (stage_row n c).light_count = n := by
  unfold disk_state.light_count
  rw [stage_row_total_count]
  omega

theorem size_mul_two_even (k : Nat) : size_mul k 2 % 2 = 0 := by
  unfold size_mul SIZE_MOD
  omega

/-- The row that the constructor returns, whatever light count it was given: the
alternating row of `light_count * 2` disks, the product taken in `size_t`. -/
theorem ctor_ok_row {k : Nat} {d : disk_state} (h : disk_state.ctor k = .ok d) :
    d.total_count = size_mul k 2 ∧
      ∀ i, i < d.total_count →
        d.get i = .ok (if i % 2 = 0 then DISK_LIGHT else DISK_DARK) := by
  obtain ⟨_, _, hshape⟩ := ctor_ok_shape h
  have hev := size_mul_two_even k
  have e1 : d.total_count = size_mul k 2 := by
    rw [hshape, stage_row_total_count]
    omega
  refine ⟨e1, ?_⟩
  intro i hi
  rw [e1] at hi
  rw [hshape, stage_row, get_row_of _ (by omega)]
  congr 1
  rw [color_eq_iff, stage_dark_iff_le (Nat.zero_le _), ite_light_dark_iff]
  simp only [eq_self_iff_true, and_true]
  omega

/-- On a row that the constructor returns, `is_initialized()` is true, and `is_sorted()` is
true exactly when the row has at most two disks. -/
theorem ctor_ok_predicates {k : Nat} {d : disk_state} (h : disk_state.ctor k = .ok d) :
    d.is_initialized = .ok true ∧ d.is_sorted = .ok (decide (d.total_count ≤ 2)) := by
  obtain ⟨_, _, hshape⟩ := ctor_ok_shape h
  have hb := size_mul_half_bound k
  rw [hshape]
  refine ⟨is_initialized_stage_zero hb, ?_⟩
  rw [stage_row_total_count]
  rcases Nat.lt_or_ge 1 (size_mul k 2 / 2) with h1 | h1
  · rw [is_sorted_stage_zero h1 hb, decide_eq_false (by omega)]
  · rw [decide_eq_true (by omega)]
    rcases Nat.eq_zero_or_pos (size_mul k 2 / 2) with h0 | h0
    · rw [h0]
      decide
    · have e : size_mul k 2 / 2 = 1 := by omega
      rw [e, stage_row_one]
      exact is_sorted_stage_full (by rw [SIZE_MOD_eq]; omega)

theorem sort_alternate_empty : sort_alternate ⟨[]⟩ = .error .assertion := by decide

theorem sort_lawnmower_empty : sort_lawnmower ⟨[]⟩ = .ok ⟨⟨[]⟩, 0⟩ := by decide

theorem half_size_mul_le (k : Nat) : size_mul k 2 / 2 ≤ k := by
  have hM := SIZE_MOD_eq
  have : size_mul k 2 ≤ k * 2 := by
    unfold size_mul
    exact Nat.mod_le _ _
  omega

/-- Whatever light count the constructor is given, a row it returns is an alternating row
of some `m ≤ k` light and `m` dark disks; when `sort_alternate` returns on it, `m > 0` and
the result is the sorted row with `0 + 1 + ... + (m - 1)` swaps, counted modulo
`2 ^ 32`. -/
theorem fresh_sort_alternate {k : Nat} {d : disk_state} {ra : sorted_disks}
    (hd : disk_state.ctor k = .ok d) (ha : sort_alternate d = .ok ra) :
    ∃ m, 0 < m ∧ m ≤ k ∧ 2 * m < SIZE_MOD ∧ d = stage_row m 0 ∧
      ra = ⟨stage_row m m, triangle m % UINT_MOD⟩ := by
  obtain ⟨_, _, hshape⟩ := ctor_ok_shape hd
  have hb := size_mul_half_bound k
  rcases Nat.eq_zero_or_pos (size_mul k 2 / 2) with h0 | hpos
  · rw [hshape, h0, stage_row_zero_zero, sort_alternate_empty] at ha
    cases ha
  · refine ⟨size_mul k 2 / 2, hpos, half_size_mul_le k, hb, hshape, ?_⟩
    rw [hshape, sort_alternate_of_nat (sort_alternate_stage hpos hb)] at ha
    exact (Except.ok.inj ha).symm

theorem fresh_sort_lawnmower {m : Nat} (hm : 0 < m) (h2 : 2 * m < SIZE_MOD) :
    sort_lawnmower (stage_row m 0) = .ok ⟨stage_row m m, triangle m % UINT_MOD⟩ :=
  sort_lawnmower_of_nat (sort_lawnmower_stage hm h2)

theorem sort_alternate_nat_empty : sort_alternate_nat ⟨[]⟩ = .error .assertion := by decide

theorem triangle_mono {m k : Nat} (h : m ≤ k) : triangle m ≤ triangle k := by
  induction k with
  | zero =>
    have : m = 0 := by omega
    rw [this]
  | succ k ih =>
    rcases Nat.eq_or_lt_of_le h with h1 | h1
    · rw [h1]
    · have := ih (by omega)
      rw [triangle]
      omega

theorem triangle_strict {m k : Nat} (hm : 0 < m) (h : m < k) : triangle m < triangle k := by
  have h1 : triangle (m + 1) ≤ triangle k := triangle_mono (by omega)
  rw [triangle] at h1
  omega

/-- The number of swaps of `sort_alternate` on a row that the constructor returned for the
light count `k` is `k * (k - 1) / 2` only if the row has `2 * k` disks. -/
theorem fresh_count_exact {k : Nat} {d a : disk_state} (hd : disk_state.ctor k = .ok d)
    (ha : sort_alternate_nat d = .ok (a, k * (k - 1) / 2)) : 2 * k ≤ MAX_SIZE := by
  obtain ⟨_, hmax, hshape⟩ := ctor_ok_shape hd
  have hb := size_mul_half_bound k
  have hev := size_mul_two_even k
  have hle := half_size_mul_le k
  rcases Nat.eq_zero_or_pos (size_mul k 2 / 2) with h0 | hpos
  · rw [hshape, h0, stage_row_zero_zero, sort_alternate_nat_empty] at ha
    cases ha
  · rw [hshape, sort_alternate_stage hpos hb, ← triangle_eq] at ha
    simp only [Except.ok.injEq, Prod.mk.injEq] at ha
    have ht := ha.2
    rcases Nat.eq_or_lt_of_le hle with h1 | h1
    · omega
    · have := triangle_strict hpos h1
      omega

/-- On `disk_state(k)`, `k > 0`, `sort_alternate` returns exactly when the row is built and
not empty: `light_count * 2`, computed in `size_t`, is neither `0` nor greater than
`max_size()`. -/
theorem fresh_sort_alternate_iff {k : Nat} (hk : 0 < k) :
    (∃ d r, disk_state.ctor k = .ok d ∧ sort_alternate d = .ok r) ↔
      (0 < size_mul k 2 ∧ size_mul k 2 ≤ MAX_SIZE) := by
  have hb := size_mul_half_bound k
  have hev := size_mul_two_even k
  constructor
  · rintro ⟨d, r, hd, hr⟩
    obtain ⟨_, hmax, hshape⟩ := ctor_ok_shape hd
    refine ⟨?_, hmax⟩
    by_contra h0
    have e : size_mul k 2 / 2 = 0 := by omega
    rw [hshape, e, stage_row_zero_zero, sort_alternate_empty] at hr
    cases hr
  · rintro ⟨h0, hmax⟩
    exact ⟨_, _, ctor_eq hk hmax, sort_alternate_of_nat (sort_alternate_stage (by omega) hb)⟩

theorem mod_uint_le (s : Nat) : s % UINT_MOD ≤ s := Nat.mod_le _ _

/-! ## The swap count of a result is an `unsigned` value -/

theorem int_to_unsigned_lt (v : Int) : int_to_unsigned v < UINT_MOD := by
  unfold int_to_unsigned
  rw [UINT_MOD_eq]
  omega

theorem sort_alternate_count_lt {d : disk_state} {r : sorted_disks}
    (h : sort_alternate d = .ok r) : r.swap_count < UINT_MOD := by
  obtain ⟨s, _, hs⟩ := sort_alternate_to_nat h
  rw [hs]
  exact Nat.mod_lt _ (by rw [UINT_MOD_eq]; omega)

theorem sort_lawnmower_count_lt {d : disk_state} {r : sorted_disks}
    (h : sort_lawnmower d = .ok r) : r.swap_count < UINT_MOD := by
  obtain ⟨s, _, hs⟩ := sort_lawnmower_to_nat h
  rw [hs]
  exact Nat.mod_lt _ (by rw [UINT_MOD_eq]; omega)

/-! ## The step budgets of the sorts are never used up -/

theorem sort_alternate_never_out_of_fuel (d : disk_state) (hlen : d.total_count < SIZE_MOD) :
    sort_alternate d ≠ .error .out_of_fuel := by
  rw [sort_alternate_eq]
  have h := sort_alternate_fuel_enough d hlen
  cases hn : sort_alternate_nat d with
  | error e =>
    rw [hn] at h
    intro hc
    exact h (by cases hc; rfl)
  | ok p =>
    intro hc
    cases hc

theorem sort_lawnmower_never_out_of_fuel (d : disk_state) (hlen : d.total_count < SIZE_MOD) :
    sort_lawnmower d ≠ .error .out_of_fuel := by
  rw [sort_lawnmower_eq]
  have h := sort_lawnmower_fuel_enough d hlen
  cases hn : sort_lawnmower_nat d with
  | error e =>
    rw [hn] at h
    intro hc
    exact h (by cases hc; rfl)
  | ok p =>
    intro hc
    cases hc

/-! ## The rounds of `sort_lawnmower` -/

/-- The run of `sort_lawnmower` is `(n + 1) / 2` rounds of the specification. -/
theorem sort_lawnmower_nat_rounds (r : disk_state) (hn : 0 < r.light_count)
    (hlen : r.total_count < SIZE_MOD) :
    sort_lawnmower_nat r = .ok (lawnmower_spec ((r.light_count + 1) / 2) r) := by
  have hle : 2 * r.light_count ≤ r.total_count := by unfold disk_state.light_count; omega
  have hk := lawnmower_outer_eq_rounds hn hle hlen (r.light_count + 2) 0 r 0 rfl (by omega)
  rw [Nat.sub_zero] at hk
  simp only [sort_lawnmower_nat, hk, lawnmower_spec]

/-! ## One step of a sweep with the `int` counter -/

theorem swap_right_step_counter (j : Nat) (d : disk_state) (s : Int) :
    swap_right_step j d s =
      match swap_right_step_nat j d 0 with
      | .ok (d1, c) => .ok (d1, if c = 0 then s else int_incr s)
      | .error e => .error e := by
  unfold swap_right_step swap_right_step_nat
  cases d.get j with
  | error e => rfl
  | ok c =>
    cases c with
    | DISK_LIGHT => rfl
    | DISK_DARK =>
      simp only []
      cases d.get (size_add j 1) with
      | error e => rfl
      | ok c2 =>
        cases c2 with
        | DISK_DARK => rfl
        | DISK_LIGHT =>
          simp only []
          cases d.swap j with
          | error e => rfl
          | ok d1 => rfl

theorem swap_left_step_counter (j : Nat) (d : disk_state) (s : Int) :
    swap_left_step j d s =
      match swap_left_step_nat j d 0 with
      | .ok (d1, c) => .ok (d1, if c = 0 then s else int_incr s)
      | .error e => .error e := by
  unfold swap_left_step swap_left_step_nat
  cases d.get j with
  | error e => rfl
  | ok c =>
    cases c with
    | DISK_DARK => rfl
    | DISK_LIGHT =>
      simp only []
      cases d.get (size_sub j 1) with
      | error e => rfl
      | ok c2 =>
        cases c2 with
        | DISK_LIGHT => rfl
        | DISK_DARK =>
          simp only []
          cases d.swap (size_sub j 1) with
          | error e => rfl
          | ok d1 => rfl

/-- A step of the left-to-right sweeps either keeps the row and the counter or swaps a
dark disk at `j` with the light disk at `j + 1` and increments the counter. -/
theorem right_step_int {j : Nat} {d d1 : disk_state} {s s1 : Int}
    (hlen : d.total_count < SIZE_MOD) (h : swap_right_step j d s = .ok (d1, s1)) :
    (d1 = d ∧ s1 = s) ∨
      (coloring d j = DISK_DARK ∧ coloring d (j + 1) = DISK_LIGHT ∧ d.swap j = .ok d1 ∧
        s1 = int_incr s) := by
  rw [swap_right_step_counter] at h
  cases hn : swap_right_step_nat j d 0 with
  | error e => rw [hn] at h; cases h
  | ok p =>
    obtain ⟨d2, c⟩ := p
    rw [hn] at h
    simp only [Except.ok.injEq, Prod.mk.injEq] at h
    obtain ⟨h1, h2⟩ := h
    subst h1
    rcases right_step_swap hlen hn with ⟨e1, e2⟩ | ⟨e1, e2, e3, e4⟩
    · left
      rw [e2, if_pos rfl] at h2
      exact ⟨e1, h2.symm⟩
    · right
      rw [e4, if_neg (by omega)] at h2
      exact ⟨e1, e2, e3, h2.symm⟩

/-- A step of the right-to-left sweep either keeps the row and the counter or swaps a
dark disk at `j - 1` with the light disk at `j` and increments the counter. -/
theorem left_step_int {j : Nat} {d d1 : disk_state} {s s1 : Int}
    (hlen : d.total_count < SIZE_MOD) (h : swap_left_step j d s = .ok (d1, s1)) :
    (d1 = d ∧ s1 = s) ∨
      (0 < j ∧ coloring d (j - 1) = DISK_DARK ∧ coloring d (j - 1 + 1) = DISK_LIGHT ∧
        d.swap (j - 1) = .ok d1 ∧ s1 = int_incr s) := by
  rw [swap_left_step_counter] at h
  cases hn : swap_left_step_nat j d 0 with
  | error e => rw [hn] at h; cases h
  | ok p =>
    obtain ⟨d2, c⟩ := p
    rw [hn] at h
    simp only [Except.ok.injEq, Prod.mk.injEq] at h
    obtain ⟨h1, h2⟩ := h
    subst h1
    rcases left_step_swap hlen hn with ⟨e1, e2⟩ | ⟨e0, e1, e2, e3, e4⟩
    · left
      rw [e2, if_pos rfl] at h2
      exact ⟨e1, h2.symm⟩
    · right
      rw [e4, if_neg (by omega)] at h2
      exact ⟨e0, e1, e2, e3, h2.symm⟩

/-! ## The number of swaps and the inversions -/

theorem sort_alternate_nat_inversions {r d1 : disk_state} {s : Nat}
    (hlen : r.total_count < SIZE_MOD) (h : sort_alternate_nat r = .ok (d1, s)) :
    s + inversion_pairs d1 = inversion_pairs r := by
  rw [← inversions_eq_pairs, ← inversions_eq_pairs]
  exact (@sort_alternate_inv (fun d s => s + inversions d = inversions r) r hlen
    (swap_inv_inversions _ hlen (inversions r)) (Nat.zero_add _) (d1, s) h).2

theorem sort_lawnmower_nat_inversions {r d1 : disk_state} {s : Nat}
    (hlen : r.total_count < SIZE_MOD) (h : sort_lawnmower_nat r = .ok (d1, s)) :
    s + inversion_pairs d1 = inversion_pairs r := by
  rw [← inversions_eq_pairs, ← inversions_eq_pairs]
  exact (@sort_lawnmower_inv (fun d s => s + inversions d = inversions r) r hlen
    (swap_inv_inversions _ hlen (inversions r)) (Nat.zero_add _) (d1, s) h).2

theorem triangle_large : triangle 92683 = 4295022903 := by
  rw [triangle_eq]

theorem triangle_large_mod : triangle 92683 % UINT_MOD = 55607 := by
  rw [triangle_large, UINT_MOD_eq]

/-! ## The claims -/

/-- C1 (amended): for every light count `k > 0`, the constructor `disk_state(k)` gives a
row, `sort_alternate` returns on it and the row it returns satisfies `is_sorted()` if and
only if `light_count * 2`, computed in `size_t`, is neither `0` nor greater than
`max_size()`; this is the case for every `k` with `2 * k ≤ max_size()`, that is
`0 < k < 2 ^ 60`. -/
theorem C1_sort_alternate_sorts_alternating (k : Nat) (hk : 0 < k) :
    ((∃ d r, disk_state.ctor k = .ok d ∧ sort_alternate d = .ok r ∧
        r.after.is_sorted = .ok true) ↔ (0 < size_mul k 2 ∧ size_mul k 2 ≤ MAX_SIZE)) ∧
      (2 * k ≤ MAX_SIZE → ∃ d r, disk_state.ctor k = .ok d ∧ sort_alternate d = .ok r ∧
        r.after.is_sorted = .ok true) := by
  have hb := size_mul_half_bound k
  have hev := size_mul_two_even k
  refine ⟨⟨?_, ?_⟩, ?_⟩
  · rintro ⟨d, r, hd, hr, _⟩
    obtain ⟨_, hmax, hshape⟩ := ctor_ok_shape hd
    refine ⟨?_, hmax⟩
    by_contra h0
    have e : size_mul k 2 / 2 = 0 := by omega
    rw [hshape, e, stage_row_zero_zero, sort_alternate_empty] at hr
    cases hr
  · rintro ⟨h0, hmax⟩
    exact ⟨_, _, ctor_eq hk hmax,
      sort_alternate_of_nat (sort_alternate_stage (by omega) hb), is_sorted_stage_full hb⟩
  · intro h2
    exact ⟨stage_row k 0, ⟨stage_row k k, triangle k % UINT_MOD⟩, ctor_eq_of_le hk h2,
      sort_alternate_of_nat (sort_alternate_stage hk (Nat.lt_of_le_of_lt h2 max_size_lt)),
      is_sorted_stage_full (Nat.lt_of_le_of_lt h2 max_size_lt)⟩

/-- C1, witness: the amended statement at `k = 3`. -/
theorem C1_sort_alternate_sorts_alternating_witness :
    0 < 3 ∧ 2 * 3 ≤ MAX_SIZE ∧
      ∃ d r, disk_state.ctor 3 = .ok d ∧ sort_alternate d = .ok r ∧
        r.after.is_sorted = .ok true :=
  ⟨by decide, by decide, (C1_sort_alternate_sorts_alternating 3 (by decide)).2 (by decide)⟩

/-- C1, counterexample: for the light count `2 ^ 63` the product `light_count * 2` wraps
to `0` in `size_t`, the assertion `light_count > 0` passes, the constructed row is empty,
and `sort_alternate` fails the assertion of `get(0)`: no sorted row is returned. For the
light count `2 ^ 60` the length `2 ^ 61` is greater than `max_size()` and the constructor
throws `std::length_error`. -/
theorem C1_counterexample :
    (0 < 2 ^ 63 ∧ disk_state.ctor (2 ^ 63) = .ok ⟨[]⟩ ∧
      sort_alternate ⟨[]⟩ = .error .assertion ∧
      ¬ ∃ d r, disk_state.ctor (2 ^ 63) = .ok d ∧ sort_alternate d = .ok r ∧
        r.after.is_sorted = .ok true) ∧
    (0 < 2 ^ 60 ∧ disk_state.ctor (2 ^ 60) = .error .length_error ∧
      ¬ ∃ d r, disk_state.ctor (2 ^ 60) = .ok d ∧ sort_alternate d = .ok r ∧
        r.after.is_sorted = .ok true) := by
  have h1 : disk_state.ctor (2 ^ 63) = .ok ⟨[]⟩ := by decide
  have h2 : sort_alternate ⟨[]⟩ = .error .assertion := by decide
  have h3 : disk_state.ctor (2 ^ 60) = .error .length_error := by decide
  refine ⟨⟨by decide, h1, h2, ?_⟩, by decide, h3, ?_⟩
  · rintro ⟨d, r, hd, hr, _⟩
    rw [h1] at hd
    cases hd
    rw [h2] at hr
    cases hr
  · rintro ⟨d, r, hd, _, _⟩
    rw [h3] at hd
    cases hd

/-- C2 (amended): for every light count `k > 0`, the constructor `disk_state(k)` gives a
row, `sort_lawnmower` returns on it a row that satisfies `is_sorted()`, the bound `(n+1)/2`
of its outer loop is `(k + 1) / 2` in integer division and the row it returns is the row
after exactly `(k + 1) / 2` rounds, if and only if `2 * k ≤ max_size()`, that is
`k < 2 ^ 60`. -/
theorem C2_sort_lawnmower_sorts_alternating (k : Nat) (hk : 0 < k) :
    (∃ d r, disk_state.ctor k = .ok d ∧ sort_lawnmower d = .ok r ∧
      r.after.is_sorted = .ok true ∧ size_add d.light_count 1 / 2 = (k + 1) / 2 ∧
      r.after = (lawnmower_spec ((k + 1) / 2) d).1) ↔ 2 * k ≤ MAX_SIZE := by
  have hM := SIZE_MOD_eq
  have hX := MAX_SIZE_eq
  constructor
  · rintro ⟨d, r, hd, _, _, hrounds, _⟩
    obtain ⟨_, hmax, hshape⟩ := ctor_ok_shape hd
    rw [hshape, stage_row_light_count, size_add_eq (by omega)] at hrounds
    unfold size_mul at hmax hrounds
    rw [hM] at hmax hrounds
    omega
  · intro h2
    have h3 : 2 * k < SIZE_MOD := Nat.lt_of_le_of_lt h2 max_size_lt
    have hst := sort_lawnmower_stage hk h3
    have hl : (stage_row k 0).light_count = k := stage_row_light_count k 0
    have hrounds := sort_lawnmower_nat_rounds (stage_row k 0) (by rw [hl]; exact hk)
      (by rw [stage_row_total_count]; exact h3)
    rw [hst, hl] at hrounds
    refine ⟨stage_row k 0, ⟨stage_row k k, triangle k % UINT_MOD⟩, ctor_eq_of_le hk h2,
      sort_lawnmower_of_nat hst, is_sorted_stage_full h3, ?_, ?_⟩
    · rw [hl, size_add_eq (by omega)]
    · rw [← Except.ok.inj hrounds]
      rfl

/-- C2, witness: the amended statement at `k = 4`. -/
theorem C2_sort_lawnmower_sorts_alternating_witness :
    0 < 4 ∧ 2 * 4 ≤ MAX_SIZE ∧
      ∃ d r, disk_state.ctor 4 = .ok d ∧ sort_lawnmower d = .ok r ∧
        r.after.is_sorted = .ok true ∧ size_add d.light_count 1 / 2 = (4 + 1) / 2 ∧
        r.after = (lawnmower_spec ((4 + 1) / 2) d).1 :=
  ⟨by decide, by decide,
    (C2_sort_lawnmower_sorts_alternating 4 (by decide)).mpr (by decide)⟩

/-- C2, counterexample: for the light count `2 ^ 60` the length `2 ^ 61` is greater than
`max_size()` and the constructor throws `std::length_error`, so `sort_lawnmower` is not
reached. For the light count `2 ^ 63` the constructed row is empty and the outer loop of
`sort_lawnmower` runs `(0 + 1) / 2 = 0` rounds, not `(2 ^ 63 + 1) / 2`. -/
theorem C2_counterexample :
    (0 < 2 ^ 60 ∧ disk_state.ctor (2 ^ 60) = .error .length_error ∧
      ¬ ∃ d r, disk_state.ctor (2 ^ 60) = .ok d ∧ sort_lawnmower d = .ok r ∧
        r.after.is_sorted = .ok true) ∧
    (0 < 2 ^ 63 ∧ disk_state.ctor (2 ^ 63) = .ok ⟨[]⟩ ∧
      size_add (disk_state.light_count ⟨[]⟩) 1 / 2 = 0 ∧ (2 ^ 63 + 1) / 2 ≠ 0) := by
  have h3 : disk_state.ctor (2 ^ 60) = .error .length_error := by decide
  refine ⟨⟨by decide, h3, ?_⟩, by decide, by decide, by decide, by decide⟩
  rintro ⟨d, r, hd, _, _⟩
  rw [h3] at hd
  cases hd

/-- C3 (amended): for every row `r` holding `n` light and `n` dark disks in any order
(`n > 0`, and `2 * n < 2 ^ 64` as in every vector), `sort_alternate` returns after the
`n + 1` passes of its outer loop, and the row it returns satisfies `is_sorted()` if and
only if every prefix of even length of `r` holds at least as many light as dark disks;
on every other such row `is_sorted()` is false on the result. -/
theorem C3_sort_alternate_sorts_iff_prefixes (r : disk_state) (n : Nat) (hn : 0 < n)
    (h2 : 2 * n < SIZE_MOD) (hl : r._colors.count DISK_LIGHT = n)
    (hd : r._colors.count DISK_DARK = n) :
    ∃ res, sort_alternate r = .ok res ∧ size_add r.light_count 1 = n + 1 ∧
      res.after.is_sorted = .ok (decide (light_prefixes r)) := by
  have hM := SIZE_MOD_eq
  have htot : r.total_count = 2 * n := by
    unfold disk_state.total_count
    rw [length_eq_counts, hl, hd]
    omega
  have hlc : r.light_count = n := by
    unfold disk_state.light_count
    rw [htot]
    omega
  obtain ⟨res, h1, h3⟩ := sort_alternate_sorted_iff r n hn htot h2 hl
  refine ⟨res, h1, ?_, h3⟩
  rw [hlc, size_add_eq (by omega)]

/-- C3, witness: the amended statement at the row `D L D L` (`n = 2`), which is not the
alternating row of the constructor; each of its prefixes of even length holds as many
light as dark disks, and `sort_alternate` returns a sorted row on it. -/
theorem C3_sort_alternate_sorts_iff_prefixes_witness :
    0 < 2 ∧ 2 * 2 < SIZE_MOD ∧
      List.count DISK_LIGHT [DISK_DARK, DISK_LIGHT, DISK_DARK, DISK_LIGHT] = 2 ∧
      List.count DISK_DARK [DISK_DARK, DISK_LIGHT, DISK_DARK, DISK_LIGHT] = 2 ∧
      light_prefixes ⟨[DISK_DARK, DISK_LIGHT, DISK_DARK, DISK_LIGHT]⟩ ∧
      ∃ res, sort_alternate ⟨[DISK_DARK, DISK_LIGHT, DISK_DARK, DISK_LIGHT]⟩ = .ok res ∧
        size_add (disk_state.light_count ⟨[DISK_DARK, DISK_LIGHT, DISK_DARK, DISK_LIGHT]⟩) 1 =
          2 + 1 ∧
        res.after.is_sorted =
          .ok (decide (light_prefixes ⟨[DISK_DARK, DISK_LIGHT, DISK_DARK, DISK_LIGHT]⟩)) :=
  ⟨by decide, by decide, by decide, by decide, by decide,
    C3_sort_alternate_sorts_iff_prefixes ⟨[DISK_DARK, DISK_LIGHT, DISK_DARK, DISK_LIGHT]⟩ 2
      (by decide) (by decide) (by decide) (by decide)⟩

/-- C3, counterexample: the row `D D L L` holds two light and two dark disks, and
`sort_alternate` returns `L D L D` on it after its three passes, which is not in
sorted-blocks form; its prefix `D D` of length two holds no light disk. -/
theorem C3_counterexample :
    List.count DISK_LIGHT [DISK_DARK, DISK_DARK, DISK_LIGHT, DISK_LIGHT] = 2 ∧
      List.count DISK_DARK [DISK_DARK, DISK_DARK, DISK_LIGHT, DISK_LIGHT] = 2 ∧
      sort_alternate ⟨[DISK_DARK, DISK_DARK, DISK_LIGHT, DISK_LIGHT]⟩ =
        .ok ⟨⟨[DISK_LIGHT, DISK_DARK, DISK_LIGHT, DISK_DARK]⟩, 3⟩ ∧
      disk_state.is_sorted ⟨[DISK_LIGHT, DISK_DARK, DISK_LIGHT, DISK_DARK]⟩ = .ok false ∧
      ¬ light_prefixes ⟨[DISK_DARK, DISK_DARK, DISK_LIGHT, DISK_LIGHT]⟩ := by
  decide

/-- C4 (amended): for every row `r` of `k` light and `k` dark disks (`k > 0`, and
`2 * k < 2 ^ 64` as in every vector) the two algorithms return; the row that
`sort_alternate` returns is in sorted-blocks form if and only if every prefix of even
length of `r` holds at least as many light as dark disks; and on every such row the final
rows of the two algorithms are the same: they are equal, `operator==` gives true on
them, and both satisfy `is_sorted()`. -/
theorem C4_same_final_row_on_prefix_rows (r : disk_state) (k : Nat) (hk : 0 < k)
    (h2 : 2 * k < SIZE_MOD) (hl : r._colors.count DISK_LIGHT = k)
    (hd : r._colors.count DISK_DARK = k) :
    ∃ ra rl, sort_alternate r = .ok ra ∧ sort_lawnmower r = .ok rl ∧
      ra.after.is_sorted = .ok (decide (light_prefixes r)) ∧
      (light_prefixes r →
        ra.after = rl.after ∧ ra.after.op_eq rl.after = .ok true ∧
          rl.after.is_sorted = .ok true) := by
  have htot : r.total_count = 2 * k := by
    unfold disk_state.total_count
    rw [length_eq_counts, hl, hd]
    omega
  have hlen : r.total_count < SIZE_MOD := by rw [htot]; exact h2
  obtain ⟨ra, ha, hsa⟩ := sort_alternate_sorted_iff r k hk htot h2 hl
  obtain ⟨⟨dl, sl⟩, hnl, _⟩ := sort_lawnmower_ok r (by omega) hlen
  refine ⟨ra, ⟨dl, sl % UINT_MOD⟩, ha, sort_lawnmower_of_nat hnl, hsa, ?_⟩
  intro hp
  rw [decide_eq_true hp] at hsa
  obtain ⟨rl, hlw, hsl⟩ := sort_lawnmower_sorted_of_prefixes r k hk htot h2 hl hp
  rw [sort_lawnmower_of_nat hnl] at hlw
  rw [← Except.ok.inj hlw] at hsl
  obtain ⟨sa, hna, _⟩ := sort_alternate_to_nat ha
  have hta : ra.after.total_count = 2 * k := by
    rw [← htot]
    exact (sort_alternate_nat_perm hlen hna).length_eq
  have htl : dl.total_count = 2 * k := by
    rw [← htot]
    exact (sort_lawnmower_nat_perm hlen hnl).length_eq
  have e : ra.after = dl := by
    rw [sorted_eq_blocks hta (by rw [hta]; exact h2) hsa,
      sorted_eq_blocks htl (by rw [htl]; exact h2) hsl]
  refine ⟨e, ?_, hsl⟩
  rw [e]
  exact op_eq_self _

/-- C4, witness: the amended statement at the row `D L D L` (`k = 2`), whose prefixes of
even length hold as many light as dark disks. -/
theorem C4_same_final_row_on_prefix_rows_witness :
    0 < 2 ∧ 2 * 2 < SIZE_MOD ∧
      List.count DISK_LIGHT [DISK_DARK, DISK_LIGHT, DISK_DARK, DISK_LIGHT] = 2 ∧
      List.count DISK_DARK [DISK_DARK, DISK_LIGHT, DISK_DARK, DISK_LIGHT] = 2 ∧
      light_prefixes ⟨[DISK_DARK, DISK_LIGHT, DISK_DARK, DISK_LIGHT]⟩ ∧
      ∃ ra rl, sort_alternate ⟨[DISK_DARK, DISK_LIGHT, DISK_DARK, DISK_LIGHT]⟩ = .ok ra ∧
        sort_lawnmower ⟨[DISK_DARK, DISK_LIGHT, DISK_DARK, DISK_LIGHT]⟩ = .ok rl ∧
        ra.after = rl.after ∧ ra.after.op_eq rl.after = .ok true ∧
        rl.after.is_sorted = .ok true :=
  ⟨by decide, by decide, by decide, by decide, by decide,
    (C4_same_final_row_on_prefix_rows ⟨[DISK_DARK, DISK_LIGHT, DISK_DARK, DISK_LIGHT]⟩ 2
      (by decide) (by decide) (by decide) (by decide)).imp fun _ h => h.imp fun _ h2 =>
        ⟨h2.1, h2.2.1, h2.2.2.2 (by decide)⟩⟩

/-- C4, counterexample: on the row `L D D D L L` (three light and three dark disks)
`sort_alternate` returns `L L D L D D` and `sort_lawnmower` returns `L L L D D D`;
`operator==` gives false on the two. The prefix `L D D D` of the row holds one light and
three dark disks. -/
theorem C4_counterexample :
    sort_alternate
        ⟨[DISK_LIGHT, DISK_DARK, DISK_DARK, DISK_DARK, DISK_LIGHT, DISK_LIGHT]⟩ =
        .ok ⟨⟨[DISK_LIGHT, DISK_LIGHT, DISK_DARK, DISK_LIGHT, DISK_DARK, DISK_DARK]⟩, 5⟩ ∧
      sort_lawnmower
        ⟨[DISK_LIGHT, DISK_DARK, DISK_DARK, DISK_DARK, DISK_LIGHT, DISK_LIGHT]⟩ =
        .ok ⟨⟨[DISK_LIGHT, DISK_LIGHT, DISK_LIGHT, DISK_DARK, DISK_DARK, DISK_DARK]⟩, 6⟩ ∧
      disk_state.op_eq
        ⟨[DISK_LIGHT, DISK_LIGHT, DISK_DARK, DISK_LIGHT, DISK_DARK, DISK_DARK]⟩
        ⟨[DISK_LIGHT, DISK_LIGHT, DISK_LIGHT, DISK_DARK, DISK_DARK, DISK_DARK]⟩ =
        .ok false ∧
      ¬ light_prefixes
        ⟨[DISK_LIGHT, DISK_DARK, DISK_DARK, DISK_DARK, DISK_LIGHT, DISK_LIGHT]⟩ := by
  decide

/-- C5: for every row `r` of at least two disks (a vector, so fewer than `2 ^ 64`) for
which `is_sorted()` is true, `sort_alternate(r)` and `sort_lawnmower(r)` both return the
row `r` itself with a swap count of `0`. -/
theorem C5_sorts_keep_sorted_row (r : disk_state) (h2 : 2 ≤ r.total_count)
    (hlen : r.total_count < SIZE_MOD) (hs : r.is_sorted = .ok true) :
    sort_alternate r = .ok ⟨r, 0⟩ ∧ sort_lawnmower r = .ok ⟨r, 0⟩ :=
  ⟨sort_alternate_of_nat (sort_alternate_sorted r h2 hlen hs),
    sort_lawnmower_of_nat (sort_lawnmower_sorted r h2 hlen hs)⟩

/-- C5, witness: the statement at `disk_state(1)`, the row `L D`, which is rendered
`"L D"`, is sorted, and is returned unchanged with no swap by both sorts. -/
theorem C5_sorts_keep_sorted_row_witness :
    disk_state.ctor 1 = .ok ⟨[DISK_LIGHT, DISK_DARK]⟩ ∧
      disk_state.to_string ⟨[DISK_LIGHT, DISK_DARK]⟩ = "L D" ∧
      2 ≤ disk_state.total_count ⟨[DISK_LIGHT, DISK_DARK]⟩ ∧
      disk_state.total_count ⟨[DISK_LIGHT, DISK_DARK]⟩ < SIZE_MOD ∧
      disk_state.is_sorted ⟨[DISK_LIGHT, DISK_DARK]⟩ = .ok true ∧
      sort_alternate ⟨[DISK_LIGHT, DISK_DARK]⟩ = .ok ⟨⟨[DISK_LIGHT, DISK_DARK]⟩, 0⟩ ∧
      sort_lawnmower ⟨[DISK_LIGHT, DISK_DARK]⟩ = .ok ⟨⟨[DISK_LIGHT, DISK_DARK]⟩, 0⟩ :=
  ⟨by decide, by decide, by decide, by decide, by decide,
    C5_sorts_keep_sorted_row ⟨[DISK_LIGHT, DISK_DARK]⟩ (by decide) (by decide) (by decide)⟩

/-- C6: for `k = 3`, `disk_state(3)` is the row rendered `"L D L D L D"`;
`sort_alternate` returns on it the row rendered `"L L L D D D"` with a swap count of `3`,
and `sort_lawnmower` returns on it the same row, rendered `"L L L D D D"`, with a swap
count of `3`. -/
theorem C6_scenario_three :
    disk_state.ctor 3 =
        .ok ⟨[DISK_LIGHT, DISK_DARK, DISK_LIGHT, DISK_DARK, DISK_LIGHT, DISK_DARK]⟩ ∧
      disk_state.to_string
        ⟨[DISK_LIGHT, DISK_DARK, DISK_LIGHT, DISK_DARK, DISK_LIGHT, DISK_DARK]⟩ =
        "L D L D L D" ∧
      sort_alternate
        ⟨[DISK_LIGHT, DISK_DARK, DISK_LIGHT, DISK_DARK, DISK_LIGHT, DISK_DARK]⟩ =
        .ok ⟨⟨[DISK_LIGHT, DISK_LIGHT, DISK_LIGHT, DISK_DARK, DISK_DARK, DISK_DARK]⟩, 3⟩ ∧
      sort_lawnmower
        ⟨[DISK_LIGHT, DISK_DARK, DISK_LIGHT, DISK_DARK, DISK_LIGHT, DISK_DARK]⟩ =
        .ok ⟨⟨[DISK_LIGHT, DISK_LIGHT, DISK_LIGHT, DISK_DARK, DISK_DARK, DISK_DARK]⟩, 3⟩ ∧
      disk_state.to_string (sorted_disks.after
        ⟨⟨[DISK_LIGHT, DISK_LIGHT, DISK_LIGHT, DISK_DARK, DISK_DARK, DISK_DARK]⟩, 3⟩) =
        "L L L D D D" ∧
      sorted_disks.swap_count
        ⟨⟨[DISK_LIGHT, DISK_LIGHT, DISK_LIGHT, DISK_DARK, DISK_DARK, DISK_DARK]⟩, 3⟩ = 3 := by
  decide

/-- C7: for every light count `k > 0`, every swap count that `sort_alternate` reports on
`disk_state(k)` is at most `k * k`, and so is the number of swaps of the run counted as a
natural number. A count is reported exactly when `light_count * 2`, computed in `size_t`,
is neither `0` nor greater than `max_size()`, and so for every `k` with
`2 * k ≤ max_size()`, that is `k < 2 ^ 60`; for the other `k` the constructor throws, or
the row is empty and `sort_alternate` stops at an assertion. -/
theorem C7_alternate_swap_count_le_square (k : Nat) (hk : 0 < k) :
    (∀ d r, disk_state.ctor k = .ok d → sort_alternate d = .ok r →
        r.swap_count ≤ k * k ∧
          ∃ s, sort_alternate_nat d = .ok (r.after, s) ∧ s ≤ k * k ∧
            r.swap_count = s % UINT_MOD) ∧
      ((∃ d r, disk_state.ctor k = .ok d ∧ sort_alternate d = .ok r) ↔
        (0 < size_mul k 2 ∧ size_mul k 2 ≤ MAX_SIZE)) ∧
      (2 * k ≤ MAX_SIZE → ∃ d r, disk_state.ctor k = .ok d ∧ sort_alternate d = .ok r ∧
        r.swap_count ≤ k * k) := by
  have hbound : ∀ m, m ≤ k → triangle m ≤ k * k := fun m hm =>
    Nat.le_trans (triangle_le_sq m) (Nat.mul_le_mul hm hm)
  refine ⟨?_, fresh_sort_alternate_iff hk, ?_⟩
  · intro d r hd hr
    obtain ⟨m, hm, hmk, h2, hshape, hres⟩ := fresh_sort_alternate hd hr
    rw [hres, hshape]
    refine ⟨Nat.le_trans (mod_uint_le _) (hbound m hmk), triangle m,
      sort_alternate_stage hm h2, hbound m hmk, rfl⟩
  · intro h2
    exact ⟨stage_row k 0, ⟨stage_row k k, triangle k % UINT_MOD⟩, ctor_eq_of_le hk h2,
      sort_alternate_of_nat (sort_alternate_stage hk (Nat.lt_of_le_of_lt h2 max_size_lt)),
      Nat.le_trans (mod_uint_le _) (hbound k (Nat.le_refl k))⟩

/-- C7, witness: the statement at `k = 5`, where the count reported is `10`. -/
theorem C7_alternate_swap_count_le_square_witness :
    0 < 5 ∧ disk_state.ctor 5 = .ok (stage_row 5 0) ∧
      sort_alternate (stage_row 5 0) = .ok ⟨stage_row 5 5, 10⟩ ∧
      sorted_disks.swap_count ⟨stage_row 5 5, 10⟩ ≤ 5 * 5 :=
  ⟨by decide, by decide, by decide,
    ((C7_alternate_swap_count_le_square 5 (by decide)).1 (stage_row 5 0)
      ⟨stage_row 5 5, 10⟩ (by decide) (by decide)).1⟩

/-- C8: for every light count `k > 0`, whenever both sorts report a swap count on
`disk_state(k)`, the count of `sort_lawnmower` is less than or equal to the count of
`sort_alternate`. Both report exactly when `light_count * 2`, computed in `size_t`, is
neither `0` nor greater than `max_size()`, and so for every `k` with
`2 * k ≤ max_size()`, that is `k < 2 ^ 60`. -/
theorem C8_lawnmower_count_le_alternate_count (k : Nat) (hk : 0 < k) :
    (∀ d ra rl, disk_state.ctor k = .ok d → sort_alternate d = .ok ra →
        sort_lawnmower d = .ok rl → rl.swap_count ≤ ra.swap_count) ∧
      ((∃ d ra rl, disk_state.ctor k = .ok d ∧ sort_alternate d = .ok ra ∧
          sort_lawnmower d = .ok rl) ↔ (0 < size_mul k 2 ∧ size_mul k 2 ≤ MAX_SIZE)) ∧
      (2 * k ≤ MAX_SIZE → ∃ d ra rl, disk_state.ctor k = .ok d ∧ sort_alternate d = .ok ra ∧
        sort_lawnmower d = .ok rl ∧ rl.swap_count ≤ ra.swap_count) := by
  refine ⟨?_, ⟨?_, ?_⟩, ?_⟩
  · intro d ra rl hd hra hrl
    obtain ⟨m, hm, _, h2, hshape, hres⟩ := fresh_sort_alternate hd hra
    rw [hshape, fresh_sort_lawnmower hm h2] at hrl
    rw [hres, ← Except.ok.inj hrl]
  · rintro ⟨d, ra, _, hd, hra, _⟩
    exact (fresh_sort_alternate_iff hk).mp ⟨d, ra, hd, hra⟩
  · intro h
    obtain ⟨d, ra, hd, hra⟩ := (fresh_sort_alternate_iff hk).mpr h
    obtain ⟨m, hm, _, h2, hshape, _⟩ := fresh_sort_alternate hd hra
    refine ⟨d, ra, ⟨stage_row m m, triangle m % UINT_MOD⟩, hd, hra, ?_⟩
    rw [hshape]
    exact fresh_sort_lawnmower hm h2
  · intro h2
    have h3 : 2 * k < SIZE_MOD := Nat.lt_of_le_of_lt h2 max_size_lt
    exact ⟨stage_row k 0, ⟨stage_row k k, triangle k % UINT_MOD⟩,
      ⟨stage_row k k, triangle k % UINT_MOD⟩, ctor_eq_of_le hk h2,
      sort_alternate_of_nat (sort_alternate_stage hk h3), fresh_sort_lawnmower hk h3,
      Nat.le_refl _⟩

/-- C8, witness: the statement at `k = 4`, where both counts are `6`. -/
theorem C8_lawnmower_count_le_alternate_count_witness :
    0 < 4 ∧ disk_state.ctor 4 = .ok (stage_row 4 0) ∧
      sort_alternate (stage_row 4 0) = .ok ⟨stage_row 4 4, 6⟩ ∧
      sort_lawnmower (stage_row 4 0) = .ok ⟨stage_row 4 4, 6⟩ ∧
      sorted_disks.swap_count ⟨stage_row 4 4, 6⟩ ≤ sorted_disks.swap_count ⟨stage_row 4 4, 6⟩ :=
  ⟨by decide, by decide, by decide, by decide,
    (C8_lawnmower_count_le_alternate_count 4 (by decide)).1 (stage_row 4 0)
      ⟨stage_row 4 4, 6⟩ ⟨stage_row 4 4, 6⟩ (by decide) (by decide) (by decide)⟩

/-- C9 (amended): for every light count `k > 0` for which `disk_state(k)` is built,
`is_initialized()` is true on the row and `is_sorted()` is true on it exactly when it has
at most two disks; for every `k` with `0 < k` and `2 * k ≤ max_size()`, that is
`0 < k < 2 ^ 60`, the row is built and has `2 * k` disks, so that `is_sorted()` is true
on it for `k = 1` and false for every `k > 1`. -/
theorem C9_fresh_row_initialized_not_sorted (k : Nat) (hk : 0 < k) :
    (∀ d, disk_state.ctor k = .ok d →
        d.is_initialized = .ok true ∧ d.is_sorted = .ok (decide (d.total_count ≤ 2))) ∧
      (2 * k ≤ MAX_SIZE → ∃ d, disk_state.ctor k = .ok d ∧ d.total_count = 2 * k ∧
        d.is_initialized = .ok true ∧ d.is_sorted = .ok (decide (k = 1))) := by
  refine ⟨fun d hd => ctor_ok_predicates hd, ?_⟩
  intro h2
  have h3 : 2 * k < SIZE_MOD := Nat.lt_of_le_of_lt h2 max_size_lt
  refine ⟨_, ctor_eq_of_le hk h2, stage_row_total_count k 0, is_initialized_stage_zero h3, ?_⟩
  by_cases h1 : k = 1
  · subst h1
    rw [stage_row_one]
    exact is_sorted_stage_full h3
  · rw [is_sorted_stage_zero (by omega) h3]
    simp [h1]

/-- C9, witness: the amended statement at `k = 2`, where `is_sorted()` is false. -/
theorem C9_fresh_row_initialized_not_sorted_witness :
    0 < 2 ∧ 2 * 2 ≤ MAX_SIZE ∧
      ∃ d, disk_state.ctor 2 = .ok d ∧ d.total_count = 2 * 2 ∧
        d.is_initialized = .ok true ∧ d.is_sorted = .ok (decide (2 = 1)) :=
  ⟨by decide, by decide, (C9_fresh_row_initialized_not_sorted 2 (by decide)).2 (by decide)⟩

/-- C9, counterexample: the light count `2 ^ 63` is greater than `1`, yet the constructed
row is empty (the product `light_count * 2` wraps to `0`) and `is_sorted()` is true on
it. For the light count `2 ^ 60` the constructor throws `std::length_error` and there is no
row to call `is_initialized()` on. -/
theorem C9_counterexample :
    (1 < 2 ^ 63 ∧ disk_state.ctor (2 ^ 63) = .ok ⟨[]⟩ ∧
      disk_state.is_sorted ⟨[]⟩ = .ok true) ∧
    (0 < 2 ^ 60 ∧ disk_state.ctor (2 ^ 60) = .error .length_error) := by
  decide

/-- C10: for every row of at least two disks (a vector, so fewer than `2 ^ 64`),
`sort_alternate` and `sort_lawnmower` both return a result: no `get` and no `swap` of a
run fails its index assertion. A `swap(left)` that passes its assertions has
`left + 2 ≤ total_count()`, that is `left ≤ total_count() - 2`. -/
theorem C10_sorts_stay_in_range (r : disk_state) (h2 : 2 ≤ r.total_count)
    (hlen : r.total_count < SIZE_MOD) :
    (∃ res, sort_alternate r = .ok res) ∧ (∃ res, sort_lawnmower r = .ok res) ∧
      (∀ (d d1 : disk_state) (left : Nat), d.total_count < SIZE_MOD →
        d.swap left = .ok d1 → left + 2 ≤ d.total_count) := by
  obtain ⟨⟨da, sa⟩, ha, _⟩ := sort_alternate_ok r h2 hlen
  obtain ⟨⟨dl, sl⟩, hl, _⟩ := sort_lawnmower_ok r h2 hlen
  refine ⟨⟨_, sort_alternate_of_nat ha⟩, ⟨_, sort_lawnmower_of_nat hl⟩, ?_⟩
  intro d d1 left hd hsw
  unfold disk_state.swap at hsw
  by_cases h1 : d.is_index left = true
  · rw [if_pos h1] at hsw
    by_cases h3 : d.is_index (size_add left 1) = true
    · simp only [disk_state.is_index, decide_eq_true_eq] at h1 h3
      rw [size_add_eq (by omega)] at h3
      omega
    · simp only [] at hsw
      rw [if_neg h3] at hsw
      cases hsw
  · rw [if_neg h1] at hsw
    cases hsw

/-- C10, witness: the statement at the row `D L D L`. -/
theorem C10_sorts_stay_in_range_witness :
    2 ≤ disk_state.total_count ⟨[DISK_DARK, DISK_LIGHT, DISK_DARK, DISK_LIGHT]⟩ ∧
      disk_state.total_count ⟨[DISK_DARK, DISK_LIGHT, DISK_DARK, DISK_LIGHT]⟩ < SIZE_MOD ∧
      ((∃ res, sort_alternate ⟨[DISK_DARK, DISK_LIGHT, DISK_DARK, DISK_LIGHT]⟩ = .ok res) ∧
        (∃ res, sort_lawnmower ⟨[DISK_DARK, DISK_LIGHT, DISK_DARK, DISK_LIGHT]⟩ = .ok res) ∧
        (∀ (d d1 : disk_state) (left : Nat), d.total_count < SIZE_MOD →
          d.swap left = .ok d1 → left + 2 ≤ d.total_count)) :=
  ⟨by decide, by decide,
    C10_sorts_stay_in_range ⟨[DISK_DARK, DISK_LIGHT, DISK_DARK, DISK_LIGHT]⟩ (by decide)
      (by decide)⟩

/-- C11 (amended): the construction `disk_state(k)` fails its assertion if and only if
`k = 0`; it throws `std::length_error`, before the assertion is reached, if and only if
`light_count * 2`, computed in `size_t`, is greater than `max_size()`, as it is for every
`k` with `2 ^ 60 ≤ k < 2 ^ 63`; it succeeds for every other `k`, and then yields the
alternating row of `light_count * 2` disks, the product taken in `size_t`; so for every
`k` with `0 < k` and `2 * k ≤ max_size()`, that is `0 < k < 2 ^ 60`, it succeeds and yields
a row with `total_count() = 2 * k` and `light_count() = dark_count() = k`, whose element
at index `i` is `DISK_LIGHT` for every even `i` and `DISK_DARK` for every odd `i`. -/
theorem C11_constructor (k : Nat) :
    (disk_state.ctor k = .error .assertion ↔ k = 0) ∧
      (disk_state.ctor k = .error .length_error ↔ MAX_SIZE < size_mul k 2) ∧
      (2 ^ 60 ≤ k → k < 2 ^ 63 → disk_state.ctor k = .error .length_error) ∧
      ((∃ d, disk_state.ctor k = .ok d) ↔ (0 < k ∧ size_mul k 2 ≤ MAX_SIZE)) ∧
      (∀ d, disk_state.ctor k = .ok d → d.total_count = size_mul k 2 ∧
        ∀ i, i < d.total_count →
          d.get i = .ok (if i % 2 = 0 then DISK_LIGHT else DISK_DARK)) ∧
      (0 < k → 2 * k ≤ MAX_SIZE → ∃ d, disk_state.ctor k = .ok d ∧
        d.total_count = 2 * k ∧ d.light_count = k ∧ d.dark_count = k ∧
        ∀ i, i < 2 * k → d.get i = .ok (if i % 2 = 0 then DISK_LIGHT else DISK_DARK)) := by
  refine ⟨⟨?_, ?_⟩, ⟨?_, ctor_length_error⟩, ?_, ⟨?_, ?_⟩, fun d hd => ctor_ok_row hd, ?_⟩
  · intro h
    by_contra hk
    rcases Nat.lt_or_ge MAX_SIZE (size_mul k 2) with hm | hm
    · rw [ctor_length_error hm] at h
      cases h
    · rw [ctor_eq (Nat.pos_of_ne_zero hk) hm] at h
      cases h
  · intro hk
    subst hk
    rfl
  · intro h
    by_contra hm
    rcases Nat.eq_zero_or_pos k with h0 | h0
    · subst h0
      rw [ctor_zero] at h
      cases h
    · rw [ctor_eq h0 (by omega)] at h
      cases h
  · intro h1 h2
    apply ctor_length_error
    have hM := SIZE_MOD_eq
    have hX := MAX_SIZE_eq
    unfold size_mul
    rw [Nat.mod_eq_of_lt (by omega)]
    omega
  · rintro ⟨d, hd⟩
    obtain ⟨h1, h2, _⟩ := ctor_ok_shape hd
    exact ⟨h1, h2⟩
  · rintro ⟨h1, h2⟩
    exact ⟨_, ctor_eq h1 h2⟩
  · intro hk h2
    have e1 : (stage_row k 0).total_count = 2 * k := total_count_row_of _ _
    have e2 : (stage_row k 0).light_count = k := by
      unfold disk_state.light_count
      rw [e1]
      omega
    refine ⟨stage_row k 0, ctor_eq_of_le hk h2, e1, e2, e2, ?_⟩
    intro i hi
    rw [stage_row, get_row_of _ hi]
    congr 1
    rw [color_eq_iff, stage_dark_iff_le (Nat.zero_le k), ite_light_dark_iff]
    simp only [eq_self_iff_true, and_true]
    omega

/-- C11, witness: the amended statement at `k = 3`. -/
theorem C11_constructor_witness :
    0 < 3 ∧ 2 * 3 ≤ MAX_SIZE ∧ ∃ d, disk_state.ctor 3 = .ok d ∧
        d.total_count = 2 * 3 ∧ d.light_count = 3 ∧ d.dark_count = 3 ∧
        ∀ i, i < 2 * 3 → d.get i = .ok (if i % 2 = 0 then DISK_LIGHT else DISK_DARK) :=
  ⟨by decide, by decide, (C11_constructor 3).2.2.2.2.2 (by decide) (by decide)⟩

/-- C11, counterexample: the construction with the light count `2 ^ 63` succeeds, but
`light_count * 2` wraps to `0` in `size_t` and the row is empty: its `total_count()` is
not `2 * 2 ^ 63` and its `light_count()` is not `2 ^ 63`. The construction with the light
count `2 ^ 60 > 0` does not succeed: the length `2 ^ 61` is greater than `max_size()` and
`std::length_error` is thrown. -/
theorem C11_counterexample :
    (0 < 2 ^ 63 ∧ disk_state.ctor (2 ^ 63) = .ok ⟨[]⟩ ∧
      disk_state.total_count ⟨[]⟩ ≠ 2 * 2 ^ 63 ∧ disk_state.light_count ⟨[]⟩ ≠ 2 ^ 63) ∧
    (0 < 2 ^ 60 ∧ disk_state.ctor (2 ^ 60) = .error .length_error) := by
  decide

/-- C12: for every row (a vector, so of fewer than `2 ^ 64` disks) and every index value,
`get(i)` fails its assertion if and only if `i ≥ total_count()` and returns a colour
otherwise; `swap(left)` fails an assertion if and only if `left + 1 ≥ total_count()`, also
where `left + 1` wraps around in `size_t`, and returns a row otherwise; and a failing
`swap` leaves the row as it was. -/
theorem C12_get_swap_fail (d : disk_state) (hlen : d.total_count < SIZE_MOD) (i left : Nat) :
    (d.get i = .error .assertion ↔ d.total_count ≤ i) ∧
      (i < d.total_count → ∃ c, d.get i = .ok c) ∧
      (d.swap left = .error .assertion ↔ d.total_count ≤ left + 1) ∧
      (left + 1 < d.total_count → ∃ d1, d.swap left = .ok d1) ∧
      (d.total_count ≤ left + 1 → (d.swap_effect left).1 = d) := by
  refine ⟨⟨?_, get_fail⟩, (get_ok_iff d i).mpr, ⟨?_, fun h => (swap_fail h hlen).1⟩,
    fun h => ⟨_, swap_eq_exch h hlen⟩, fun h => (swap_fail h hlen).2⟩
  · intro h
    by_contra hn
    rw [get_eq_coloring (by omega)] at h
    cases h
  · intro h
    by_contra hn
    rw [swap_eq_exch (by omega) hlen] at h
    cases h

/-- C12, witness: on the row `L D`, `swap` with the greatest `size_t` value as left index,
where `left + 1` wraps to `0`, fails its assertion and leaves the row as it was. -/
theorem C12_get_swap_fail_witness :
    disk_state.total_count ⟨[DISK_LIGHT, DISK_DARK]⟩ < SIZE_MOD ∧
      size_add (2 ^ 64 - 1) 1 = 0 ∧
      disk_state.swap ⟨[DISK_LIGHT, DISK_DARK]⟩ (2 ^ 64 - 1) = .error .assertion ∧
      (disk_state.swap_effect ⟨[DISK_LIGHT, DISK_DARK]⟩ (2 ^ 64 - 1)).1 =
        ⟨[DISK_LIGHT, DISK_DARK]⟩ :=
  ⟨by decide, by decide,
    (C12_get_swap_fail ⟨[DISK_LIGHT, DISK_DARK]⟩ (by decide) 0 (2 ^ 64 - 1)).2.2.1.mpr
      (by decide),
    (C12_get_swap_fail ⟨[DISK_LIGHT, DISK_DARK]⟩ (by decide) 0 (2 ^ 64 - 1)).2.2.2.2
      (by decide)⟩

/-- C13: for every row (a vector, so of fewer than `2 ^ 64` disks) and every `left` with
`left + 1 < total_count()`, `swap(left)` returns a row whose element at `left` is the
former element at `left + 1`, whose element at `left + 1` is the former element at
`left`, whose other indices hold the same colour as before, and whose `total_count()` is
unchanged. -/
theorem C13_swap_frame (d : disk_state) (left : Nat) (h : left + 1 < d.total_count)
    (hlen : d.total_count < SIZE_MOD) :
    ∃ d1, d.swap left = .ok d1 ∧ d1.get left = d.get (left + 1) ∧
      d1.get (left + 1) = d.get left ∧
      (∀ i, i ≠ left → i ≠ left + 1 → d1.get i = d.get i) ∧
      d1.total_count = d.total_count := by
  refine ⟨_, swap_eq_exch h hlen, ?_, ?_, ?_, total_count_row_of _ _⟩
  · rw [get_row_of _ (by omega), get_eq_coloring h]
    simp [exch]
  · rw [get_row_of _ h, get_eq_coloring (by omega : left < d.total_count)]
    simp [exch]
  · intro i h1 h2
    by_cases hi : i < d.total_count
    · rw [get_row_of _ hi, get_eq_coloring hi]
      simp [exch, h1, h2]
    · rw [get_row_of_fail _ (by omega), get_fail (by omega)]

/-- C13, witness: the statement at the row `D L L` and `left = 0`. -/
theorem C13_swap_frame_witness :
    0 + 1 < disk_state.total_count ⟨[DISK_DARK, DISK_LIGHT, DISK_LIGHT]⟩ ∧
      disk_state.total_count ⟨[DISK_DARK, DISK_LIGHT, DISK_LIGHT]⟩ < SIZE_MOD ∧
      ∃ d1, disk_state.swap ⟨[DISK_DARK, DISK_LIGHT, DISK_LIGHT]⟩ 0 = .ok d1 ∧
        d1.get 0 = disk_state.get ⟨[DISK_DARK, DISK_LIGHT, DISK_LIGHT]⟩ (0 + 1) ∧
        d1.get (0 + 1) = disk_state.get ⟨[DISK_DARK, DISK_LIGHT, DISK_LIGHT]⟩ 0 ∧
        (∀ i, i ≠ 0 → i ≠ 0 + 1 →
          d1.get i = disk_state.get ⟨[DISK_DARK, DISK_LIGHT, DISK_LIGHT]⟩ i) ∧
        d1.total_count = disk_state.total_count ⟨[DISK_DARK, DISK_LIGHT, DISK_LIGHT]⟩ :=
  ⟨by decide, by decide,
    C13_swap_frame ⟨[DISK_DARK, DISK_LIGHT, DISK_LIGHT]⟩ 0 (by decide) (by decide)⟩

/-- C14: for every row of total count `2 * k` (a vector, so of fewer than `2 ^ 64` disks),
`is_sorted()` returns, and it returns true if and only if every index in `[0, k)` holds
`DISK_LIGHT` and every index in `[k, 2k)` holds `DISK_DARK`, that is if and only if the
row is exactly `k` light disks followed by `k` dark disks. -/
theorem C14_is_sorted_iff (d : disk_state) (k : Nat) (htot : d.total_count = 2 * k)
    (hlen : d.total_count < SIZE_MOD) :
    ∃ b, d.is_sorted = .ok b ∧
      (b = true ↔ (∀ i, i < k → d.get i = .ok DISK_LIGHT) ∧
        (∀ i, k ≤ i → i < 2 * k → d.get i = .ok DISK_DARK)) ∧
      (b = true ↔ d._colors = List.replicate k DISK_LIGHT ++ List.replicate k DISK_DARK) :=
  is_sorted_iff_blocks d k htot hlen

/-- C14, witness: the statement at the row `L L D D` with `k = 2`. -/
theorem C14_is_sorted_iff_witness :
    disk_state.total_count ⟨[DISK_LIGHT, DISK_LIGHT, DISK_DARK, DISK_DARK]⟩ = 2 * 2 ∧
      disk_state.total_count ⟨[DISK_LIGHT, DISK_LIGHT, DISK_DARK, DISK_DARK]⟩ < SIZE_MOD ∧
      ∃ b, disk_state.is_sorted ⟨[DISK_LIGHT, DISK_LIGHT, DISK_DARK, DISK_DARK]⟩ = .ok b ∧
        (b = true ↔ (∀ i, i < 2 →
            disk_state.get ⟨[DISK_LIGHT, DISK_LIGHT, DISK_DARK, DISK_DARK]⟩ i =
              .ok DISK_LIGHT) ∧
          (∀ i, 2 ≤ i → i < 2 * 2 →
            disk_state.get ⟨[DISK_LIGHT, DISK_LIGHT, DISK_DARK, DISK_DARK]⟩ i =
              .ok DISK_DARK)) ∧
        (b = true ↔ disk_state._colors ⟨[DISK_LIGHT, DISK_LIGHT, DISK_DARK, DISK_DARK]⟩ =
          List.replicate 2 DISK_LIGHT ++ List.replicate 2 DISK_DARK) :=
  ⟨by decide, by decide,
    C14_is_sorted_iff ⟨[DISK_LIGHT, DISK_LIGHT, DISK_DARK, DISK_DARK]⟩ 2 (by decide)
      (by decide)⟩

/-- C15: for every row (a vector of `disk_color`, so of at most `2 ^ 64 - 2` disks),
`is_initialized()` returns, and it returns true if and only if for every valid index `i`
the element at `i` is `DISK_LIGHT` when `i` is even and `DISK_DARK` when `i` is odd. -/
theorem C15_is_initialized_iff (d : disk_state) (hlen : d.total_count + 2 ≤ SIZE_MOD) :
    ∃ b, d.is_initialized = .ok b ∧
      (b = true ↔ ∀ i, i < d.total_count →
        d.get i = .ok (if i % 2 = 0 then DISK_LIGHT else DISK_DARK)) := by
  obtain ⟨b, hb, hiff⟩ := @is_initialized_row_of d.total_count (coloring d) hlen
  rw [row_of_coloring] at hb
  refine ⟨b, hb, ?_⟩
  rw [hiff]
  constructor
  · intro h i hi
    rw [get_eq_coloring hi, h i hi]
  · intro h i hi
    have := h i hi
    rw [get_eq_coloring hi] at this
    exact Except.ok.inj this

/-- C15, witness: the statement at the row `L D L`. -/
theorem C15_is_initialized_iff_witness :
    disk_state.total_count ⟨[DISK_LIGHT, DISK_DARK, DISK_LIGHT]⟩ + 2 ≤ SIZE_MOD ∧
      ∃ b, disk_state.is_initialized ⟨[DISK_LIGHT, DISK_DARK, DISK_LIGHT]⟩ = .ok b ∧
        (b = true ↔ ∀ i, i < disk_state.total_count ⟨[DISK_LIGHT, DISK_DARK, DISK_LIGHT]⟩ →
          disk_state.get ⟨[DISK_LIGHT, DISK_DARK, DISK_LIGHT]⟩ i =
            .ok (if i % 2 = 0 then DISK_LIGHT else DISK_DARK)) :=
  ⟨by decide, C15_is_initialized_iff ⟨[DISK_LIGHT, DISK_DARK, DISK_LIGHT]⟩ (by decide)⟩

/-- C16 (amended): for every row, `to_string()` is the tokens of the disks in index order
(`"L"` for `DISK_LIGHT`, `"D"` for `DISK_DARK`) joined by one space: its characters are the
characters of the disks with one space between two neighbours, so none in front and none
at the end; for every row of at least one disk its length is `2 * total_count() - 1`;
and two rows of equal length with the same `to_string()` are equal. -/
theorem C16_to_string_joined (d : disk_state) :
    d.to_string = render_joined d ∧
      d.to_string.data = List.intersperse ' ' (d._colors.map disk_char) ∧
      (0 < d.total_count → d.to_string.length + 1 = 2 * d.total_count) ∧
      (∀ d2 : disk_state, d.total_count = d2.total_count → d.to_string = d2.to_string →
        d = d2) := by
  refine ⟨to_string_eq_joined d, to_string_data d, ?_, ?_⟩
  · intro h
    have hne : d._colors.map disk_char ≠ [] := by
      intro hc
      have := congrArg List.length hc
      simp only [List.length_map, List.length_nil] at this
      unfold disk_state.total_count at h
      omega
    have := intersperse_length _ ' ' hne
    rw [← to_string_data, List.length_map] at this
    exact this
  · intro d2 _ h
    have h2 := congrArg String.data h
    rw [to_string_data, to_string_data] at h2
    have h3 := List.map_injective_iff.mpr disk_char_injective (intersperse_injective _ _ _ h2)
    cases d
    cases d2
    simp only at h3
    rw [h3]

/-- C16, witness: the length of the rendering of the row `L D` is `2 * 2 - 1`. -/
theorem C16_to_string_joined_witness :
    0 < disk_state.total_count ⟨[DISK_LIGHT, DISK_DARK]⟩ ∧
      (disk_state.to_string ⟨[DISK_LIGHT, DISK_DARK]⟩).length + 1 =
        2 * disk_state.total_count ⟨[DISK_LIGHT, DISK_DARK]⟩ :=
  ⟨by decide, (C16_to_string_joined ⟨[DISK_LIGHT, DISK_DARK]⟩).2.2.1 (by decide)⟩

/-- C16, counterexample: the empty row, which `disk_state(2 ^ 63)` builds, is rendered as
the empty string, of length `0`, while `2 * total_count() - 1` is `-1`. -/
theorem C16_counterexample :
    disk_state.ctor (2 ^ 63) = .ok ⟨[]⟩ ∧ disk_state.to_string ⟨[]⟩ = "" ∧
      ((disk_state.to_string ⟨[]⟩).length : Int) ≠
        2 * (disk_state.total_count ⟨[]⟩ : Int) - 1 := by
  decide

/-- C17 (amended): for every `k` with `0 < k` and `2 * k < 2 ^ 64`, every row obtained from
`disk_state(k)` by a sequence of `swap` calls that pass their assertions has
`total_count() = 2 * k`, exactly `k` light and `k` dark disks, and
`light_count() = dark_count() = k`; both sorts return on it, and the rows they return
have the same properties. -/
theorem C17_count_invariant (k : Nat) (hk : 0 < k) (h2 : 2 * k < SIZE_MOD) (d : disk_state)
    (hr : reachable k d) :
    count_invariant k d ∧
      ∃ ra rl, sort_alternate d = .ok ra ∧ sort_lawnmower d = .ok rl ∧
        count_invariant k ra.after ∧ count_invariant k rl.after := by
  have hc := reachable_count_invariant h2 hr
  have hlen : d.total_count < SIZE_MOD := by rw [hc.1]; exact h2
  obtain ⟨⟨da, sa⟩, ha, _⟩ := sort_alternate_ok d (by rw [hc.1]; omega) hlen
  obtain ⟨⟨dl, sl⟩, hl, _⟩ := sort_lawnmower_ok d (by rw [hc.1]; omega) hlen
  refine ⟨hc, _, _, sort_alternate_of_nat ha, sort_lawnmower_of_nat hl, ?_, ?_⟩
  · exact count_invariant_of_perm hc (sort_alternate_nat_perm hlen ha)
  · exact count_invariant_of_perm hc (sort_lawnmower_nat_perm hlen hl)

/-- C17, witness: the amended statement at `k = 2` and the row `L L D D`, obtained from
`disk_state(2)` by `swap(1)`. -/
theorem C17_count_invariant_witness :
    0 < 2 ∧ 2 * 2 < SIZE_MOD ∧
      reachable 2 ⟨[DISK_LIGHT, DISK_LIGHT, DISK_DARK, DISK_DARK]⟩ ∧
      (count_invariant 2 ⟨[DISK_LIGHT, DISK_LIGHT, DISK_DARK, DISK_DARK]⟩ ∧
        ∃ ra rl, sort_alternate ⟨[DISK_LIGHT, DISK_LIGHT, DISK_DARK, DISK_DARK]⟩ = .ok ra ∧
          sort_lawnmower ⟨[DISK_LIGHT, DISK_LIGHT, DISK_DARK, DISK_DARK]⟩ = .ok rl ∧
          count_invariant 2 ra.after ∧ count_invariant 2 rl.after) :=
  have hr : reachable 2 ⟨[DISK_LIGHT, DISK_LIGHT, DISK_DARK, DISK_DARK]⟩ :=
    reachable.swapped ⟨[DISK_LIGHT, DISK_DARK, DISK_LIGHT, DISK_DARK]⟩ _ 1
      (reachable.fresh _ (by decide)) (by decide)
  ⟨by decide, by decide, hr, C17_count_invariant 2 (by decide) (by decide) _ hr⟩

/-- C17, counterexample: the row `disk_state(2 ^ 63)` is empty, so its `total_count()` is
`0` and not `2 * 2 ^ 63`. -/
theorem C17_counterexample :
    0 < 2 ^ 63 ∧ reachable (2 ^ 63) ⟨[]⟩ ∧ disk_state.total_count ⟨[]⟩ ≠ 2 * 2 ^ 63 ∧
      ¬ count_invariant (2 ^ 63) ⟨[]⟩ :=
  ⟨by decide, reachable.fresh _ (by decide), by decide, fun h => absurd h.1 (by decide)⟩

/-- C18 (amended): for every row `r` with `n = light_count() > 0` (a vector, so of fewer
than `2 ^ 64` disks), `sort_lawnmower` returns the final row of applying one round (a
left-to-right sweep over the positions `0 .. 2n-2` swapping each dark disk followed by a
light one, then a right-to-left sweep over the same positions) exactly `(n + 1) / 2`
times, in integer division, to a copy of `r`, and its swap count is the number of swaps
of these rounds modulo `2 ^ 32`. -/
theorem C18_lawnmower_rounds (r : disk_state) (hn : 0 < r.light_count)
    (hlen : r.total_count < SIZE_MOD) :
    sort_lawnmower r =
      .ok ⟨(lawnmower_spec ((r.light_count + 1) / 2) r).1,
        (lawnmower_spec ((r.light_count + 1) / 2) r).2 % UINT_MOD⟩ :=
  sort_lawnmower_of_nat (sort_lawnmower_nat_rounds r hn hlen)

/-- C18, witness: the amended statement at the row `D L D L`. -/
theorem C18_lawnmower_rounds_witness :
    0 < disk_state.light_count ⟨[DISK_DARK, DISK_LIGHT, DISK_DARK, DISK_LIGHT]⟩ ∧
      disk_state.total_count ⟨[DISK_DARK, DISK_LIGHT, DISK_DARK, DISK_LIGHT]⟩ < SIZE_MOD ∧
      sort_lawnmower ⟨[DISK_DARK, DISK_LIGHT, DISK_DARK, DISK_LIGHT]⟩ =
        .ok ⟨(lawnmower_spec
            ((disk_state.light_count ⟨[DISK_DARK, DISK_LIGHT, DISK_DARK, DISK_LIGHT]⟩ + 1) / 2)
            ⟨[DISK_DARK, DISK_LIGHT, DISK_DARK, DISK_LIGHT]⟩).1,
          (lawnmower_spec
            ((disk_state.light_count ⟨[DISK_DARK, DISK_LIGHT, DISK_DARK, DISK_LIGHT]⟩ + 1) / 2)
            ⟨[DISK_DARK, DISK_LIGHT, DISK_DARK, DISK_LIGHT]⟩).2 % UINT_MOD⟩ :=
  ⟨by decide, by decide,
    C18_lawnmower_rounds ⟨[DISK_DARK, DISK_LIGHT, DISK_DARK, DISK_LIGHT]⟩ (by decide)
      (by decide)⟩

/-- C18, counterexample: on the row `D D L L` (`n = 2`) `sort_lawnmower` returns
`L D L D` with `3` swaps, the result of one round, while `ceil((n+1)/2) = 2` rounds give
`L L D D` with `4` swaps. And on the alternating row of `92683` light disks the rounds
make `4295022903` swaps, while the swap count returned is `55607`: the `int` counter has
wrapped. -/
theorem C18_counterexample :
    (disk_state.light_count ⟨[DISK_DARK, DISK_DARK, DISK_LIGHT, DISK_LIGHT]⟩ = 2 ∧
      sort_lawnmower ⟨[DISK_DARK, DISK_DARK, DISK_LIGHT, DISK_LIGHT]⟩ =
        .ok ⟨⟨[DISK_LIGHT, DISK_DARK, DISK_LIGHT, DISK_DARK]⟩, 3⟩ ∧
      lawnmower_spec ((2 + 1 + 1) / 2) ⟨[DISK_DARK, DISK_DARK, DISK_LIGHT, DISK_LIGHT]⟩ =
        (⟨[DISK_LIGHT, DISK_LIGHT, DISK_DARK, DISK_DARK]⟩, 4)) ∧
    (disk_state.ctor 92683 = .ok (stage_row 92683 0) ∧
      (stage_row 92683 0).light_count = 92683 ∧
      sort_lawnmower (stage_row 92683 0) = .ok ⟨stage_row 92683 92683, 55607⟩ ∧
      lawnmower_spec ((92683 + 1) / 2) (stage_row 92683 0) =
        (stage_row 92683 92683, 4295022903)) := by
  have hM := SIZE_MOD_eq
  have hX := MAX_SIZE_eq
  have hl : (stage_row 92683 0).light_count = 92683 := stage_row_light_count _ _
  have hst := @sort_lawnmower_stage 92683 (by omega) (by omega)
  have hr := sort_lawnmower_nat_rounds (stage_row 92683 0) (by rw [hl]; omega)
    (by rw [stage_row_total_count]; omega)
  rw [hst, hl, triangle_large] at hr
  refine ⟨by decide, @ctor_eq_of_le 92683 (by omega) (by omega), hl, ?_,
    (Except.ok.inj hr).symm⟩
  rw [sort_lawnmower_of_nat hst, triangle_large_mod]

/-- C19 (amended): for every `k > 0`, `sort_alternate` and `sort_lawnmower` both return
on `disk_state(k)` after exactly `k * (k - 1) / 2` swaps if and only if
`2 * k ≤ max_size()`, that is `k < 2 ^ 60`; the swap count each reports is then this
number modulo `2 ^ 32`, and it is this number itself when the counter does not
overflow. -/
theorem C19_swap_counts_exact (k : Nat) (hk : 0 < k) :
    ((∃ d ra rl, disk_state.ctor k = .ok d ∧ sort_alternate d = .ok ra ∧
        sort_lawnmower d = .ok rl ∧
        sort_alternate_nat d = .ok (ra.after, k * (k - 1) / 2) ∧
        sort_lawnmower_nat d = .ok (rl.after, k * (k - 1) / 2)) ↔ 2 * k ≤ MAX_SIZE) ∧
      (2 * k ≤ MAX_SIZE → ∃ d ra rl, disk_state.ctor k = .ok d ∧ sort_alternate d = .ok ra ∧
        sort_lawnmower d = .ok rl ∧
        sort_alternate_nat d = .ok (ra.after, k * (k - 1) / 2) ∧
        sort_lawnmower_nat d = .ok (rl.after, k * (k - 1) / 2) ∧
        ra.swap_count = k * (k - 1) / 2 % UINT_MOD ∧
        rl.swap_count = k * (k - 1) / 2 % UINT_MOD ∧
        (k * (k - 1) / 2 < 2 ^ 31 →
          ra.swap_count = k * (k - 1) / 2 ∧ rl.swap_count = k * (k - 1) / 2)) := by
  have hU := UINT_MOD_eq
  have main : 2 * k ≤ MAX_SIZE → ∃ d ra rl, disk_state.ctor k = .ok d ∧
      sort_alternate d = .ok ra ∧ sort_lawnmower d = .ok rl ∧
      sort_alternate_nat d = .ok (ra.after, k * (k - 1) / 2) ∧
      sort_lawnmower_nat d = .ok (rl.after, k * (k - 1) / 2) ∧
      ra.swap_count = k * (k - 1) / 2 % UINT_MOD ∧
      rl.swap_count = k * (k - 1) / 2 % UINT_MOD ∧
      (k * (k - 1) / 2 < 2 ^ 31 →
        ra.swap_count = k * (k - 1) / 2 ∧ rl.swap_count = k * (k - 1) / 2) := by
    intro h2
    have h3 : 2 * k < SIZE_MOD := Nat.lt_of_le_of_lt h2 max_size_lt
    have ha := sort_alternate_stage hk h3
    have hl := sort_lawnmower_stage hk h3
    rw [triangle_eq] at ha hl
    refine ⟨stage_row k 0, ⟨stage_row k k, k * (k - 1) / 2 % UINT_MOD⟩,
      ⟨stage_row k k, k * (k - 1) / 2 % UINT_MOD⟩, ctor_eq_of_le hk h2,
      sort_alternate_of_nat ha, sort_lawnmower_of_nat hl, ha, hl, rfl, rfl, ?_⟩
    intro hsmall
    have e : k * (k - 1) / 2 % UINT_MOD = k * (k - 1) / 2 := Nat.mod_eq_of_lt (by omega)
    exact ⟨e, e⟩
  refine ⟨⟨?_, ?_⟩, main⟩
  · rintro ⟨d, ra, rl, hd, _, _, hna, _⟩
    exact fresh_count_exact hd hna
  · intro h2
    obtain ⟨d, ra, rl, h1, h3, h4, h5, h6, _⟩ := main h2
    exact ⟨d, ra, rl, h1, h3, h4, h5, h6⟩

/-- C19, witness: the amended statement at `k = 5`. -/
theorem C19_swap_counts_exact_witness :
    0 < 5 ∧ 2 * 5 ≤ MAX_SIZE ∧
      ∃ d ra rl, disk_state.ctor 5 = .ok d ∧ sort_alternate d = .ok ra ∧
        sort_lawnmower d = .ok rl ∧
        sort_alternate_nat d = .ok (ra.after, 5 * (5 - 1) / 2) ∧
        sort_lawnmower_nat d = .ok (rl.after, 5 * (5 - 1) / 2) ∧
        ra.swap_count = 5 * (5 - 1) / 2 % UINT_MOD ∧
        rl.swap_count = 5 * (5 - 1) / 2 % UINT_MOD ∧
        (5 * (5 - 1) / 2 < 2 ^ 31 →
          ra.swap_count = 5 * (5 - 1) / 2 ∧ rl.swap_count = 5 * (5 - 1) / 2) :=
  ⟨by decide, by decide, (C19_swap_counts_exact 5 (by decide)).2 (by decide)⟩

/-- C19, counterexample: for the light count `2 ^ 63` the constructed row is empty;
`sort_alternate` stops at a failed assertion and reports no count, and `sort_lawnmower`
reports `0`, which is not `2 ^ 63 * (2 ^ 63 - 1) / 2`. For the light count `2 ^ 60` the
constructor throws `std::length_error` and neither sort is reached. -/
theorem C19_counterexample :
    (disk_state.ctor (2 ^ 63) = .ok ⟨[]⟩ ∧ sort_alternate ⟨[]⟩ = .error .assertion ∧
      sort_lawnmower ⟨[]⟩ = .ok ⟨⟨[]⟩, 0⟩ ∧ (0 : Nat) ≠ 2 ^ 63 * (2 ^ 63 - 1) / 2) ∧
    (0 < 2 ^ 60 ∧ disk_state.ctor (2 ^ 60) = .error .length_error) := by
  decide

/-- C20 (amended): for every row `r` of at least two disks (a vector, so of fewer than
`2 ^ 64` disks) both sorts return; the number of swaps of each run equals the number of
inversions of `r` (pairs `i < j` with `DISK_DARK` at `i` and `DISK_LIGHT` at `j`) minus
the number of inversions of the returned row; the swap count returned is this number
modulo `2 ^ 32`, and this number itself when it is below `2 ^ 31`; the returned row has
no more inversions than `r`; and every step of a sweep either leaves row and counter as
they are or swaps a dark disk with the light disk directly right of it, increments the
`int` counter and lowers the number of inversions by exactly one. -/
theorem C20_swaps_lower_inversions (r : disk_state) (h2 : 2 ≤ r.total_count)
    (hlen : r.total_count < SIZE_MOD) :
    (∃ ra rl, sort_alternate r = .ok ra ∧ sort_lawnmower r = .ok rl ∧
        inversion_pairs ra.after ≤ inversion_pairs r ∧
        inversion_pairs rl.after ≤ inversion_pairs r ∧
        sort_alternate_nat r =
          .ok (ra.after, inversion_pairs r - inversion_pairs ra.after) ∧
        sort_lawnmower_nat r =
          .ok (rl.after, inversion_pairs r - inversion_pairs rl.after) ∧
        ra.swap_count = (inversion_pairs r - inversion_pairs ra.after) % UINT_MOD ∧
        rl.swap_count = (inversion_pairs r - inversion_pairs rl.after) % UINT_MOD ∧
        (inversion_pairs r < 2 ^ 31 →
          ra.swap_count + inversion_pairs ra.after = inversion_pairs r ∧
          rl.swap_count + inversion_pairs rl.after = inversion_pairs r)) ∧
      (∀ (j : Nat) (d d1 : disk_state) (s s1 : Int), d.total_count < SIZE_MOD →
        swap_right_step j d s = .ok (d1, s1) →
        (d1 = d ∧ s1 = s) ∨
          (d.get j = .ok DISK_DARK ∧ d.get (j + 1) = .ok DISK_LIGHT ∧ d.swap j = .ok d1 ∧
            s1 = int_incr s ∧ inversion_pairs d1 + 1 = inversion_pairs d)) ∧
      (∀ (j : Nat) (d d1 : disk_state) (s s1 : Int), d.total_count < SIZE_MOD →
        swap_left_step j d s = .ok (d1, s1) →
        (d1 = d ∧ s1 = s) ∨
          (0 < j ∧ d.get (j - 1) = .ok DISK_DARK ∧ d.get j = .ok DISK_LIGHT ∧
            d.swap (j - 1) = .ok d1 ∧ s1 = int_incr s ∧
            inversion_pairs d1 + 1 = inversion_pairs d)) := by
  have hU := UINT_MOD_eq
  refine ⟨?_, ?_, ?_⟩
  · obtain ⟨⟨da, sa⟩, ha, _⟩ := sort_alternate_ok r h2 hlen
    obtain ⟨⟨dl, sl⟩, hl, _⟩ := sort_lawnmower_ok r h2 hlen
    have ia := sort_alternate_nat_inversions hlen ha
    have il := sort_lawnmower_nat_inversions hlen hl
    have ea : sa = inversion_pairs r - inversion_pairs da := by omega
    have el : sl = inversion_pairs r - inversion_pairs dl := by omega
    refine ⟨⟨da, sa % UINT_MOD⟩, ⟨dl, sl % UINT_MOD⟩, sort_alternate_of_nat ha,
      sort_lawnmower_of_nat hl, by show inversion_pairs da ≤ _; omega,
      by show inversion_pairs dl ≤ _; omega, ?_, ?_, ?_, ?_, ?_⟩
    · show sort_alternate_nat r = .ok (da, inversion_pairs r - inversion_pairs da)
      rw [← ea]
      exact ha
    · show sort_lawnmower_nat r = .ok (dl, inversion_pairs r - inversion_pairs dl)
      rw [← el]
      exact hl
    · show sa % UINT_MOD = (inversion_pairs r - inversion_pairs da) % UINT_MOD
      rw [← ea]
    · show sl % UINT_MOD = (inversion_pairs r - inversion_pairs dl) % UINT_MOD
      rw [← el]
    intro hsmall
    have e1 : sa % UINT_MOD = sa := Nat.mod_eq_of_lt (by omega)
    have e2 : sl % UINT_MOD = sl := Nat.mod_eq_of_lt (by omega)
    constructor
    · show sa % UINT_MOD + inversion_pairs da = inversion_pairs r
      omega
    · show sl % UINT_MOD + inversion_pairs dl = inversion_pairs r
      omega
  · intro j d d1 s s1 hd h
    rcases right_step_int hd h with h1 | ⟨h1, h2, h3, h4⟩
    · exact Or.inl h1
    · obtain ⟨_, _, _, _, _, _, _, _, _, hp⟩ := swap_decomp hd h3
      refine Or.inr ⟨?_, ?_, h3, h4, ?_⟩
      · rw [get_eq_coloring (by omega), h1]
      · rw [get_eq_coloring hp, h2]
      · rw [← inversions_eq_pairs, ← inversions_eq_pairs]
        exact swap_inversions hd h1 h2 h3
  · intro j d d1 s s1 hd h
    rcases left_step_int hd h with h1 | ⟨h0, h1, h2, h3, h4⟩
    · exact Or.inl h1
    · obtain ⟨_, _, _, _, _, _, _, _, _, hp⟩ := swap_decomp hd h3
      refine Or.inr ⟨h0, ?_, ?_, h3, h4, ?_⟩
      · rw [get_eq_coloring (by omega), h1]
      · have e : j - 1 + 1 = j := Nat.sub_add_cancel h0
        rw [e] at h2 hp
        rw [get_eq_coloring hp, h2]
      · rw [← inversions_eq_pairs, ← inversions_eq_pairs]
        exact swap_inversions hd h1 h2 h3

/-- C20, witness: the amended statement at the row `D D L L`, which has four
inversions. -/
theorem C20_swaps_lower_inversions_witness :
    2 ≤ disk_state.total_count ⟨[DISK_DARK, DISK_DARK, DISK_LIGHT, DISK_LIGHT]⟩ ∧
      disk_state.total_count ⟨[DISK_DARK, DISK_DARK, DISK_LIGHT, DISK_LIGHT]⟩ < SIZE_MOD ∧
      inversion_pairs ⟨[DISK_DARK, DISK_DARK, DISK_LIGHT, DISK_LIGHT]⟩ = 4 ∧
      ∃ ra rl, sort_alternate ⟨[DISK_DARK, DISK_DARK, DISK_LIGHT, DISK_LIGHT]⟩ = .ok ra ∧
        sort_lawnmower ⟨[DISK_DARK, DISK_DARK, DISK_LIGHT, DISK_LIGHT]⟩ = .ok rl ∧
        inversion_pairs ra.after ≤
          inversion_pairs ⟨[DISK_DARK, DISK_DARK, DISK_LIGHT, DISK_LIGHT]⟩ ∧
        inversion_pairs rl.after ≤
          inversion_pairs ⟨[DISK_DARK, DISK_DARK, DISK_LIGHT, DISK_LIGHT]⟩ ∧
        ra.swap_count =
          (inversion_pairs ⟨[DISK_DARK, DISK_DARK, DISK_LIGHT, DISK_LIGHT]⟩ -
            inversion_pairs ra.after) % UINT_MOD ∧
        rl.swap_count =
          (inversion_pairs ⟨[DISK_DARK, DISK_DARK, DISK_LIGHT, DISK_LIGHT]⟩ -
            inversion_pairs rl.after) % UINT_MOD :=
  ⟨by decide, by decide, by decide,
    (C20_swaps_lower_inversions ⟨[DISK_DARK, DISK_DARK, DISK_LIGHT, DISK_LIGHT]⟩ (by decide)
      (by decide)).1.imp fun _ h => h.imp fun _ h2 =>
        ⟨h2.1, h2.2.1, h2.2.2.1, h2.2.2.2.1, h2.2.2.2.2.2.2.1, h2.2.2.2.2.2.2.2.1⟩⟩

/-- C20, counterexample: the alternating row of `92683` light disks has at least two
disks; `sort_alternate` returns on it with the swap count `55607`, while the number of
inversions of the row minus the number of inversions of the returned row is
`4295022903`, the number of swaps of the run. -/
theorem C20_counterexample :
    2 ≤ (stage_row 92683 0).total_count ∧
      disk_state.ctor 92683 = .ok (stage_row 92683 0) ∧
      sort_alternate (stage_row 92683 0) = .ok ⟨stage_row 92683 92683, 55607⟩ ∧
      inversion_pairs (stage_row 92683 0) - inversion_pairs (stage_row 92683 92683) =
        4295022903 ∧
      sorted_disks.swap_count ⟨stage_row 92683 92683, 55607⟩ ≠
        inversion_pairs (stage_row 92683 0) - inversion_pairs (stage_row 92683 92683) := by
  have hM := SIZE_MOD_eq
  have hX := MAX_SIZE_eq
  have hst := @sort_alternate_stage 92683 (by omega) (by omega)
  have hinv := @sort_alternate_nat_inversions (stage_row 92683 0) _ _
    (by rw [stage_row_total_count]; omega) hst
  rw [triangle_large] at hinv
  have hdiff : inversion_pairs (stage_row 92683 0) -
      inversion_pairs (stage_row 92683 92683) = 4295022903 := by omega
  refine ⟨by rw [stage_row_total_count]; omega, @ctor_eq_of_le 92683 (by omega) (by omega),
    ?_, hdiff, ?_⟩
  · rw [sort_alternate_of_nat hst, triangle_large_mod]
  · rw [hdiff]
    show (55607 : Nat) ≠ 4295022903
    omega
